import Mathlib

/-! ICP registration (`src/icp.cpp`): embedding and verified properties.

The three functions of `icp.cpp` (`choose_xi`, `localize`, `ICP`) are embedded as
executable definitions.

Conventions of the embedding.

* A C++ `float`/`double` is a value of `F = Option ℚ`: `some q` is the finite number `q` and
  `none` is a non-finite value. The operations `fadd`, `fsub`, `fmul`, `fdiv` are exact: in the
  definitions built on them rounding and overflow are not modelled. The only non-finite values
  the code can then produce from finite ones are those of a division by zero (`0.5/W` with
  `W = 0`, `mu/n` with `n = 0`, `25*d/max` with `max = 0`) and of `sqrt`; each is at once
  multiplied by zero, added to NaN or cast to `int`, so one non-finite value (NaN) is enough.
  Arithmetic propagates it, comparisons with it are false.
* The arithmetic of `choose_xi` and of the statistics of `ICP` is embedded a second time with
  the rounding of the machine (the definitions whose names end in `32`): every operation
  yields the exact result rounded to binary32, or to binary64 where the C++ conversions make
  the operation a `double` one.
* Undefined behaviour of the C++ code (`rand() % 0`, the cast of NaN to `int`, an index outside
  a vector) is the outer `none` of an `Option` result.
* What `icp.cpp` takes from outside (`sqrt`, `rand`, the k-d tree, the eigen solver and the
  header `dualquat.h`) is a field of the structure `Env`.
-/

namespace Registration

/-! ## Floats -/

/-- A float: `none` is NaN, `some q` the finite value `q`. -/
abbrev F := Option ℚ

/-- Float addition. -/
def fadd : F → F → F
  | some x, some y => some (x + y)
  | _, _ => none

instance : Std.Commutative fadd :=
  ⟨fun a b => by cases a <;> cases b <;> simp [fadd, add_comm]⟩

instance : Std.Associative fadd :=
  ⟨fun a b c => by cases a <;> cases b <;> cases c <;> simp [fadd, add_assoc]⟩

/-- Float subtraction. -/
def fsub : F → F → F
  | some x, some y => some (x - y)
  | _, _ => none

/-- Float multiplication. -/
def fmul : F → F → F
  | some x, some y => some (x * y)
  | _, _ => none

/-- Float division; a division by zero gives a non-finite value. -/
def fdiv : F → F → F
  | some x, some y => if y = 0 then none else some (x / y)
  | _, _ => none

/-- The comparison `a < b` of two floats (false when either is NaN). -/
def flt : F → F → Bool
  | some x, some y => decide (x < y)
  | _, _ => false

/-- The C++ predicate `isnan`. -/
def isnan (a : F) : Bool := a.isNone

/-- Truncation toward zero of a finite value, as in the cast `(int) q`. -/
def truncate (q : ℚ) : Int := if 0 ≤ q then ⌊q⌋ else ⌈q⌉

/-- The cast `(int) a`; casting NaN is undefined behaviour. -/
def f2i : F → Option Int
  | some q => some (truncate q)
  | none => none

/-! ## `choose_xi` -/

/-- The constant `num_bins` of `choose_xi`. -/
def num_bins : Nat := 25

/-- One round of the sampling loop of `choose_xi` (lines 25-30):
`r = rand() % matched.size(); if (nearest_d[r][0] > max) max = nearest_d[r][0];`
where `rand n` is the value returned by the `n`-th call of `rand()`. -/
def sampleStep (rand : Nat → Nat) (nearest_d : List F) (size : Nat) (max : F) (n : Nat) :
    Option F :=
  if size = 0 then none
  else match nearest_d[rand n % size]? with
    | none => none
    | some d => some (if flt max d then d else max)

/-- Lines 24-31 of `choose_xi`: the largest of 100 sampled distances, times 1.05. -/
def estimateMax (rand : Nat → Nat) (nearest_d : List F) (size : Nat) : Option F :=
  ((List.range 100).foldlM (sampleStep rand nearest_d size) (some 0)).map
    (fun max => fmul max (some (21 / 20)))

/-- The bin that line 36-40 of `choose_xi` increments for the distance `d`. -/
def binOf (max d : F) : Option Nat :=
  if flt max d then some num_bins
  else match f2i (fdiv (fmul (some (num_bins : ℚ)) d) max) with
    | some k => if 0 ≤ k ∧ k ≤ (num_bins : Int) then some k.toNat else none
    | none => none

/-- The statement `counts[k]++`. -/
def incr (counts : List Nat) (k : Nat) : List Nat := counts.set k (counts.getD k 0 + 1)

/-- The histogram loop of `choose_xi` (lines 35-41) over the distances it reads. -/
def histLoop (max : F) : List F → List Nat → Option (List Nat)
  | [], counts => some counts
  | d :: ds, counts =>
    match binOf max d with
    | none => none
    | some k => histLoop max ds (incr counts k)

/-- Lines 34-41 of `choose_xi`: `num_bins + 1` counters, one increment for each of
`nearest_d[0] .. nearest_d[size-1]`. -/
def histogram (nearest_d : List F) (size : Nat) (max : F) : Option (List Nat) :=
  if nearest_d.length < size then none
  else histLoop max (nearest_d.take size) (List.replicate (num_bins + 1) 0)

/-- One round of the peak loop (lines 46-51); the state is `(peak, elevation)`. -/
def peakStep (counts : List Nat) (s : Nat × Nat) (i : Nat) : Nat × Nat :=
  if counts.getD i 0 > s.2 then (i, counts.getD i 0) else s

/-- Lines 44-51 of `choose_xi`: `(peak, elevation)`. -/
def findPeak (counts : List Nat) : Nat × Nat :=
  (List.range (num_bins + 1)).foldl (peakStep counts) (0, 0)

/-- The valley loop of `choose_xi` (lines 55-58) started at `valley` with
`fuel = num_bins - valley` rounds left; the result is the value of `valley` at the exit. -/
def valleyLoop (counts : List Nat) (elevation : Nat) : Nat → Nat → Nat
  | 0, valley => valley
  | fuel + 1, valley =>
    if (counts.getD valley 0 : ℚ) > (elevation : ℚ) * (3 / 5) then
      valleyLoop counts elevation fuel (valley + 1)
    else if counts.getD (valley + 1) 0 > counts.getD valley 0 then valley
    else valleyLoop counts elevation fuel (valley + 1)

/-- The condition under which the valley loop of `choose_xi` leaves at bin `v` (lines 56-57):
`counts[v] > elevation*0.6` is false and `counts[v+1] > counts[v]` is true. -/
def isValley (counts : List Nat) (elevation v : Nat) : Prop :=
  (counts.getD v 0 : ℚ) ≤ (elevation : ℚ) * (3 / 5) ∧ counts.getD v 0 < counts.getD (v + 1) 0

instance (counts : List Nat) (elevation v : Nat) : Decidable (isValley counts elevation v) := by
  unfold isValley; infer_instance

/-- Lines 54-58 of `choose_xi`: `for (valley = peak+1; valley < num_bins; valley++) ...`. -/
def findValley (counts : List Nat) (peak elevation : Nat) : Nat :=
  valleyLoop counts elevation (num_bins - (peak + 1)) (peak + 1)

/-- The function `choose_xi` of `icp.cpp`; of `matched` only the size is used. -/
def choose_xi (rand : Nat → Nat) (nearest_d : List F) (matched : List Int) : Option F :=
  match estimateMax rand nearest_d matched.length with
  | none => none
  | some max =>
    match histogram nearest_d matched.length max with
    | none => none
    | some counts =>
      let pe := findPeak counts
      let valley := findValley counts pe.1 pe.2
      some (fmul (some ((valley : ℚ) / (num_bins : ℚ))) max)

/-! ## Vectors, matrices and points -/

/-- A column of four floats (`Eigen::Matrix<float, 4, 1>`). -/
abbrev Vec4 := Fin 4 → F

/-- A 4×4 matrix of floats (`Eigen::Matrix<float, 4, 4>`), `M i j` being row `i`, column `j`. -/
abbrev Mat4 := Fin 4 → Fin 4 → F

/-- The matrix `Eigen::Matrix<float, 4, 4>::Zero()`. -/
def mzero : Mat4 := fun _ _ => some 0

/-- The identity matrix. -/
def identity : Mat4 := fun i j => if i = j then some 1 else some 0

/-- The matrix whose entries are all NaN. -/
def nanMat : Mat4 := fun _ _ => none

/-- The column whose entries are all NaN. -/
def nanVec : Fin 4 → F := fun _ => none

/-- The sum `a0 + a1 + a2 + a3` of the four terms of a dot product. -/
def sum4 (a : Fin 4 → F) : F := fadd (fadd (fadd (a 0) (a 1)) (a 2)) (a 3)

/-- Matrix sum. -/
def madd (A B : Mat4) : Mat4 := fun i j => fadd (A i j) (B i j)

/-- Matrix difference. -/
def msub (A B : Mat4) : Mat4 := fun i j => fsub (A i j) (B i j)

/-- Product of a scalar and a matrix. -/
def smul (c : F) (A : Mat4) : Mat4 := fun i j => fmul c (A i j)

/-- Matrix product. -/
def mmul (A B : Mat4) : Mat4 := fun i j => sum4 (fun k => fmul (A i k) (B k j))

/-- Matrix transpose. -/
def transpose (A : Mat4) : Mat4 := fun i j => A j i

/-- Product of a matrix and a column. -/
def mulVec (A : Mat4) (v : Vec4) : Vec4 := fun i => sum4 (fun k => fmul (A i k) (v k))

/-- A `pcl::PointXYZ`: the four floats `data[0..3]` that `getVector4fMap()` maps
(`x`, `y`, `z` and the padding float, which PCL sets to 1). -/
structure PointXYZ where
  x : F
  y : F
  z : F
  w : F
  deriving DecidableEq

/-- The column that `getVector4fMap()` gives. -/
def PointXYZ.getVector4fMap (p : PointXYZ) : Vec4 := fun i =>
  match i with
  | 0 => p.x
  | 1 => p.y
  | 2 => p.z
  | 3 => p.w

/-- A point has a NaN among its floats. -/
def PointXYZ.hasNaN (p : PointXYZ) : Bool := isnan p.x || isnan p.y || isnan p.z || isnan p.w

/-- The point whose floats are all NaN. -/
def nanPoint : PointXYZ := ⟨none, none, none, none⟩

/-- The assignment `p.getVector4fMap() = M * p.getVector4fMap()` (lines 138 and 212). -/
def transformPoint (M : Mat4) (p : PointXYZ) : PointXYZ :=
  let v := mulVec M p.getVector4fMap
  ⟨v 0, v 1, v 2, v 3⟩

/-- A `pcl::PointCloud<pcl::PointXYZ>`: its vector `points`. -/
abbrev PointCloud := List PointXYZ

/-! ## The interface of `dualquat.h` and the external oracles -/

/-- Modelled from the spec: the class `Quat<float>` of the header `dualquat.h`, which is not
among the sources, is four real values (spec, section 3: "Quaternion: 4 real values
representing a rotation (or, for dual-part use, an arbitrary 4-vector)"); the constructor that
`localize` calls on an `Eigen` column, for the real and for the dual part alike, keeps the
four values (spec, section 4.3: "Return a DualQuaternion(real = selected eigenvector,
dual = dual)"). -/
abbrev Quat := Vec4

/-- Modelled from the spec: the class `DualQuat<float>` of `dualquat.h` is the pair (real
quaternion, dual quaternion) (spec, section 3); `ICP` reads the member `r`. -/
structure DualQuat where
  r : Quat
  d : Quat

/-- What `icp.cpp` uses and does not define. -/
structure Env where
  /-- The function `sqrt` on a finite argument. -/
  sqrt : ℚ → F
  /-- The value of the `n`-th call of `rand()` made during the call of `ICP`. -/
  rand : Nat → Nat
  /-- The call `kdtree.nearestKSearch(p, 1, nearest_i[i], nearest_d[i])` on the tree built from
  the reference cloud: the values left in `nearest_i[i][0]` and `nearest_d[i][0]`. -/
  nearestKSearch : PointCloud → PointXYZ → Int × F
  /-- The eigen solver: for each index, the real part of the eigenvalue and the real part of
  the eigenvector column. -/
  eigen : Mat4 → List (F × Vec4)
  /-- The content of the uninitialised column `max_eigenvector`. -/
  uninit : Vec4
  /-- The constructor of `Quat<float>` from a point (`dualquat.h`). -/
  quatOfPoint : PointXYZ → Quat
  /-- The member `Q()` of `Quat<float>` (`dualquat.h`). -/
  Q : Quat → Mat4
  /-- The member `W()` of `Quat<float>` (`dualquat.h`). -/
  W : Quat → Mat4
  /-- The member `Matrix()` of `DualQuat<float>` (`dualquat.h`). -/
  Matrix : DualQuat → Mat4
  /-- The member `getTranslation()` of `DualQuat<float>` (`dualquat.h`). -/
  getTranslation : DualQuat → Fin 3 → F
  /-- The member `Angle()` of `Quat<float>` (`dualquat.h`). -/
  Angle : Quat → F

/-- The function `sqrt` on a float. -/
def fsqrt (env : Env) : F → F
  | some q => env.sqrt q
  | none => none

/-- The member `norm()` of an `Eigen` 3-vector. -/
def norm3 (env : Env) (v : Fin 3 → F) : F :=
  fsqrt env (fadd (fadd (fmul (v 0) (v 0)) (fmul (v 1) (v 1))) (fmul (v 2) (v 2)))

/-! ## `localize` -/

/-- The accumulators `C1`, `C2` and `W` of `localize`. -/
structure Acc where
  C1 : Mat4
  C2 : Mat4
  W : F

/-- The body of the accumulation loop of `localize` (lines 72-76) for an accepted index. -/
def accumulate (env : Env) (acc : Acc) (r p : PointXYZ) : Acc :=
  { C1 := madd acc.C1 (mmul (transpose (env.Q (env.quatOfPoint r))) (env.W (env.quatOfPoint p)))
    C2 := madd acc.C2 (msub (env.W (env.quatOfPoint p)) (env.Q (env.quatOfPoint r)))
    W := fadd acc.W (some 1) }

/-- The accumulation loop of `localize` (lines 70-77); the second argument is
`source->points` from index `i` on, the third `matched` from index `i` on. A read past the end
of `source->points` or of `reference->points` is undefined behaviour. -/
def accLoop (env : Env) (reference : PointCloud) : PointCloud → List Int → Acc → Option Acc
  | _, [], acc => some acc
  | src, m :: ms, acc =>
    if m < 0 then accLoop env reference src.tail ms acc
    else match reference[m.toNat]?, src.head? with
      | some r, some p => accLoop env reference src.tail ms (accumulate env acc r p)
      | _, _ => none

/-- The matrix `A` of line 82 from the accumulators (after `C1 *= -2; C2 *= 2`). -/
def solverMatrix (acc : Acc) : Mat4 :=
  let C1 := smul (some (-2)) acc.C1
  let C2 := smul (some 2) acc.C2
  smul (some (1 / 2))
    (msub (msub (mmul (smul (fdiv (some (1 / 2)) acc.W) (transpose C2)) C2) C1) (transpose C1))

/-- One round of the selection loop of `localize` (lines 88-93). The state is `none` while
`max_eigenvalue` is `-INFINITY` and `max_eigenvector` is uninitialised. -/
def selectStep (best : Option (ℚ × Vec4)) (e : F × Vec4) : Option (ℚ × Vec4) :=
  match e.1, best with
  | none, _ => best
  | some ev, none => some (ev, e.2)
  | some ev, some (m, v) => if m < ev then some (ev, e.2) else some (m, v)

/-- Lines 84-93 of `localize`: the column `max_eigenvector` after the selection loop. -/
def selectEigenvector (env : Env) (A : Mat4) : Vec4 :=
  match (env.eigen A).foldl selectStep none with
  | some (_, v) => v
  | none => env.uninit

/-- The function `localize` of `icp.cpp`. -/
def localize (env : Env) (reference source : PointCloud) (matched : List Int) :
    Option DualQuat :=
  match accLoop env reference source matched ⟨mzero, mzero, some 0⟩ with
  | none => none
  | some acc =>
    let C2 := smul (some 2) acc.C2
    let max_eigenvector := selectEigenvector env (solverMatrix acc)
    some { r := max_eigenvector
           d := mulVec (smul (fdiv (some (-(1 / 2))) acc.W) C2) max_eigenvector }

/-- The value of `localize` when no index is accepted (`W = 0`): the eigenvector selected from
the solver's answer for the all-NaN matrix, and an all-NaN dual part. -/
def nanMotion (env : Env) : DualQuat := { r := selectEigenvector env nanMat, d := nanVec }

/-- The number of entries of `matched` that are not the unmatched sentinel. -/
def matchCount (matched : List Int) : Nat := (matched.filter (fun m => decide (0 ≤ m))).length

/-! ## The solver matrix as the spec words it -/

/-- The pairs `(reference[matched[i]], source[i])` over the accepted indices `i`, those whose
entry of `matched` is not the unmatched sentinel. -/
def acceptedPairs (reference source : PointCloud) (matched : List Int) :
    List (PointXYZ × PointXYZ) :=
  (matched.zip source).filterMap
    (fun mp => if mp.1 < 0 then none else (reference[mp.1.toNat]?).map (fun r => (r, mp.2)))

/-- Written from the spec: `C1`, minus twice the sum of `Q(reference)^T W(source)` over the
accepted correspondences. -/
def specC1 (env : Env) (reference source : PointCloud) (matched : List Int) : Mat4 :=
  smul (some (-2)) ((acceptedPairs reference source matched).foldl
    (fun S rp => madd S (mmul (transpose (env.Q (env.quatOfPoint rp.1)))
      (env.W (env.quatOfPoint rp.2)))) mzero)

/-- Written from the spec: `C2`, twice the sum of `W(source) - Q(reference)` over the accepted
correspondences. -/
def specC2 (env : Env) (reference source : PointCloud) (matched : List Int) : Mat4 :=
  smul (some 2) ((acceptedPairs reference source matched).foldl
    (fun S rp => madd S (msub (env.W (env.quatOfPoint rp.2)) (env.Q (env.quatOfPoint rp.1))))
    mzero)

/-- Written from the spec: `A = 0.5 * (0.5/matchCount * C2^T C2 - C1 - C1^T)`. -/
def specA (env : Env) (reference source : PointCloud) (matched : List Int) : Mat4 :=
  smul (some (1 / 2))
    (msub (msub (mmul (smul (some (1 / 2 / (matchCount matched : ℚ)))
        (transpose (specC2 env reference source matched)))
      (specC2 env reference source matched))
      (specC1 env reference source matched))
      (transpose (specC1 env reference source matched)))

/-- Written from the spec: the dual part `-0.5/matchCount * C2 * e`. -/
def specDual (env : Env) (reference source : PointCloud) (matched : List Int)
    (e : Fin 4 → F) : Fin 4 → F :=
  mulVec (smul (some (-(1 / 2) / (matchCount matched : ℚ)))
    (specC2 env reference source matched)) e

/-! ## `ICP` -/

/-- The constant `MAX_ITER`. -/
def MAX_ITER : Nat := 40

/-- The parameter `D` of `ICP`. -/
def D : F := some 10

/-- The nearest-neighbour loop of `ICP` (lines 145-152): `(nearest_i[i][0], nearest_d[i][0])`
for every source index. -/
def nearestSearch (env : Env) (reference source : PointCloud) : List (Int × F) :=
  source.map (fun p => if isnan p.x then (-1, some 0) else env.nearestKSearch reference p)

/-- The assignments to `matched` of the loop at lines 164-173 and of the loop at
lines 188-194. -/
def matchPass (Dmax : F) (nearest : List (Int × F)) : List Int :=
  nearest.map (fun r => if flt r.2 Dmax then r.1 else -1)

/-- The accumulation of `mu` in the loop at lines 164-173. -/
def sumMu (Dmax : F) (nearest : List (Int × F)) : F :=
  nearest.foldl (fun mu r => if flt r.2 Dmax then fadd mu r.2 else mu) (some 0)

/-- The accumulation of `sigma` in the loop at lines 164-173. -/
def sumSigma (Dmax : F) (nearest : List (Int × F)) : F :=
  nearest.foldl (fun sigma r => if flt r.2 Dmax then fadd sigma (fmul r.2 r.2) else sigma)
    (some 0)

/-- The value of `mu` after line 175; `n` is the number of source indices. -/
def pass1Mu (Dmax : F) (nearest : List (Int × F)) : F :=
  fdiv (sumMu Dmax nearest) (some (nearest.length : ℚ))

/-- The value of `sigma` after line 176. -/
def pass1Sigma (env : Env) (Dmax : F) (nearest : List (Int × F)) : F :=
  fsqrt env (fsub (fdiv (sumSigma Dmax nearest) (some (nearest.length : ℚ)))
    (fmul (pass1Mu Dmax nearest) (pass1Mu Dmax nearest)))

/-- Lines 178-186 of `ICP`: the new `Dmax`, and the number of calls of `rand()` made so far. -/
def updateDmax (env : Env) (calls : Nat) (nearest_d : List F) (matched : List Int)
    (mu sigma : F) : Option (F × Nat) :=
  if flt mu D then some (fadd mu (fmul (some 3) sigma), calls)
  else if flt mu (fmul (some 3) D) then some (fadd mu (fmul (some 2) sigma), calls)
  else if flt mu (fmul (some 6) D) then some (fadd mu sigma, calls)
  else (choose_xi (fun n => env.rand (calls + n)) nearest_d matched).map
    (fun Dmax => (Dmax, calls + 100))

/-- The filter step of `ICP` (lines 160-194): pass 1, the update of `Dmax`, pass 2. The result
is `matched` as given to `localize`, the new `Dmax` and the number of calls of `rand()`. -/
def filterStep (env : Env) (calls : Nat) (nearest : List (Int × F)) (Dmax : F) :
    Option (List Int × F × Nat) :=
  match updateDmax env calls (nearest.map Prod.snd) (matchPass Dmax nearest)
      (pass1Mu Dmax nearest) (pass1Sigma env Dmax nearest) with
  | none => none
  | some (Dmax', calls') => some (matchPass Dmax' nearest, Dmax', calls')

/-- What the loop of `ICP` carries from one iteration to the next. -/
structure State where
  /-- The source cloud, transformed in place. -/
  source : PointCloud
  /-- The cumulative transform. -/
  Trs : Mat4
  /-- The distance threshold. -/
  Dmax : F
  /-- The number of calls of `rand()` made so far. -/
  calls : Nat

/-- One iteration of the loop of `ICP` up to the update of `Trs` (lines 143-216): the new
state and the motion `T` of the iteration. -/
def icpBody (env : Env) (reference : PointCloud) (s : State) : Option (State × DualQuat) :=
  match filterStep env s.calls (nearestSearch env reference s.source) s.Dmax with
  | none => none
  | some (matched, Dmax', calls') =>
    match localize env reference s.source matched with
    | none => none
    | some T =>
      let Tmat := env.Matrix T
      some ({ source := s.source.map (transformPoint Tmat)
              Trs := mmul Tmat s.Trs
              Dmax := Dmax'
              calls := calls' }, T)

/-- The increment `dt` of line 219. -/
def stepDt (env : Env) (T : DualQuat) : F := norm3 env (env.getTranslation T)

/-- The increment `dth` of line 220. -/
def stepDth (env : Env) (T : DualQuat) : F := env.Angle T.r

/-- The stopping test of line 229. -/
def stopTest (iter : Nat) (dt dth : F) : Bool :=
  decide (0 < iter) && flt dt (some (1 / 100)) && flt dth (some (1 / 100))

/-- How the loop of `ICP` was left: by the `break` of line 230 or by `iter < MAX_ITER`
becoming false. The names are those of the spec's terminal states. -/
inductive Exit where
  | Converged
  | IterationLimitReached
  deriving DecidableEq

/-- The outcome of a call of `ICP`. -/
structure Result where
  /-- The state at the exit of the loop (`source` and `Trs` are visible to the caller). -/
  state : State
  /-- The number of iterations of the loop that were run. -/
  iters : Nat
  /-- How the loop was left. -/
  exit : Exit
  /-- The returned value (line 242). -/
  ret : F

/-- The loop of `ICP` (lines 141-232) from iteration `iter` on, `fuel = MAX_ITER - iter` being
the number of iterations the loop condition still allows. -/
def icpLoop (env : Env) (reference : PointCloud) : Nat → Nat → State → Option Result
  | 0, iter, s => some ⟨s, iter, .IterationLimitReached, some 0⟩
  | fuel + 1, iter, s =>
    match icpBody env reference s with
    | none => none
    | some (s', T) =>
      if stopTest iter (stepDt env T) (stepDth env T) then some ⟨s', iter + 1, .Converged, some 0⟩
      else icpLoop env reference fuel (iter + 1) s'

/-- The state at the entry of the loop of `ICP`: `Dmax = 20*D` and the prior applied to the
source points (lines 106-139). -/
def initState (source : PointCloud) (Trs : Mat4) : State :=
  { source := source.map (transformPoint Trs)
    Trs := Trs
    Dmax := fmul (some 20) D
    calls := 0 }

/-- The function `ICP` of `icp.cpp`; `none` is undefined behaviour. -/
def ICP (env : Env) (reference source : PointCloud) (Trs : Mat4) : Option Result :=
  icpLoop env reference MAX_ITER 0 (initState source Trs)

/-- The state after `k` iterations of the loop of `ICP` run without the stopping test. -/
def iterState (env : Env) (reference : PointCloud) (s : State) : Nat → Option State
  | 0 => some s
  | k + 1 =>
    match iterState env reference s k with
    | none => none
    | some s' => (icpBody env reference s').map Prod.fst

/-- The increments `(dt, dth)` of iteration `k` (0-based) of the loop of `ICP`. -/
def increments (env : Env) (reference : PointCloud) (s : State) (k : Nat) : Option (F × F) :=
  match iterState env reference s k with
  | none => none
  | some s' => (icpBody env reference s').map (fun r => (stepDt env r.2, stepDth env r.2))

/-! ## A concrete environment for the examples -/

/-- The squared distance of two points, which `nearestKSearch` of PCL reports. -/
def sqDist (p r : PointXYZ) : F :=
  fadd (fadd (fmul (fsub p.x r.x) (fsub p.x r.x)) (fmul (fsub p.y r.y) (fsub p.y r.y)))
    (fmul (fsub p.z r.z) (fsub p.z r.z))

/-- A linear scan for the nearest point; `best` is `(-1, 0)` until a point has been seen. -/
def scanNearest (p : PointXYZ) : PointCloud → Nat → Int × F → Int × F
  | [], _, best => best
  | r :: rs, i, best =>
    scanNearest p rs (i + 1)
      (if best.1 < 0 ∨ flt (sqDist p r) best.2 = true then ((i : Int), sqDist p r) else best)

/-- An environment for the examples: an exact nearest-neighbour search, a square root that is
exact on squares, an eigen solver that answers with the diagonal and the unit columns (exact on
diagonal matrices), the usual matrix forms of a quaternion `(w, x, y, z)`, and a `dualquat.h`
whose `Matrix()` is the identity and whose increments are zero. -/
def sampleEnv : Env where
  sqrt := fun q => if q < 0 then none else some ((Nat.sqrt (q.num.toNat * q.den) : ℚ) / q.den)
  rand := fun _ => 0
  nearestKSearch := fun reference p => scanNearest p reference 0 (-1, some 0)
  eigen := fun A => [(A 0 0, fun i => if i = 0 then some 1 else some 0),
    (A 1 1, fun i => if i = 1 then some 1 else some 0),
    (A 2 2, fun i => if i = 2 then some 1 else some 0),
    (A 3 3, fun i => if i = 3 then some 1 else some 0)]
  uninit := fun _ => some 0
  quatOfPoint := fun p => ![some 0, p.x, p.y, p.z]
  Q := fun q => ![![q 0, fsub (some 0) (q 1), fsub (some 0) (q 2), fsub (some 0) (q 3)],
    ![q 1, q 0, fsub (some 0) (q 3), q 2],
    ![q 2, q 3, q 0, fsub (some 0) (q 1)],
    ![q 3, fsub (some 0) (q 2), q 1, q 0]]
  W := fun q => ![![q 0, fsub (some 0) (q 1), fsub (some 0) (q 2), fsub (some 0) (q 3)],
    ![q 1, q 0, q 3, fsub (some 0) (q 2)],
    ![q 2, fsub (some 0) (q 3), q 0, q 1],
    ![q 3, q 2, fsub (some 0) (q 1), q 0]]
  Matrix := fun _ => identity
  getTranslation := fun _ _ => some 0
  Angle := fun _ => some 0

/-- The environment `sampleEnv` with an eigen solver that answers every matrix with the one
eigenpair (1, (1, 1, 1, 1)), whose eigenvector has norm 2. -/
def unnormalisedEnv : Env := { sampleEnv with eigen := fun _ => [(some 1, fun _ => some 1)] }

/-- The environment `sampleEnv` with an eigen solver that answers every matrix with the
eigenvalues 1, 2, NaN, 2, paired with the four unit columns. -/
def tieEnv : Env :=
  { sampleEnv with
    eigen := fun _ => [(some 1, fun i => if i = 0 then some 1 else some 0),
      (some 2, fun i => if i = 1 then some 1 else some 0),
      (none, fun i => if i = 2 then some 1 else some 0),
      (some 2, fun i => if i = 3 then some 1 else some 0)] }

/-- The squared norm of a quaternion. -/
def normSq (q : Quat) : F := sum4 (fun i => fmul (q i) (q i))

/-! ## Rounded arithmetic

IEEE 754 arithmetic in round-to-nearest, ties-to-even, each operation rounded on its own to the
type that the usual arithmetic conversions of C++ give it (no fused multiply-add, no excess
precision). A result too large for the format is the non-finite value `none`: an infinity is
not told from NaN, so the definitions below follow the code on every run in which no operation
overflows. -/

/-- The integer nearest to `n`, a tie going to the even one. -/
def roundHalfEven (n : ℚ) : Int :=
  if n - ⌊n⌋ < 1 / 2 then ⌊n⌋
  else if 1 / 2 < n - ⌊n⌋ then ⌊n⌋ + 1
  else if ⌊n⌋ % 2 = 0 then ⌊n⌋ else ⌊n⌋ + 1

/-- The exponent `e` of the unit in the last place `2^e` of `q` in a binary format with `p`
significand bits whose smallest positive number is `2^emin`: `|q| < 2^p * 2^e`, and
`2^(p-1) * 2^e ≤ |q|` unless `e = emin` (the subnormal range). -/
def lastPlace (p : Nat) (emin : Int) (q : ℚ) : Int :=
  max (Int.log 2 |q| - ((p : Int) - 1)) emin

/-- The number `q` rounded to the nearest multiple of the unit in its last place, a tie going
to the even multiple: the rounding of a binary format with `p` significand bits whose smallest
positive number is `2^emin`, the range being unbounded above. -/
def roundBits (p : Nat) (emin : Int) (q : ℚ) : ℚ :=
  if q = 0 then 0
  else (if q < 0 then -1 else 1) *
    ((roundHalfEven (|q| / (2 : ℚ) ^ lastPlace p emin q) : ℚ) * (2 : ℚ) ^ lastPlace p emin q)

/-- The value of type `float` (binary32: 24 significand bits, subnormals down to `2^-149`) that
an exact result rounds to; a rounded magnitude of `2^128` or more is an overflow. -/
def fl32 : F → F
  | some q =>
    if (2 : ℚ) ^ (128 : Nat) ≤ |roundBits 24 (-149) q| then none
    else some (roundBits 24 (-149) q)
  | none => none

/-- The value of type `double` (binary64: 53 significand bits, subnormals down to `2^-1074`)
that an exact result rounds to; a rounded magnitude of `2^1024` or more is an overflow. -/
def fl64 : F → F
  | some q =>
    if (2 : ℚ) ^ (1024 : Nat) ≤ |roundBits 53 (-1074) q| then none
    else some (roundBits 53 (-1074) q)
  | none => none

/-- The sum of two `float` values, a `float`. -/
def fadd32 (a b : F) : F := fl32 (fadd a b)

/-- The difference of two `float` values, a `float`. -/
def fsub32 (a b : F) : F := fl32 (fsub a b)

/-- The product of two `float` values, a `float`. -/
def fmul32 (a b : F) : F := fl32 (fmul a b)

/-- The quotient of two `float` values, a `float`. -/
def fdiv32 (a b : F) : F := fl32 (fdiv a b)

/-- The product of two `double` values, a `double`. -/
def fmul64 (a b : F) : F := fl64 (fmul a b)

/-! ## `choose_xi` in rounded arithmetic -/

/-- Lines 24-31 of `choose_xi` as computed: the sampling loop only compares and copies, and
`max *= 1.05` converts `max` to `double`, multiplies it by the `double` nearest to 1.05 and
converts the product back to `float`. -/
def estimateMax32 (rand : Nat → Nat) (nearest_d : List F) (size : Nat) : Option F :=
  ((List.range 100).foldlM (sampleStep rand nearest_d size) (some 0)).map
    (fun max => fl32 (fmul64 max (fl64 (some (21 / 20)))))

/-- The bin that lines 36-40 of `choose_xi` increment for the distance `d`, as computed:
`num_bins*nearest_d[i][0]` is a `float` product (`num_bins` converts to `25.f`), its quotient
by `max` a `float` quotient, and the cast to `int` truncates. A product that overflows gives
an infinite quotient, whose cast is undefined as that of NaN is. -/
def binOf32 (max d : F) : Option Nat :=
  if flt max d then some num_bins
  else match f2i (fdiv32 (fmul32 (some (num_bins : ℚ)) d) max) with
    | some k => if 0 ≤ k ∧ k ≤ (num_bins : Int) then some k.toNat else none
    | none => none

/-- The histogram loop of `choose_xi` (lines 35-41) as computed. -/
def histLoop32 (max : F) : List F → List Nat → Option (List Nat)
  | [], counts => some counts
  | d :: ds, counts =>
    match binOf32 max d with
    | none => none
    | some k => histLoop32 max ds (incr counts k)

/-- Lines 34-41 of `choose_xi` as computed. -/
def histogram32 (nearest_d : List F) (size : Nat) (max : F) : Option (List Nat) :=
  if nearest_d.length < size then none
  else histLoop32 max (nearest_d.take size) (List.replicate (num_bins + 1) 0)

/-- The valley loop of `choose_xi` (lines 55-58) as computed: in `counts[valley] >
elevation*0.6` both counters convert to `double` without error and the product with the
`double` nearest to 0.6 is a `double` product. -/
def valleyLoop32 (counts : List Nat) (elevation : Nat) : Nat → Nat → Nat
  | 0, valley => valley
  | fuel + 1, valley =>
    if flt (fmul64 (some (elevation : ℚ)) (fl64 (some (3 / 5))))
        (some (counts.getD valley 0 : ℚ)) then
      valleyLoop32 counts elevation fuel (valley + 1)
    else if counts.getD (valley + 1) 0 > counts.getD valley 0 then valley
    else valleyLoop32 counts elevation fuel (valley + 1)

/-- Lines 54-58 of `choose_xi` as computed. -/
def findValley32 (counts : List Nat) (peak elevation : Nat) : Nat :=
  valleyLoop32 counts elevation (num_bins - (peak + 1)) (peak + 1)

/-- The function `choose_xi` of `icp.cpp` as computed: the returned value is the `float`
quotient `((float) valley)/((float) num_bins)` times `max`, a `float` product. -/
def choose_xi32 (rand : Nat → Nat) (nearest_d : List F) (matched : List Int) : Option F :=
  match estimateMax32 rand nearest_d matched.length with
  | none => none
  | some max =>
    match histogram32 nearest_d matched.length max with
    | none => none
    | some counts =>
      let pe := findPeak counts
      let valley := findValley32 counts pe.1 pe.2
      some (fmul32 (fdiv32 (some (valley : ℚ)) (some (num_bins : ℚ))) max)

/-! ## The filter step of `ICP` in rounded arithmetic -/

/-- The accumulation of `mu` in the loop at lines 164-173 as computed: `mu += d` is a `float`
sum. -/
def sumMu32 (Dmax : F) (nearest : List (Int × F)) : F :=
  nearest.foldl (fun mu r => if flt r.2 Dmax then fadd32 mu r.2 else mu) (some 0)

/-- The accumulation of `sigma` in the loop at lines 164-173 as computed: `sigma += d*d` is a
`float` product and a `float` sum. -/
def sumSigma32 (Dmax : F) (nearest : List (Int × F)) : F :=
  nearest.foldl (fun sigma r => if flt r.2 Dmax then fadd32 sigma (fmul32 r.2 r.2) else sigma)
    (some 0)

/-- The value of `mu` after line 175 as computed: `n` converts to `float`. -/
def pass1Mu32 (Dmax : F) (nearest : List (Int × F)) : F :=
  fdiv32 (sumMu32 Dmax nearest) (fl32 (some (nearest.length : ℚ)))

/-- The argument `sigma/n - mu*mu` of the square root of line 176 as computed: a `float`
quotient, a `float` product and a `float` difference. -/
def pass1Arg32 (Dmax : F) (nearest : List (Int × F)) : F :=
  fsub32 (fdiv32 (sumSigma32 Dmax nearest) (fl32 (some (nearest.length : ℚ))))
    (fmul32 (pass1Mu32 Dmax nearest) (pass1Mu32 Dmax nearest))

/-- The value of `sigma` after line 176 as computed: the square root, stored in a `float`. -/
def pass1Sigma32 (env : Env) (Dmax : F) (nearest : List (Int × F)) : F :=
  fl32 (fsqrt env (pass1Arg32 Dmax nearest))

/-- Lines 178-186 of `ICP` as computed: `3*D`, `6*D`, `3*sigma`, `2*sigma` are `float`
products and the new `Dmax` a `float` sum. -/
def updateDmax32 (env : Env) (calls : Nat) (nearest_d : List F) (matched : List Int)
    (mu sigma : F) : Option (F × Nat) :=
  if flt mu D then some (fadd32 mu (fmul32 (some 3) sigma), calls)
  else if flt mu (fmul32 (some 3) D) then some (fadd32 mu (fmul32 (some 2) sigma), calls)
  else if flt mu (fmul32 (some 6) D) then some (fadd32 mu sigma, calls)
  else (choose_xi32 (fun n => env.rand (calls + n)) nearest_d matched).map
    (fun Dmax => (Dmax, calls + 100))

/-- The filter step of `ICP` (lines 160-194) as computed. -/
def filterStep32 (env : Env) (calls : Nat) (nearest : List (Int × F)) (Dmax : F) :
    Option (List Int × F × Nat) :=
  match updateDmax32 env calls (nearest.map Prod.snd) (matchPass Dmax nearest)
      (pass1Mu32 Dmax nearest) (pass1Sigma32 env Dmax nearest) with
  | none => none
  | some (Dmax', calls') => some (matchPass Dmax' nearest, Dmax', calls')

/-- The environment `sampleEnv` with a `rand()` that returns 6 at every call. -/
def sixEnv : Env := { sampleEnv with rand := fun _ => 6 }
/-! ## Lemmas on `choose_xi` -/

theorem sample_foldlM (rand : Nat → Nat) (nearest_d : List F) (size : Nat) (hs : size ≠ 0)
    (hlen : size ≤ nearest_d.length) (l : List Nat) :
    ∀ m0 : ℚ, 0 ≤ m0 →
      ∃ m, l.foldlM (sampleStep rand nearest_d size) (some m0) = some (some m) ∧ m0 ≤ m := by
  induction l with
  | nil => intro m0 _; exact ⟨m0, rfl, le_refl _⟩
  | cons n l ih =>
    intro m0 h0
    have hidx : rand n % size < nearest_d.length :=
      lt_of_lt_of_le (Nat.mod_lt _ (Nat.pos_of_ne_zero hs)) hlen
    rw [List.foldlM_cons]
    simp only [sampleStep, hs, if_false, List.getElem?_eq_getElem hidx]
    cases hd : nearest_d[rand n % size] with
    | none =>
      simp only [flt, Bool.false_eq_true, if_false]
      exact ih m0 h0
    | some q =>
      by_cases hq : m0 < q
      · simp only [flt, hq, decide_True, if_true]
        obtain ⟨m, hm, hle⟩ := ih q (le_trans h0 (le_of_lt hq))
        exact ⟨m, hm, le_trans (le_of_lt hq) hle⟩
      · simp only [flt, hq, decide_False, Bool.false_eq_true, if_false]
        exact ih m0 h0

theorem estimateMax_defined (rand : Nat → Nat) (nearest_d : List F) (size : Nat) (hs : size ≠ 0)
    (hlen : size ≤ nearest_d.length) :
    ∃ m, estimateMax rand nearest_d size = some (some m) ∧ 0 ≤ m := by
  obtain ⟨m, hm, hle⟩ := sample_foldlM rand nearest_d size hs hlen (List.range 100) 0 (le_refl _)
  refine ⟨m * (21 / 20), ?_, by positivity⟩
  simp [estimateMax, hm, fmul]


theorem truncate_nonneg_le (q : ℚ) (h0 : 0 ≤ q) (n : Nat) (hn : q ≤ n) :
    0 ≤ truncate q ∧ truncate q ≤ (n : Int) := by
  simp only [truncate, h0, if_true]
  refine ⟨Int.floor_nonneg.mpr h0, ?_⟩
  have : (⌊q⌋ : ℚ) ≤ (n : ℚ) := le_trans (Int.floor_le q) hn
  exact_mod_cast this

theorem binOf_defined (max q : ℚ) (hmax : 0 < max) (hq : 0 ≤ q) :
    ∃ k, binOf (some max) (some q) = some k ∧ k ≤ num_bins := by
  by_cases h : max < q
  · exact ⟨num_bins, by simp [binOf, flt, h], le_refl _⟩
  · have hle : q ≤ max := not_lt.mp h
    have h1 : 0 ≤ (num_bins : ℚ) * q / max := by positivity
    have h2 : (num_bins : ℚ) * q / max ≤ (num_bins : ℚ) := by
      rw [div_le_iff₀ hmax]
      exact mul_le_mul_of_nonneg_left hle (by positivity)
    obtain ⟨t0, t1⟩ := truncate_nonneg_le _ h1 num_bins h2
    refine ⟨(truncate ((num_bins : ℚ) * q / max)).toNat, ?_, ?_⟩
    · simp [binOf, flt, h, fmul, fdiv, f2i, ne_of_gt hmax, t0, t1]
    · omega

theorem incr_length (counts : List Nat) (k : Nat) : (incr counts k).length = counts.length := by
  simp [incr]

theorem histLoop_defined (max : ℚ) (hmax : 0 < max) (ds : List F)
    (hfin : ∀ d ∈ ds, ∃ q : ℚ, 0 ≤ q ∧ d = some q) :
    ∀ counts0 : List Nat, ∃ counts, histLoop (some max) ds counts0 = some counts ∧
      counts.length = counts0.length := by
  induction ds with
  | nil => intro counts0; exact ⟨counts0, rfl, rfl⟩
  | cons d ds ih =>
    intro counts0
    obtain ⟨q, hq, rfl⟩ := hfin d (List.mem_cons_self _ _)
    obtain ⟨k, hk, _⟩ := binOf_defined max q hmax hq
    obtain ⟨counts, hc, hl⟩ := ih (fun d hd => hfin d (List.mem_cons_of_mem _ hd)) (incr counts0 k)
    exact ⟨counts, by simp [histLoop, hk, hc], by rw [hl, incr_length]⟩

theorem histogram_defined (max : ℚ) (hmax : 0 < max) (nearest_d : List F) (size : Nat)
    (hlen : size ≤ nearest_d.length) (hfin : ∀ d ∈ nearest_d, ∃ q : ℚ, 0 ≤ q ∧ d = some q) :
    ∃ counts, histogram nearest_d size (some max) = some counts ∧
      counts.length = num_bins + 1 := by
  obtain ⟨counts, hc, hl⟩ := histLoop_defined max hmax (nearest_d.take size)
    (fun d hd => hfin d (List.mem_of_mem_take hd)) (List.replicate (num_bins + 1) 0)
  exact ⟨counts, by simp [histogram, not_lt.mpr hlen, hc], by simpa using hl⟩

theorem valleyLoop_none (counts : List Nat) (elevation : Nat) :
    ∀ fuel valley, (∀ v, valley ≤ v → v < valley + fuel → ¬ isValley counts elevation v) →
      valleyLoop counts elevation fuel valley = valley + fuel := by
  intro fuel
  induction fuel with
  | zero => intro valley _; rfl
  | succ fuel ih =>
    intro valley h
    have hrec : valleyLoop counts elevation fuel (valley + 1) = valley + (fuel + 1) := by
      rw [ih (valley + 1) (fun v hv hlt => h v (by omega) (by omega))]; omega
    have h0 := h valley (le_refl _) (by omega)
    simp only [isValley, not_and, not_lt, not_le] at h0
    simp only [valleyLoop, gt_iff_lt]
    split_ifs with h1 h2
    · exact hrec
    · exact absurd (h0 (not_lt.mp h1)) (not_le.mpr h2)
    · exact hrec

theorem valleyLoop_first (counts : List Nat) (elevation v0 : Nat)
    (hv0 : isValley counts elevation v0) :
    ∀ fuel valley, valley ≤ v0 → v0 < valley + fuel →
      (∀ v, valley ≤ v → v < v0 → ¬ isValley counts elevation v) →
      valleyLoop counts elevation fuel valley = v0 := by
  intro fuel
  induction fuel with
  | zero => intro valley h1 h2 _; omega
  | succ fuel ih =>
    intro valley hle hlt h
    simp only [valleyLoop, gt_iff_lt]
    by_cases heq : valley = v0
    · subst heq
      rw [if_neg (not_lt.mpr hv0.1), if_pos hv0.2]
    · have hrec : valleyLoop counts elevation fuel (valley + 1) = v0 :=
        ih (valley + 1) (by omega) (by omega) (fun v hv hvl => h v (by omega) hvl)
      have h0 := h valley (le_refl _) (by omega)
      simp only [isValley, not_and, not_lt, not_le] at h0
      split_ifs with h1 h2
      · exact hrec
      · exact absurd (h0 (not_lt.mp h1)) (not_le.mpr h2)
      · exact hrec

theorem peak_foldl_inv (counts : List Nat) (l : List Nat) :
    ∀ s : Nat × Nat, s.2 = counts.getD s.1 0 →
      (l.foldl (peakStep counts) s).2 = counts.getD (l.foldl (peakStep counts) s).1 0 := by
  induction l with
  | nil => intro s hs; exact hs
  | cons i l ih =>
    intro s hs
    rw [List.foldl_cons]
    apply ih
    unfold peakStep
    split_ifs
    · rfl
    · exact hs

theorem findPeak_snd (counts : List Nat) :
    (findPeak counts).2 = counts.getD (findPeak counts).1 0 := by
  have hr : List.range (num_bins + 1) = 0 :: List.range' 1 num_bins := by decide
  unfold findPeak
  rw [hr, List.foldl_cons]
  apply peak_foldl_inv
  unfold peakStep
  split_ifs with h
  · rfl
  · simp at h; simp [h]

theorem sample_foldlM_const (rand : Nat → Nat) (nearest_d : List F) (size r : Nat) (q : ℚ)
    (hs : size ≠ 0) (hr : ∀ n, rand n % size = r) (hd : nearest_d[r]? = some (some q))
    (l : List Nat) :
    ∀ m0 : ℚ, l.foldlM (sampleStep rand nearest_d size) (some m0) =
      some (some (if l = [] then m0 else max m0 q)) := by
  induction l with
  | nil => intro m0; rfl
  | cons n l ih =>
    intro m0
    rw [List.foldlM_cons]
    have hstep : sampleStep rand nearest_d size (some m0) n = some (some (max m0 q)) := by
      simp only [sampleStep, hs, if_false, hr, hd, flt]
      by_cases h : m0 < q
      · simp [h, max_eq_right (le_of_lt h)]
      · simp [h, max_eq_left (not_lt.mp h)]
    rw [hstep]
    simp only [Option.bind_eq_bind, Option.some_bind, ih]
    by_cases hl : l = []
    · simp [hl]
    · simp [hl]

theorem estimateMax_const (rand : Nat → Nat) (nearest_d : List F) (size r : Nat) (q : ℚ)
    (hs : size ≠ 0) (hr : ∀ n, rand n % size = r) (hd : nearest_d[r]? = some (some q))
    (hq : 0 ≤ q) :
    estimateMax rand nearest_d size = some (some (q * (21 / 20))) := by
  have hne : List.range 100 ≠ [] := by decide
  simp [estimateMax, sample_foldlM_const rand nearest_d size r q hs hr hd, hne, fmul,
    max_eq_right hq]

theorem binOf_overflow (max q : ℚ) (h : max < q) : binOf (some max) (some q) = some num_bins := by
  simp [binOf, flt, h]

theorem binOf_eq (max q : ℚ) (k : Nat) (hmax : 0 < max) (hk : k ≤ num_bins)
    (hle : q ≤ max) (h1 : (k : ℚ) * max ≤ (num_bins : ℚ) * q)
    (h2 : (num_bins : ℚ) * q < ((k : ℚ) + 1) * max) :
    binOf (some max) (some q) = some k := by
  have hq : 0 ≤ q := by
    have : 0 ≤ (num_bins : ℚ) * q := le_trans (by positivity) h1
    have hnb : (0 : ℚ) < (num_bins : ℚ) := by norm_num [num_bins]
    exact nonneg_of_mul_nonneg_right this hnb
  have h0 : 0 ≤ (num_bins : ℚ) * q / max := by positivity
  have hfl : ⌊(num_bins : ℚ) * q / max⌋ = (k : Int) := by
    rw [Int.floor_eq_iff]
    constructor
    · rw [le_div_iff₀ hmax]; exact_mod_cast h1
    · rw [div_lt_iff₀ hmax]; exact_mod_cast h2
  have hk' : (k : Int) ≤ (num_bins : Int) := by exact_mod_cast hk
  simp [binOf, flt, not_lt.mpr hle, fmul, fdiv, f2i, ne_of_gt hmax, truncate, h0, hfl, hk']


theorem histogram_eq_histLoop (nearest_d : List F) (size : Nat) (max : F)
    (h : nearest_d.length = size) :
    histogram nearest_d size max = histLoop max nearest_d (List.replicate (num_bins + 1) 0) := by
  subst h
  simp [histogram]

/-! ## Lemmas on NaN and on the filter step -/

theorem sampleEnv_sqrt_zero : sampleEnv.sqrt 0 = some 0 := by
  simp [sampleEnv]

theorem fadd_none_left (a : F) : fadd none a = none := rfl

theorem fadd_none_right (a : F) : fadd a none = none := by cases a <;> rfl

theorem fmul_none_left (a : F) : fmul none a = none := rfl

theorem fmul_none_right (a : F) : fmul a none = none := by cases a <;> rfl

theorem fsub_none_left (a : F) : fsub none a = none := rfl

theorem sum4_none (a : Fin 4 → F) (k : Fin 4) (h : a k = none) : sum4 a = none := by
  unfold sum4
  fin_cases k <;> simp only [Fin.zero_eta, Fin.mk_one, Fin.reduceFinMk] at h <;>
    simp [h, fadd_none_left, fadd_none_right]

theorem mulVec_none (A : Mat4) (v : Fin 4 → F) (k : Fin 4) (h : v k = none) (i : Fin 4) :
    mulVec A v i = none :=
  sum4_none _ k (by simp [h, fmul_none_right])

theorem transformPoint_hasNaN (M : Mat4) (p : PointXYZ) (h : p.hasNaN = true) :
    transformPoint M p = nanPoint := by
  have hk : ∃ k : Fin 4, p.getVector4fMap k = none := by
    simp only [PointXYZ.hasNaN, isnan, Bool.or_eq_true, Option.isNone_iff_eq_none] at h
    rcases h with ((h | h) | h) | h
    · exact ⟨0, h⟩
    · exact ⟨1, h⟩
    · exact ⟨2, h⟩
    · exact ⟨3, h⟩
  obtain ⟨k, hk⟩ := hk
  simp [transformPoint, nanPoint, mulVec_none M _ k hk]

theorem nanPoint_hasNaN : nanPoint.hasNaN = true := rfl

theorem transformPoint_identity (p : PointXYZ) (h : p.hasNaN = false) :
    transformPoint identity p = p := by
  obtain ⟨x, y, z, w⟩ := p
  simp only [PointXYZ.hasNaN, isnan, Bool.or_eq_false_iff, Option.isNone_eq_false_iff,
    Option.isSome_iff_exists] at h
  obtain ⟨⟨⟨⟨x, rfl⟩, ⟨y, rfl⟩⟩, ⟨z, rfl⟩⟩, ⟨w, rfl⟩⟩ := h
  simp [transformPoint, mulVec, sum4, identity, PointXYZ.getVector4fMap, fmul, fadd]

theorem matchPass_length (Dmax : F) (nearest : List (Int × F)) :
    (matchPass Dmax nearest).length = nearest.length := by
  simp [matchPass]

theorem matchPass_getElem? (Dmax : F) (nearest : List (Int × F)) (i : Nat)
    (hi : i < nearest.length) :
    (matchPass Dmax nearest)[i]? =
      some (if flt nearest[i].2 Dmax = true then nearest[i].1 else -1) := by
  simp [matchPass, hi]

theorem sumMu_zero (Dmax : F) (nearest : List (Int × F)) (hz : ∀ r ∈ nearest, r.2 = some 0) :
    sumMu Dmax nearest = some 0 := by
  unfold sumMu
  induction nearest with
  | nil => rfl
  | cons r rs ih =>
    rw [List.foldl_cons]
    have hr := hz r (List.mem_cons_self _ _)
    have hstep : (if flt r.2 Dmax = true then fadd (some 0) r.2 else some 0) = some 0 := by
      rw [hr]; split_ifs <;> simp [fadd]
    rw [hstep]
    exact ih (fun r' h' => hz r' (List.mem_cons_of_mem _ h'))

theorem sumSigma_zero (Dmax : F) (nearest : List (Int × F)) (hz : ∀ r ∈ nearest, r.2 = some 0) :
    sumSigma Dmax nearest = some 0 := by
  unfold sumSigma
  induction nearest with
  | nil => rfl
  | cons r rs ih =>
    rw [List.foldl_cons]
    have hr := hz r (List.mem_cons_self _ _)
    have hstep : (if flt r.2 Dmax = true then fadd (some 0) (fmul r.2 r.2) else some 0) =
        some 0 := by
      rw [hr]; split_ifs <;> simp [fadd, fmul]
    rw [hstep]
    exact ih (fun r' h' => hz r' (List.mem_cons_of_mem _ h'))

theorem matchPass_zero (nearest : List (Int × F)) (hz : ∀ r ∈ nearest, r.2 = some 0) :
    matchPass (some 0) nearest = List.replicate nearest.length (-1) := by
  induction nearest with
  | nil => rfl
  | cons r rs ih =>
    have hr := hz r (List.mem_cons_self _ _)
    have ih' := ih (fun r' h' => hz r' (List.mem_cons_of_mem _ h'))
    simp only [matchPass, List.map_cons, List.length_cons, List.replicate_succ] at ih' ⊢
    rw [ih', hr]
    simp [flt]

/-- When every nearest-neighbour distance is 0 the filter step puts `Dmax` to 0 and rejects
every index, whatever `Dmax` was. -/
theorem filterStep_zero (env : Env) (hs : env.sqrt 0 = some 0) (calls : Nat)
    (nearest : List (Int × F)) (Dmax : F) (hne : nearest ≠ [])
    (hz : ∀ r ∈ nearest, r.2 = some 0) :
    filterStep env calls nearest Dmax =
      some (List.replicate nearest.length (-1), some 0, calls) := by
  have hn : (nearest.length : ℚ) ≠ 0 := by
    have : nearest.length ≠ 0 := fun h => hne (List.length_eq_zero.mp h)
    exact_mod_cast this
  have hmu : pass1Mu Dmax nearest = some 0 := by
    simp [pass1Mu, sumMu_zero Dmax nearest hz, fdiv, hn]
  have hsigma : pass1Sigma env Dmax nearest = some 0 := by
    simp [pass1Sigma, hmu, sumSigma_zero Dmax nearest hz, fdiv, hn, fsub, fmul, fsqrt, hs]
  have hupd : updateDmax env calls (nearest.map Prod.snd) (matchPass Dmax nearest)
      (some 0) (some 0) = some (some 0, calls) := by
    simp [updateDmax, flt, D, fadd, fmul]
  simp only [filterStep, hmu, hsigma, hupd, matchPass_zero nearest hz]

theorem matchCount_replicate (n : Nat) : matchCount (List.replicate n (-1)) = 0 := by
  simp [matchCount, List.filter_replicate]

theorem accLoop_unmatched (env : Env) (reference : PointCloud) (matched : List Int)
    (h : ∀ m ∈ matched, m < 0) :
    ∀ (source : PointCloud) (acc : Acc), accLoop env reference source matched acc = some acc := by
  induction matched with
  | nil => intro source acc; rfl
  | cons m ms ih =>
    intro source acc
    have hm := h m (List.mem_cons_self _ _)
    simp only [accLoop, hm, if_true]
    exact ih (fun m' h' => h m' (List.mem_cons_of_mem _ h')) _ _

theorem solverMatrix_zero : solverMatrix ⟨mzero, mzero, some 0⟩ = nanMat := by
  funext i j
  simp [solverMatrix, smul, msub, mmul, sum4, fdiv, fmul_none_left, fadd_none_left,
    fsub_none_left, fmul_none_right, nanMat]

/-- With no accepted index `localize` returns `nanMotion`. -/
theorem localize_unmatched (env : Env) (reference source : PointCloud) (matched : List Int)
    (h : ∀ m ∈ matched, m < 0) :
    localize env reference source matched = some (nanMotion env) := by
  have hd : mulVec (smul (fdiv (some (-(1 / 2))) (some 0)) (smul (some 2) mzero))
      (selectEigenvector env nanMat) = nanVec := by
    funext i
    simp [mulVec, smul, sum4, fdiv, fmul_none_left, fadd_none_left, nanVec]
  simp only [localize, accLoop_unmatched env reference matched h, solverMatrix_zero, nanMotion, hd]

/-- An iteration of `ICP` in which every nearest-neighbour distance is 0. -/
theorem icpBody_zero (env : Env) (hs : env.sqrt 0 = some 0) (reference : PointCloud) (s : State)
    (hne : s.source ≠ []) (hz : ∀ r ∈ nearestSearch env reference s.source, r.2 = some 0) :
    icpBody env reference s =
      some ({ source := s.source.map (transformPoint (env.Matrix (nanMotion env)))
              Trs := mmul (env.Matrix (nanMotion env)) s.Trs
              Dmax := some 0
              calls := s.calls }, nanMotion env) := by
  have hne' : nearestSearch env reference s.source ≠ [] := by
    simpa [nearestSearch] using hne
  have hloc := localize_unmatched env reference s.source
    (List.replicate (nearestSearch env reference s.source).length (-1))
    (fun m hm => by rw [List.eq_of_mem_replicate hm]; decide)
  simp only [icpBody, filterStep_zero env hs s.calls _ s.Dmax hne' hz, hloc]

/-- A call of `ICP` in which every nearest-neighbour distance is 0, the source points are
fixed by the prior and by the matrix of `nanMotion`, and the increments of `nanMotion` pass
the stopping test: the loop is left by the `break` of its second iteration. -/
theorem ICP_zero_run (env : Env) (hs : env.sqrt 0 = some 0) (reference source : PointCloud)
    (Trs : Mat4) (hne : source ≠ [])
    (hT : source.map (transformPoint Trs) = source)
    (hM : source.map (transformPoint (env.Matrix (nanMotion env))) = source)
    (hz : ∀ r ∈ nearestSearch env reference source, r.2 = some 0)
    (hdt : flt (stepDt env (nanMotion env)) (some (1 / 100)) = true)
    (hdth : flt (stepDth env (nanMotion env)) (some (1 / 100)) = true) :
    ICP env reference source Trs =
      some { state := { source := source
                        Trs := mmul (env.Matrix (nanMotion env))
                          (mmul (env.Matrix (nanMotion env)) Trs)
                        Dmax := some 0
                        calls := 0 }
             iters := 2
             exit := Exit.Converged
             ret := some 0 } := by
  have h0 := icpBody_zero env hs reference (initState source Trs)
    (by simpa [initState] using hne) (by simpa [initState, hT] using hz)
  simp only [initState, hT] at h0
  have h1 := icpBody_zero env hs reference
    { source := source.map (transformPoint (env.Matrix (nanMotion env)))
      Trs := mmul (env.Matrix (nanMotion env)) Trs
      Dmax := some 0
      calls := 0 }
    (by simpa using hne) (by simpa [hM] using hz)
  simp only [hM] at h0 h1
  have hstop0 : stopTest 0 (stepDt env (nanMotion env)) (stepDth env (nanMotion env)) = false := by
    simp [stopTest]
  have hstop1 : stopTest 1 (stepDt env (nanMotion env)) (stepDth env (nanMotion env)) = true := by
    unfold stopTest; rw [hdt, hdth]; rfl
  have hfuel : MAX_ITER = 38 + 1 + 1 := rfl
  simp only [ICP, hfuel, icpLoop, initState, hT, h0, h1, hstop0, hstop1, if_true]
  simp

theorem sampleEnv_matrix (T : DualQuat) : sampleEnv.Matrix T = identity := rfl

theorem sampleEnv_dt (T : DualQuat) : stepDt sampleEnv T = some 0 := by
  simp [stepDt, norm3, sampleEnv, fmul, fadd, fsqrt]

theorem sampleEnv_dth (T : DualQuat) : stepDth sampleEnv T = some 0 := rfl

theorem map_transformPoint_nan (M : Mat4) (n : Nat) :
    (List.replicate n nanPoint).map (transformPoint M) = List.replicate n nanPoint := by
  simp [transformPoint_hasNaN M nanPoint nanPoint_hasNaN]

theorem nearestSearch_nan (env : Env) (reference : PointCloud) (n : Nat) :
    nearestSearch env reference (List.replicate n nanPoint) = List.replicate n (-1, some 0) := by
  simp [nearestSearch, nanPoint, isnan]

/-! ## Lemmas on the loop of `ICP` -/

theorem icpLoop_iters (env : Env) (reference : PointCloud) :
    ∀ (fuel iter : Nat) (s : State) (r : Result),
      icpLoop env reference fuel iter s = some r →
        r.iters ≤ iter + fuel ∧ (0 < fuel → iter + 1 ≤ r.iters) ∧
        (iter = 0 → 1 < fuel → 2 ≤ r.iters) := by
  intro fuel
  induction fuel with
  | zero =>
    intro iter s r h
    simp only [icpLoop, Option.some.injEq] at h
    subst h
    exact ⟨le_refl _, fun h => absurd h (lt_irrefl _), fun _ h => absurd h (by omega)⟩
  | succ fuel ih =>
    intro iter s r h
    simp only [icpLoop] at h
    cases hb : icpBody env reference s with
    | none => rw [hb] at h; exact absurd h (by simp)
    | some res =>
      obtain ⟨s', T⟩ := res
      rw [hb] at h
      simp only at h
      by_cases hst : stopTest iter (stepDt env T) (stepDth env T) = true
      · rw [if_pos hst] at h
        simp only [Option.some.injEq] at h
        subst h
        have hpos : 0 < iter := by
          simp only [stopTest, Bool.and_eq_true, decide_eq_true_eq] at hst
          exact hst.1.1
        exact ⟨by simp, fun _ => le_refl _, fun h0 _ => by omega⟩
      · rw [if_neg hst] at h
        obtain ⟨h1, h2, _⟩ := ih (iter + 1) s' r h
        refine ⟨by omega, fun _ => ?_, fun h0 hf => ?_⟩
        · cases fuel with
          | zero =>
            simp only [icpLoop, Option.some.injEq] at h
            subst h; exact le_refl _
          | succ n => have := h2 (Nat.succ_pos _); omega
        · have := h2 (by omega); omega

theorem estimateMax_size_zero (rand : Nat → Nat) (nearest_d : List F) :
    estimateMax rand nearest_d 0 = none := by
  have hr : List.range 100 = 0 :: (List.range 99).map Nat.succ := List.range_succ_eq_map 99
  unfold estimateMax
  rw [hr, List.foldlM_cons]
  simp [sampleStep]

theorem filterStep_empty (env : Env) (calls : Nat) (Dmax : F) :
    filterStep env calls [] Dmax = none := by
  have hmu : pass1Mu Dmax [] = none := by simp [pass1Mu, sumMu, fdiv]
  simp [filterStep, updateDmax, hmu, flt, choose_xi, matchPass, estimateMax_size_zero]

theorem icpBody_empty (env : Env) (reference : PointCloud) (s : State) (h : s.source = []) :
    icpBody env reference s = none := by
  simp [icpBody, h, nearestSearch, filterStep_empty]

theorem increments_of (env : Env) (reference : PointCloud) (s0 s : State) (j : Nat)
    (h : iterState env reference s0 j = some s) :
    increments env reference s0 j =
      (icpBody env reference s).map (fun r => (stepDt env r.2, stepDth env r.2)) := by
  simp [increments, h]

theorem iterState_succ (env : Env) (reference : PointCloud) (s0 s s' : State) (T : DualQuat)
    (j : Nat) (h : iterState env reference s0 j = some s)
    (hb : icpBody env reference s = some (s', T)) :
    iterState env reference s0 (j + 1) = some s' := by
  simp [iterState, h, hb]

/-- The loop of `ICP` leaves right after iteration `k` when the iterations `0..k` are defined,
none before `k` passes the stopping test, and `k` passes it or is the last one allowed. -/
theorem icpLoop_spec (env : Env) (reference : PointCloud) (s0 : State) (k : Nat)
    (hdef : ∀ j, j ≤ k → ∃ dt dth, increments env reference s0 j = some (dt, dth))
    (hno : ∀ j, j < k → ∀ dt dth, increments env reference s0 j = some (dt, dth) →
      stopTest j dt dth = false) :
    ∀ (fuel iter : Nat) (s : State), iterState env reference s0 iter = some s → iter ≤ k →
      k < iter + fuel →
      (k + 1 = iter + fuel ∨
        ∃ dt dth, increments env reference s0 k = some (dt, dth) ∧ stopTest k dt dth = true) →
      ∃ r, icpLoop env reference fuel iter s = some r ∧ r.iters = k + 1 ∧
        iterState env reference s0 (k + 1) = some r.state ∧
        (r.exit = Exit.Converged ↔
          ∃ dt dth, increments env reference s0 k = some (dt, dth) ∧
            stopTest k dt dth = true) := by
  intro fuel
  induction fuel with
  | zero => intro iter s _ h1 h2 _; omega
  | succ fuel ih =>
    intro iter s hs hle hlt hstop
    obtain ⟨dt, dth, hinc⟩ := hdef iter hle
    have hinc' := hinc
    rw [increments_of env reference s0 s iter hs] at hinc'
    cases hb : icpBody env reference s with
    | none => rw [hb] at hinc'; exact absurd hinc' (by simp)
    | some res =>
      obtain ⟨s', T⟩ := res
      rw [hb] at hinc'
      simp only [Option.map_some', Option.some.injEq, Prod.mk.injEq] at hinc'
      obtain ⟨hdt, hdth⟩ := hinc'
      have hnext := iterState_succ env reference s0 s s' T iter hs hb
      simp only [icpLoop, hb, hdt, hdth]
      by_cases hik : iter = k
      · subst hik
        by_cases hst : stopTest iter dt dth = true
        · rw [if_pos hst]
          exact ⟨_, rfl, rfl, hnext, ⟨fun _ => ⟨dt, dth, hinc, hst⟩, fun _ => rfl⟩⟩
        · rw [if_neg hst]
          have hnot : ¬ ∃ dt' dth', increments env reference s0 iter = some (dt', dth') ∧
              stopTest iter dt' dth' = true := by
            rintro ⟨dt', dth', h1, h2⟩
            rw [hinc] at h1
            simp only [Option.some.injEq, Prod.mk.injEq] at h1
            rw [← h1.1, ← h1.2] at h2
            exact hst h2
          have hf : fuel = 0 := by
            rcases hstop with h | h
            · omega
            · exact absurd h hnot
          subst hf
          refine ⟨_, rfl, rfl, hnext, ?_⟩
          constructor
          · intro h; exact absurd h (by simp)
          · intro h; exact absurd h hnot
      · have hlt' : iter < k := lt_of_le_of_ne hle hik
        rw [hno iter hlt' dt dth hinc]
        simp only [Bool.false_eq_true, if_false]
        exact ih (iter + 1) s' hnext (by omega) (by omega) (by
          rcases hstop with h | h
          · left; omega
          · right; exact h)

/-- A source cloud of NaN points stays one, every iteration on it is defined, and each has the
increments of `nanMotion`. -/
theorem iterState_nan (env : Env) (hs : env.sqrt 0 = some 0) (reference : PointCloud)
    (n : Nat) (Trs : Mat4) :
    ∀ j, ∃ s, iterState env reference (initState (List.replicate (n + 1) nanPoint) Trs) j =
        some s ∧ s.source = List.replicate (n + 1) nanPoint ∧
      icpBody env reference s =
        some ({ source := List.replicate (n + 1) nanPoint
                Trs := mmul (env.Matrix (nanMotion env)) s.Trs
                Dmax := some 0
                calls := s.calls }, nanMotion env) := by
  have hbody : ∀ s : State, s.source = List.replicate (n + 1) nanPoint →
      icpBody env reference s =
        some ({ source := List.replicate (n + 1) nanPoint
                Trs := mmul (env.Matrix (nanMotion env)) s.Trs
                Dmax := some 0
                calls := s.calls }, nanMotion env) := by
    intro s hsrc
    have h := icpBody_zero env hs reference s (by rw [hsrc]; simp)
      (by
        rw [hsrc, nearestSearch_nan]
        intro r hr
        rw [List.eq_of_mem_replicate hr])
    rw [h, hsrc, map_transformPoint_nan]
  intro j
  induction j with
  | zero =>
    have h0 : (initState (List.replicate (n + 1) nanPoint) Trs).source =
        List.replicate (n + 1) nanPoint := by
      simp only [initState]; exact map_transformPoint_nan Trs (n + 1)
    exact ⟨_, rfl, h0, hbody _ h0⟩
  | succ j ih =>
    obtain ⟨s, hj, hsrc, hb⟩ := ih
    exact ⟨_, iterState_succ env reference _ s _ _ j hj hb, rfl, hbody _ rfl⟩

theorem increments_nan (env : Env) (hs : env.sqrt 0 = some 0) (reference : PointCloud)
    (n : Nat) (Trs : Mat4) (j : Nat) :
    increments env reference (initState (List.replicate (n + 1) nanPoint) Trs) j =
      some (stepDt env (nanMotion env), stepDth env (nanMotion env)) := by
  obtain ⟨s, hj, _, hb⟩ := iterState_nan env hs reference n Trs j
  rw [increments_of env reference _ s j hj, hb]
  rfl

/-! ## Lemmas on NaN points in the loop and on `localize` -/

theorem icpBody_source (env : Env) (reference : PointCloud) (s s' : State) (T : DualQuat)
    (h : icpBody env reference s = some (s', T)) :
    s'.source = s.source.map (transformPoint (env.Matrix T)) := by
  unfold icpBody at h
  cases hf : filterStep env s.calls (nearestSearch env reference s.source) s.Dmax with
  | none => rw [hf] at h; exact absurd h (by simp)
  | some res =>
    obtain ⟨matched, Dmax', calls'⟩ := res
    rw [hf] at h
    simp only at h
    cases hl : localize env reference s.source matched with
    | none => rw [hl] at h; exact absurd h (by simp)
    | some T' =>
      rw [hl] at h
      simp only [Option.some.injEq, Prod.mk.injEq] at h
      obtain ⟨h1, h2⟩ := h
      subst h2
      rw [← h1]

theorem iterState_source_nan (env : Env) (reference source : PointCloud) (Trs : Mat4)
    (i : Nat) (hi : i < source.length) (hnan : source[i].hasNaN = true) :
    ∀ (k : Nat) (s : State), iterState env reference (initState source Trs) k = some s →
      s.source[i]? = some nanPoint := by
  intro k
  induction k with
  | zero =>
    intro s h
    simp only [iterState, Option.some.injEq] at h
    subst h
    simp [initState, hi, transformPoint_hasNaN Trs _ hnan]
  | succ k ih =>
    intro s h
    simp only [iterState] at h
    cases hk : iterState env reference (initState source Trs) k with
    | none => rw [hk] at h; exact absurd h (by simp)
    | some s' =>
      rw [hk] at h
      simp only at h
      cases hb : icpBody env reference s' with
      | none => rw [hb] at h; exact absurd h (by simp)
      | some res =>
        obtain ⟨s'', T⟩ := res
        rw [hb] at h
        simp only [Option.map_some', Option.some.injEq] at h
        subst h
        rw [icpBody_source env reference s' s'' T hb, List.getElem?_map, ih s' hk]
        simp [transformPoint_hasNaN _ nanPoint nanPoint_hasNaN]

theorem nearestSearch_getElem?_nan (env : Env) (reference source : PointCloud) (i : Nat)
    (h : source[i]? = some nanPoint) :
    (nearestSearch env reference source)[i]? = some (-1, some 0) := by
  simp [nearestSearch, h, nanPoint, isnan]

theorem filterStep_matched (env : Env) (calls : Nat) (nearest : List (Int × F)) (Dmax : F)
    (matched : List Int) (Dmax' : F) (calls' : Nat)
    (h : filterStep env calls nearest Dmax = some (matched, Dmax', calls')) :
    matched = matchPass Dmax' nearest := by
  unfold filterStep at h
  cases hu : updateDmax env calls (nearest.map Prod.snd) (matchPass Dmax nearest)
      (pass1Mu Dmax nearest) (pass1Sigma env Dmax nearest) with
  | none => rw [hu] at h; exact absurd h (by simp)
  | some res =>
    obtain ⟨D1, c1⟩ := res
    rw [hu] at h
    simp only [Option.some.injEq, Prod.mk.injEq] at h
    obtain ⟨h1, h2, _⟩ := h
    rw [← h1, h2]

theorem accLoop_eraseIdx (env : Env) (reference : PointCloud) :
    ∀ (i : Nat) (matched : List Int) (source : PointCloud) (acc : Acc) (m : Int),
      matched[i]? = some m → m < 0 →
      accLoop env reference source matched acc =
        accLoop env reference (source.eraseIdx i) (matched.eraseIdx i) acc := by
  intro i
  induction i with
  | zero =>
    intro matched source acc m hm hneg
    cases matched with
    | nil => simp at hm
    | cons m0 ms =>
      simp only [List.getElem?_cons_zero, Option.some.injEq] at hm
      subst hm
      cases source <;> simp [accLoop, hneg]
  | succ i ih =>
    intro matched source acc m hm hneg
    cases matched with
    | nil => simp at hm
    | cons m0 ms =>
      simp only [List.getElem?_cons_succ] at hm
      have htail : (source.eraseIdx (i + 1)).tail = source.tail.eraseIdx i := by
        cases source <;> simp
      have hhead : (source.eraseIdx (i + 1)).head? = source.head? := by
        cases source <;> simp
      simp only [List.eraseIdx_cons_succ, accLoop, htail, hhead]
      by_cases h0 : m0 < 0
      · simp only [h0, if_true]
        exact ih ms source.tail acc m hm hneg
      · simp only [h0, if_false]
        cases reference[m0.toNat]? with
        | none => rfl
        | some r =>
          cases source.head? with
          | none => rfl
          | some p => exact ih ms source.tail _ m hm hneg

theorem matchCount_eraseIdx (matched : List Int) (i : Nat) (m : Int)
    (hm : matched[i]? = some m) (hneg : m < 0) :
    matchCount matched = matchCount (matched.eraseIdx i) := by
  induction matched generalizing i with
  | nil => simp at hm
  | cons m0 ms ih =>
    cases i with
    | zero =>
      simp only [List.getElem?_cons_zero, Option.some.injEq] at hm
      subst hm
      simp [matchCount, List.filter_cons, not_le.mpr hneg]
    | succ i =>
      simp only [List.getElem?_cons_succ] at hm
      have := ih i hm
      simp only [matchCount, List.eraseIdx_cons_succ, List.filter_cons] at this ⊢
      split_ifs <;> simp [this]

theorem select_foldl_mem (l : List (F × Vec4)) :
    ∀ best : Option (ℚ × Vec4), l.foldl selectStep best = best ∨
      ∃ ev vec, l.foldl selectStep best = some (ev, vec) ∧ ((some ev, vec) : F × Vec4) ∈ l := by
  induction l with
  | nil => intro best; exact Or.inl rfl
  | cons e l ih =>
    intro best
    rw [List.foldl_cons]
    rcases ih (selectStep best e) with h | ⟨ev, vec, h1, h2⟩
    · rw [h]
      obtain ⟨e1, e2⟩ := e
      cases e1 with
      | none => left; cases best <;> rfl
      | some q =>
        cases best with
        | none => right; exact ⟨q, e2, rfl, List.mem_cons_self _ _⟩
        | some b =>
          obtain ⟨bm, bv⟩ := b
          simp only [selectStep]
          split_ifs
          · right; exact ⟨q, e2, rfl, List.mem_cons_self _ _⟩
          · left; rfl
    · right; exact ⟨ev, vec, h1, List.mem_cons_of_mem _ h2⟩

theorem select_foldl_some (l : List (F × Vec4)) :
    ∀ best : Option (ℚ × Vec4), (best ≠ none ∨ ∃ e ∈ l, e.1 ≠ none) →
      l.foldl selectStep best ≠ none := by
  induction l with
  | nil =>
    intro best h
    rcases h with h | ⟨e, he, _⟩
    · exact h
    · exact absurd he (List.not_mem_nil _)
  | cons e l ih =>
    intro best h
    rw [List.foldl_cons]
    apply ih
    by_cases hbest : selectStep best e ≠ none
    · exact Or.inl hbest
    · right
      rcases h with h | ⟨e', he', hfin⟩
      · exfalso; apply hbest
        obtain ⟨e1, e2⟩ := e
        cases best with
        | none => exact absurd rfl h
        | some b =>
          obtain ⟨bm, bv⟩ := b
          cases e1 with
          | none => simp [selectStep]
          | some q => simp only [selectStep]; split_ifs <;> simp
      · rcases List.mem_cons.mp he' with rfl | hmem
        · exfalso; apply hbest
          obtain ⟨e1, e2⟩ := e'
          cases e1 with
          | none => exact absurd rfl hfin
          | some q =>
            cases best with
            | none => simp [selectStep]
            | some b =>
              obtain ⟨bm, bv⟩ := b
              simp only [selectStep]; split_ifs <;> simp
        · exact ⟨e', hmem, hfin⟩

/-- When the solver returns a finite eigenvalue, the selected column is one of its
eigenvectors, as returned. -/
theorem selectEigenvector_mem (env : Env) (A : Mat4) (h : ∃ e ∈ env.eigen A, e.1 ≠ none) :
    ∃ e ∈ env.eigen A, selectEigenvector env A = e.2 := by
  unfold selectEigenvector
  rcases select_foldl_mem (env.eigen A) none with h1 | ⟨ev, vec, h1, h2⟩
  · exact absurd h1 (select_foldl_some (env.eigen A) none (Or.inr h))
  · rw [h1]; exact ⟨_, h2, rfl⟩

theorem choose_xi_length (rand : Nat → Nat) (nearest_d : List F) (m1 m2 : List Int)
    (h : m1.length = m2.length) : choose_xi rand nearest_d m1 = choose_xi rand nearest_d m2 := by
  simp [choose_xi, h]

theorem localize_of_accLoop (env : Env) (reference source : PointCloud) (matched : List Int)
    (acc : Acc)
    (hacc : accLoop env reference source matched ⟨mzero, mzero, some 0⟩ = some acc) :
    localize env reference source matched =
      some { r := selectEigenvector env (solverMatrix acc)
             d := mulVec (smul (fdiv (some (-(1 / 2))) acc.W) (smul (some 2) acc.C2))
               (selectEigenvector env (solverMatrix acc)) } := by
  simp only [localize, hacc]

/-! ## Lemmas on the statistics of pass 1 -/

/-- The distances that pass 1 accepts, as numbers. -/
theorem sumMu_eq (Dmax : F) (nearest : List (Int × F)) :
    sumMu Dmax nearest =
      some (((nearest.filter (fun r => flt r.2 Dmax)).map (fun r => r.2.getD 0)).sum) := by
  unfold sumMu
  have h : ∀ acc : ℚ,
      nearest.foldl (fun mu r => if flt r.2 Dmax = true then fadd mu r.2 else mu) (some acc) =
        some (acc + ((nearest.filter (fun r => flt r.2 Dmax)).map (fun r => r.2.getD 0)).sum) := by
    induction nearest with
    | nil => intro acc; simp
    | cons r rs ih =>
      intro acc
      rw [List.foldl_cons]
      by_cases hr : flt r.2 Dmax = true
      · obtain ⟨i, d⟩ := r
        cases d with
        | none => simp [flt] at hr
        | some q =>
          have hstep : fadd (some acc) ((i, some q) : Int × F).2 = some (acc + q) := rfl
          rw [if_pos hr, hstep, ih (acc + q)]
          simp only [List.filter_cons, hr, if_true, List.map_cons, List.sum_cons,
            Option.getD_some]
          congr 1; ring
      · simp only [hr, if_false, List.filter_cons, Bool.false_eq_true]
        exact ih acc
  simpa using h 0

theorem sumSigma_eq (Dmax : F) (nearest : List (Int × F)) :
    sumSigma Dmax nearest =
      some (((nearest.filter (fun r => flt r.2 Dmax)).map
        (fun r => r.2.getD 0 * r.2.getD 0)).sum) := by
  unfold sumSigma
  have h : ∀ acc : ℚ,
      nearest.foldl (fun sigma r => if flt r.2 Dmax = true then fadd sigma (fmul r.2 r.2)
        else sigma) (some acc) =
        some (acc + ((nearest.filter (fun r => flt r.2 Dmax)).map
          (fun r => r.2.getD 0 * r.2.getD 0)).sum) := by
    induction nearest with
    | nil => intro acc; simp
    | cons r rs ih =>
      intro acc
      rw [List.foldl_cons]
      by_cases hr : flt r.2 Dmax = true
      · obtain ⟨i, d⟩ := r
        cases d with
        | none => simp [flt] at hr
        | some q =>
          have hstep : fadd (some acc) (fmul ((i, some q) : Int × F).2 ((i, some q) : Int × F).2) =
              some (acc + q * q) := rfl
          rw [if_pos hr, hstep, ih (acc + q * q)]
          simp only [List.filter_cons, hr, if_true, List.map_cons, List.sum_cons,
            Option.getD_some]
          congr 1; ring
      · simp only [hr, if_false, List.filter_cons, Bool.false_eq_true]
        exact ih acc
  simpa using h 0

theorem list_sq_dev_nonneg (l : List ℚ) (a : ℚ) :
    0 ≤ (l.length : ℚ) * (a * a) - 2 * a * l.sum + (l.map (fun x => x * x)).sum := by
  induction l with
  | nil => simp
  | cons x xs ih =>
    simp only [List.length_cons, List.sum_cons, List.map_cons, Nat.cast_add, Nat.cast_one]
    nlinarith [sq_nonneg (a - x)]

/-- The Cauchy-Schwarz inequality for a list: the square of the sum is at most the length times
the sum of the squares. -/
theorem list_sum_sq_le (l : List ℚ) :
    l.sum * l.sum ≤ (l.length : ℚ) * (l.map (fun x => x * x)).sum := by
  induction l with
  | nil => simp
  | cons x xs ih =>
    simp only [List.length_cons, List.sum_cons, List.map_cons, Nat.cast_add, Nat.cast_one]
    nlinarith [list_sq_dev_nonneg xs x]

theorem list_sum_sq_nonneg (l : List ℚ) : 0 ≤ (l.map (fun x => x * x)).sum := by
  induction l with
  | nil => simp
  | cons x xs ih =>
    simp only [List.map_cons, List.sum_cons]
    nlinarith [mul_self_nonneg x]

/-- The quantity under the square root of line 176 is not negative. -/
theorem variance_nonneg (l : List ℚ) (n : Nat) (hn : l.length ≤ n) (hpos : 0 < n) :
    0 ≤ (l.map (fun x => x * x)).sum / (n : ℚ) - l.sum / (n : ℚ) * (l.sum / (n : ℚ)) := by
  have hnq : (0 : ℚ) < (n : ℚ) := by exact_mod_cast hpos
  have hlen : (l.length : ℚ) ≤ (n : ℚ) := by exact_mod_cast hn
  have h1 := list_sum_sq_le l
  have h2 := list_sum_sq_nonneg l
  have h3 : l.sum * l.sum ≤ (n : ℚ) * (l.map (fun x => x * x)).sum :=
    le_trans h1 (mul_le_mul_of_nonneg_right hlen h2)
  have h4 : (l.map (fun x => x * x)).sum / (n : ℚ) - l.sum / (n : ℚ) * (l.sum / (n : ℚ)) =
      ((n : ℚ) * (l.map (fun x => x * x)).sum - l.sum * l.sum) / ((n : ℚ) * (n : ℚ)) := by
    field_simp; ring
  rw [h4]
  apply div_nonneg _ (by positivity)
  linarith

/-! ## Lemmas on the histogram of `choose_xi` -/

theorem binOf_le (max d : F) (k : Nat) (h : binOf max d = some k) : k ≤ num_bins := by
  unfold binOf at h
  split_ifs at h with h1
  · simp only [Option.some.injEq] at h; omega
  · cases hf : f2i (fdiv (fmul (some (num_bins : ℚ)) d) max) with
    | none => rw [hf] at h; simp at h
    | some z =>
      rw [hf] at h
      simp only at h
      split_ifs at h with h2
      simp only [Option.some.injEq] at h
      omega

/-- The bin of a non-negative distance: bin `k < 25` holds the distances with
`k * max <= 25 * d < (k + 1) * max`, bin 25 those with `max <= d`. -/
theorem binOf_iff (max d : ℚ) (k : Nat) (hmax : 0 < max) (hd : 0 ≤ d) :
    binOf (some max) (some d) = some k ↔
      (k < num_bins ∧ (k : ℚ) * max ≤ (num_bins : ℚ) * d ∧
        (num_bins : ℚ) * d < ((k : ℚ) + 1) * max) ∨ (k = num_bins ∧ max ≤ d) := by
  have hnb : (num_bins : ℚ) = 25 := by norm_num [num_bins]
  have hback : ∀ k' : Nat, ((k' < num_bins ∧ (k' : ℚ) * max ≤ (num_bins : ℚ) * d ∧
      (num_bins : ℚ) * d < ((k' : ℚ) + 1) * max) ∨ (k' = num_bins ∧ max ≤ d)) →
      binOf (some max) (some d) = some k' := by
    intro k' h
    rcases h with ⟨h1, h2, h3⟩ | ⟨h1, h2⟩
    · have hk : ((k' : ℚ) + 1) ≤ (num_bins : ℚ) := by exact_mod_cast h1
      have : (num_bins : ℚ) * d < (num_bins : ℚ) * max :=
        lt_of_lt_of_le h3 (mul_le_mul_of_nonneg_right hk (le_of_lt hmax))
      have hle : d ≤ max := by rw [hnb] at this; linarith
      exact binOf_eq max d k' hmax (le_of_lt h1) hle h2 h3
    · subst h1
      rcases lt_or_eq_of_le h2 with h | h
      · exact binOf_overflow max d h
      · subst h
        exact binOf_eq max max num_bins hmax (le_refl _) (le_refl _) (by rw [mul_comm])
          (by rw [hnb]; linarith)
  constructor
  · intro h
    have hex : ∃ k' : Nat, (k' < num_bins ∧ (k' : ℚ) * max ≤ (num_bins : ℚ) * d ∧
        (num_bins : ℚ) * d < ((k' : ℚ) + 1) * max) ∨ (k' = num_bins ∧ max ≤ d) := by
      by_cases hlt : d < max
      · have h0 : 0 ≤ (num_bins : ℚ) * d / max := by positivity
        have hz0 : 0 ≤ ⌊(num_bins : ℚ) * d / max⌋ := Int.floor_nonneg.mpr h0
        have hz1 : (⌊(num_bins : ℚ) * d / max⌋ : ℚ) ≤ (num_bins : ℚ) * d / max :=
          Int.floor_le _
        have hz2 : (num_bins : ℚ) * d / max < (⌊(num_bins : ℚ) * d / max⌋ : ℚ) + 1 :=
          Int.lt_floor_add_one _
        have hcast : ((⌊(num_bins : ℚ) * d / max⌋.toNat : Nat) : ℚ) =
            (⌊(num_bins : ℚ) * d / max⌋ : ℚ) := by
          have : ((⌊(num_bins : ℚ) * d / max⌋.toNat : Nat) : Int) =
              ⌊(num_bins : ℚ) * d / max⌋ := Int.toNat_of_nonneg hz0
          exact_mod_cast this
        have hlt25 : (num_bins : ℚ) * d / max < (num_bins : ℚ) := by
          rw [div_lt_iff₀ hmax, hnb]; linarith
        refine ⟨⌊(num_bins : ℚ) * d / max⌋.toNat, Or.inl ⟨?_, ?_, ?_⟩⟩
        · have : ((⌊(num_bins : ℚ) * d / max⌋.toNat : Nat) : ℚ) < (num_bins : ℚ) := by
            rw [hcast]; linarith
          exact_mod_cast this
        · rw [hcast]
          exact (le_div_iff₀ hmax).mp hz1
        · rw [hcast]
          exact (div_lt_iff₀ hmax).mp hz2
      · exact ⟨num_bins, Or.inr ⟨rfl, not_lt.mp hlt⟩⟩
    obtain ⟨k', hk'⟩ := hex
    have := hback k' hk'
    rw [h] at this
    simp only [Option.some.injEq] at this
    subst this
    exact hk'
  · exact hback k

theorem incr_getD (counts : List Nat) (j k : Nat) :
    (incr counts j).getD k 0 =
      if j = k ∧ k < counts.length then counts.getD k 0 + 1 else counts.getD k 0 := by
  simp only [incr, List.getD_eq_getElem?_getD, List.getElem?_set]
  by_cases hjk : j = k
  · subst hjk
    by_cases hlt : j < counts.length
    · simp [hlt]
    · simp [hlt, List.getElem?_eq_none (not_lt.mp hlt)]
  · simp [hjk]

theorem incr_sum (counts : List Nat) (j : Nat) (hj : j < counts.length) :
    (incr counts j).sum = counts.sum + 1 := by
  induction counts generalizing j with
  | nil => simp at hj
  | cons c cs ih =>
    cases j with
    | zero => simp [incr]; omega
    | succ j =>
      have h := ih j (by simpa using hj)
      simp only [incr, List.getD_eq_getElem?_getD, List.getElem?_cons_succ, List.set_cons_succ,
        List.sum_cons] at h ⊢
      omega

theorem histLoop_count (max : F) (ds : List F) :
    ∀ counts0 counts : List Nat, histLoop max ds counts0 = some counts →
      counts.length = counts0.length ∧
      (num_bins < counts0.length → counts.sum = counts0.sum + ds.length) ∧
      ∀ k, k < counts0.length →
        counts.getD k 0 = counts0.getD k 0 + ds.countP (fun d => decide (binOf max d = some k)) := by
  induction ds with
  | nil =>
    intro counts0 counts h
    simp only [histLoop, Option.some.injEq] at h
    subst h
    simp
  | cons d ds ih =>
    intro counts0 counts h
    simp only [histLoop] at h
    cases hb : binOf max d with
    | none => rw [hb] at h; simp at h
    | some j =>
      rw [hb] at h
      simp only at h
      obtain ⟨h1, h2, h3⟩ := ih (incr counts0 j) counts h
      rw [incr_length] at h1 h2 h3
      have hj : j ≤ num_bins := binOf_le max d j hb
      refine ⟨h1, fun hlen => ?_, fun k hk => ?_⟩
      · rw [h2 hlen, incr_sum counts0 j (by omega), List.length_cons]; omega
      · rw [h3 k hk, incr_getD, List.countP_cons]
        by_cases hjk : j = k
        · subst hjk
          simp [hk, hb]; omega
        · have hne : ¬ (some j = some k) := by simpa using hjk
          simp [hjk, hb]

/-! ## Lemmas on the sampled bound, the peak and the valley of `choose_xi` -/

/-- The sampling loop of `choose_xi` over finite distances: the result bounds every sampled
distance and is the start value or one of the sampled distances. -/
theorem sample_foldlM_max (rand : Nat → Nat) (nearest_d : List F) (size : Nat) (hs : size ≠ 0)
    (hlen : size ≤ nearest_d.length) (hfin : ∀ d ∈ nearest_d, ∃ q : ℚ, d = some q)
    (l : List Nat) :
    ∀ m0 : ℚ, ∃ m, l.foldlM (sampleStep rand nearest_d size) (some m0) = some (some m) ∧
      m0 ≤ m ∧
      (∀ n ∈ l, ∃ q, nearest_d[rand n % size]? = some (some q) ∧ q ≤ m) ∧
      (m = m0 ∨ ∃ n ∈ l, nearest_d[rand n % size]? = some (some m)) := by
  induction l with
  | nil =>
    intro m0
    exact ⟨m0, rfl, le_refl _, fun n hn => absurd hn (List.not_mem_nil _), Or.inl rfl⟩
  | cons n l ih =>
    intro m0
    have hidx : rand n % size < nearest_d.length :=
      lt_of_lt_of_le (Nat.mod_lt _ (Nat.pos_of_ne_zero hs)) hlen
    obtain ⟨q, hq⟩ := hfin nearest_d[rand n % size] (List.getElem_mem _)
    have hget : nearest_d[rand n % size]? = some (some q) := by
      rw [List.getElem?_eq_getElem hidx, hq]
    rw [List.foldlM_cons]
    by_cases hlt : m0 < q
    · have hstep : sampleStep rand nearest_d size (some m0) n = some (some q) := by
        simp [sampleStep, hs, hget, flt, hlt]
      rw [hstep]
      obtain ⟨m, hm, hle, hall, hatt⟩ := ih q
      refine ⟨m, hm, le_trans (le_of_lt hlt) hle, ?_, Or.inr ?_⟩
      · intro n' hn'
        rcases List.mem_cons.mp hn' with rfl | h
        · exact ⟨q, hget, hle⟩
        · exact hall n' h
      · rcases hatt with rfl | ⟨n', hn', h⟩
        · exact ⟨n, List.mem_cons_self _ _, hget⟩
        · exact ⟨n', List.mem_cons_of_mem _ hn', h⟩
    · have hstep : sampleStep rand nearest_d size (some m0) n = some (some m0) := by
        simp [sampleStep, hs, hget, flt, hlt]
      rw [hstep]
      obtain ⟨m, hm, hle, hall, hatt⟩ := ih m0
      refine ⟨m, hm, hle, ?_, ?_⟩
      · intro n' hn'
        rcases List.mem_cons.mp hn' with rfl | h
        · exact ⟨q, hget, le_trans (not_lt.mp hlt) hle⟩
        · exact hall n' h
      · rcases hatt with h | ⟨n', hn', h⟩
        · exact Or.inl h
        · exact Or.inr ⟨n', List.mem_cons_of_mem _ hn', h⟩

/-- The bound `max` of `choose_xi` is 1.05 times the largest of the 100 sampled distances (or
0 when none of them is positive). -/
theorem estimateMax_largest (rand : Nat → Nat) (nearest_d : List F) (size : Nat) (hs : size ≠ 0)
    (hlen : size ≤ nearest_d.length) (hfin : ∀ d ∈ nearest_d, ∃ q : ℚ, d = some q) :
    ∃ m : ℚ, estimateMax rand nearest_d size = some (some (m * (21 / 20))) ∧ 0 ≤ m ∧
      (∀ n, n < 100 → ∃ q, nearest_d[rand n % size]? = some (some q) ∧ q ≤ m) ∧
      (0 < m → ∃ n, n < 100 ∧ nearest_d[rand n % size]? = some (some m)) := by
  obtain ⟨m, hm, hle, hall, hatt⟩ :=
    sample_foldlM_max rand nearest_d size hs hlen hfin (List.range 100) 0
  refine ⟨m, by simp [estimateMax, hm, fmul], hle,
    fun n hn => hall n (List.mem_range.mpr hn), fun hpos => ?_⟩
  rcases hatt with h | ⟨n, hn, h⟩
  · exact absurd h (ne_of_gt hpos)
  · exact ⟨n, List.mem_range.mp hn, h⟩

theorem peak_range_inv (counts : List Nat) (n : Nat) :
    (((List.range n).foldl (peakStep counts) (0, 0)).1 < n ∨
      ((List.range n).foldl (peakStep counts) (0, 0)).1 = 0) ∧
    (∀ i, i < n → counts.getD i 0 ≤ ((List.range n).foldl (peakStep counts) (0, 0)).2) ∧
    (∀ i, i < ((List.range n).foldl (peakStep counts) (0, 0)).1 →
      counts.getD i 0 < ((List.range n).foldl (peakStep counts) (0, 0)).2) := by
  induction n with
  | zero => simp
  | succ n ih =>
    rw [List.range_succ, List.foldl_append, List.foldl_cons, List.foldl_nil]
    obtain ⟨h1, h2, h3⟩ := ih
    generalize (List.range n).foldl (peakStep counts) (0, 0) = s at h1 h2 h3 ⊢
    unfold peakStep
    by_cases hgt : counts.getD n 0 > s.2
    · rw [if_pos hgt]
      refine ⟨Or.inl (Nat.lt_succ_self _), ?_, ?_⟩
      · intro i hi
        rcases Nat.lt_succ_iff_lt_or_eq.mp hi with h | h
        · exact le_of_lt (lt_of_le_of_lt (h2 i h) hgt)
        · subst h; exact le_refl _
      · intro i hi
        exact lt_of_le_of_lt (h2 i hi) hgt
    · rw [if_neg hgt]
      refine ⟨?_, ?_, h3⟩
      · rcases h1 with h | h
        · exact Or.inl (by omega)
        · exact Or.inr h
      · intro i hi
        rcases Nat.lt_succ_iff_lt_or_eq.mp hi with h | h
        · exact h2 i h
        · subst h; exact not_lt.mp hgt

/-- The peak of `choose_xi` is the lowest-indexed bin among the 26 bins with the highest
count. -/
theorem findPeak_spec (counts : List Nat) :
    (findPeak counts).1 ≤ num_bins ∧
    (∀ i, i ≤ num_bins → counts.getD i 0 ≤ counts.getD (findPeak counts).1 0) ∧
    (∀ i, i < (findPeak counts).1 → counts.getD i 0 < counts.getD (findPeak counts).1 0) := by
  obtain ⟨h1, h2, h3⟩ := peak_range_inv counts (num_bins + 1)
  rw [← findPeak_snd]
  refine ⟨?_, fun i hi => h2 i (by omega), h3⟩
  unfold findPeak
  omega

theorem valleyLoop_bounds (counts : List Nat) (elevation : Nat) :
    ∀ fuel valley, valley ≤ valleyLoop counts elevation fuel valley ∧
      valleyLoop counts elevation fuel valley ≤ valley + fuel := by
  intro fuel
  induction fuel with
  | zero => intro valley; exact ⟨le_refl _, le_refl _⟩
  | succ fuel ih =>
    intro valley
    obtain ⟨h1, h2⟩ := ih (valley + 1)
    simp only [valleyLoop]
    split_ifs
    · exact ⟨by omega, by omega⟩
    · exact ⟨le_refl _, by omega⟩
    · exact ⟨by omega, by omega⟩

theorem findValley_bounds (counts : List Nat) (peak elevation : Nat) (hp : peak ≤ num_bins) :
    peak + 1 ≤ findValley counts peak elevation ∧
      findValley counts peak elevation ≤ num_bins + 1 := by
  obtain ⟨h1, h2⟩ := valleyLoop_bounds counts elevation (num_bins - (peak + 1)) (peak + 1)
  unfold findValley
  exact ⟨h1, by omega⟩

/-! ## Algebra of floats and matrices -/

theorem fadd_comm (a b : F) : fadd a b = fadd b a := by
  cases a <;> cases b <;> simp [fadd, add_comm]

theorem fadd_assoc (a b c : F) : fadd (fadd a b) c = fadd a (fadd b c) := by
  cases a <;> cases b <;> cases c <;> simp [fadd, add_assoc]

theorem fmul_assoc (a b c : F) : fmul (fmul a b) c = fmul a (fmul b c) := by
  cases a <;> cases b <;> cases c <;> simp [fmul, mul_assoc]

theorem fmul_fadd (a b c : F) : fmul a (fadd b c) = fadd (fmul a b) (fmul a c) := by
  cases a <;> cases b <;> cases c <;> simp [fmul, fadd, mul_add]

theorem fadd_fmul (a b c : F) : fmul (fadd a b) c = fadd (fmul a c) (fmul b c) := by
  cases a <;> cases b <;> cases c <;> simp [fmul, fadd, add_mul]

theorem fmul_right_comm (c a b : F) : fmul (fmul c a) b = fmul (fmul c b) a := by
  cases c <;> cases a <;> cases b <;> simp [fmul, mul_right_comm]

theorem fsub_right_comm (a b c : F) : fsub (fsub a b) c = fsub (fsub a c) b := by
  cases a <;> cases b <;> cases c <;> simp [fsub, sub_right_comm]

theorem fadd_sum4_swap (t : Fin 4 → Fin 4 → F) :
    sum4 (fun k => sum4 (fun j => t k j)) = sum4 (fun j => sum4 (fun k => t k j)) := by
  simp only [sum4]
  ac_rfl

theorem fmul_sum4 (a : F) (t : Fin 4 → F) : fmul a (sum4 t) = sum4 (fun j => fmul a (t j)) := by
  simp only [sum4, fmul_fadd]

theorem sum4_fmul (t : Fin 4 → F) (a : F) : fmul (sum4 t) a = sum4 (fun k => fmul (t k) a) := by
  simp only [sum4, fadd_fmul]

/-- Applying two matrices in turn is applying their product. -/
theorem mulVec_mulVec (A B : Mat4) (v : Fin 4 → F) :
    mulVec A (mulVec B v) = mulVec (mmul A B) v := by
  funext i
  simp only [mulVec, mmul, fmul_sum4, sum4_fmul, fmul_assoc]
  exact fadd_sum4_swap (fun k j => fmul (A i k) (fmul (B k j) (v j)))

theorem getVector4fMap_mk (v : Fin 4 → F) :
    (⟨v 0, v 1, v 2, v 3⟩ : PointXYZ).getVector4fMap = v := by
  funext i
  fin_cases i <;> rfl

theorem transformPoint_mmul (A B : Mat4) (p : PointXYZ) :
    transformPoint A (transformPoint B p) = transformPoint (mmul A B) p := by
  simp only [transformPoint, getVector4fMap_mk, mulVec_mulVec]

/-- The matrix handed to the eigen solver is symmetric. -/
theorem solverMatrix_symm (acc : Acc) : transpose (solverMatrix acc) = solverMatrix acc := by
  funext i j
  simp only [transpose, solverMatrix, smul, msub, mmul]
  have hX : sum4 (fun k => fmul (fmul (fdiv (some (1 / 2)) acc.W) (fmul (some 2) (acc.C2 k j)))
        (fmul (some 2) (acc.C2 k i))) =
      sum4 (fun k => fmul (fmul (fdiv (some (1 / 2)) acc.W) (fmul (some 2) (acc.C2 k i)))
        (fmul (some 2) (acc.C2 k j))) := by
    simp only [sum4, fmul_right_comm (fdiv (some (1 / 2)) acc.W) (fmul (some 2) (acc.C2 _ j))]
  rw [hX, fsub_right_comm]

/-! ## Lemmas on the accumulation and the selection of `localize` -/

/-- The accumulation loop of `localize` on indices that are in range: the sums run over the
accepted pairs and `W` counts them. -/
theorem accLoop_pairs (env : Env) (reference : PointCloud) :
    ∀ (matched : List Int) (source : PointCloud) (acc : Acc) (w : ℚ), acc.W = some w →
      matched.length ≤ source.length →
      (∀ m ∈ matched, 0 ≤ m → m.toNat < reference.length) →
      accLoop env reference source matched acc =
        some { C1 := (acceptedPairs reference source matched).foldl
                 (fun S rp => madd S (mmul (transpose (env.Q (env.quatOfPoint rp.1)))
                   (env.W (env.quatOfPoint rp.2)))) acc.C1
               C2 := (acceptedPairs reference source matched).foldl
                 (fun S rp => madd S (msub (env.W (env.quatOfPoint rp.2))
                   (env.Q (env.quatOfPoint rp.1)))) acc.C2
               W := some (w + ((acceptedPairs reference source matched).length : ℚ)) } ∧
      (acceptedPairs reference source matched).length = matchCount matched := by
  intro matched
  induction matched with
  | nil =>
    intro source acc w hw _ _
    obtain ⟨c1, c2, w'⟩ := acc
    simp only at hw
    subst hw
    simp [accLoop, acceptedPairs, matchCount]
  | cons m ms ih =>
    intro source acc w hw hlen href
    cases source with
    | nil => simp at hlen
    | cons p ps =>
      have hlen' : ms.length ≤ ps.length := by simpa using hlen
      have href' : ∀ m' ∈ ms, 0 ≤ m' → m'.toNat < reference.length :=
        fun m' hm' => href m' (List.mem_cons_of_mem _ hm')
      by_cases hneg : m < 0
      · obtain ⟨h1, h2⟩ := ih ps acc w hw hlen' href'
        have hp : acceptedPairs reference (p :: ps) (m :: ms) = acceptedPairs reference ps ms := by
          simp [acceptedPairs, hneg]
        have hc : matchCount (m :: ms) = matchCount ms := by
          simp [matchCount, List.filter_cons, not_le.mpr hneg]
        rw [hp, hc]
        exact ⟨by simpa [accLoop, hneg] using h1, h2⟩
      · have hr := href m (List.mem_cons_self _ _) (not_lt.mp hneg)
        have hget : reference[m.toNat]? = some reference[m.toNat] :=
          List.getElem?_eq_getElem hr
        obtain ⟨h1, h2⟩ := ih ps (accumulate env acc reference[m.toNat] p) (w + 1)
          (by simp [accumulate, hw, fadd]) hlen' href'
        have hp : acceptedPairs reference (p :: ps) (m :: ms) =
            (reference[m.toNat], p) :: acceptedPairs reference ps ms := by
          simp [acceptedPairs, hneg, hget]
        have hc : matchCount (m :: ms) = matchCount ms + 1 := by
          simp [matchCount, List.filter_cons, not_lt.mp hneg]
        rw [hp, hc]
        refine ⟨?_, by simp [h2]⟩
        simp only [accLoop, hneg, if_false, hget, List.head?_cons, List.tail_cons, h1,
          List.foldl_cons, List.length_cons, Nat.cast_add, Nat.cast_one]
        simp only [accumulate]
        congr 3
        ring

/-- The selection loop of `localize`: nothing is selected when every eigenvalue is NaN;
otherwise the selected pair is the lowest-indexed one among those of largest eigenvalue. -/
theorem select_foldl_max (l : List (F × Vec4)) :
    (l.foldl selectStep none = none → ∀ e ∈ l, e.1 = none) ∧
    (∀ m v, l.foldl selectStep none = some (m, v) →
      ∃ i : Nat, l[i]? = some (some m, v) ∧
        (∀ (j : Nat) (x : ℚ) (w : Vec4), l[j]? = some (some x, w) → x ≤ m) ∧
        (∀ (j : Nat) (x : ℚ) (w : Vec4), j < i → l[j]? = some (some x, w) → x < m)) := by
  induction l using List.reverseRecOn with
  | nil => exact ⟨fun _ e he => absurd he (List.not_mem_nil _), fun m v h => by simp at h⟩
  | append_singleton l e ih =>
    obtain ⟨ih1, ih2⟩ := ih
    rw [List.foldl_append, List.foldl_cons, List.foldl_nil]
    have hlast : (l ++ [e])[l.length]? = some e := by simp
    have hget : ∀ (j : Nat) (x : ℚ) (w : Vec4), (l ++ [e])[j]? = some ((some x, w) : F × Vec4) →
        (j < l.length ∧ l[j]? = some (some x, w)) ∨ (j = l.length ∧ e = (some x, w)) := by
      intro j x w h
      rcases Nat.lt_trichotomy j l.length with hj | hj | hj
      · left; rw [List.getElem?_append_left hj] at h; exact ⟨hj, h⟩
      · right; subst hj; rw [hlast] at h; exact ⟨rfl, Option.some.inj h⟩
      · rw [List.getElem?_eq_none (by simp; omega)] at h; simp at h
    obtain ⟨e1, e2⟩ := e
    cases e1 with
    | none =>
      have hstep : selectStep (l.foldl selectStep none) (none, e2) = l.foldl selectStep none := by
        cases l.foldl selectStep none <;> rfl
      rw [hstep]
      constructor
      · intro h e' he'
        rcases List.mem_append.mp he' with h' | h'
        · exact ih1 h e' h'
        · simp only [List.mem_singleton] at h'; subst h'; rfl
      · intro m v h
        obtain ⟨i, hi, hmax, hlow⟩ := ih2 m v h
        have hil : i < l.length := by
          by_contra hcon
          rw [List.getElem?_eq_none (not_lt.mp hcon)] at hi
          simp at hi
        refine ⟨i, by rw [List.getElem?_append_left hil]; exact hi, ?_, ?_⟩
        · intro j x w hj
          rcases hget j x w hj with ⟨_, h'⟩ | ⟨_, h'⟩
          · exact hmax j x w h'
          · simp at h'
        · intro j x w hji hj
          rcases hget j x w hj with ⟨_, h'⟩ | ⟨_, h'⟩
          · exact hlow j x w hji h'
          · simp at h'
    | some ev =>
      cases hb : l.foldl selectStep none with
      | none =>
        have hall := ih1 hb
        have hnone : ∀ (j : Nat) (x : ℚ) (w : Vec4),
            l[j]? = some ((some x, w) : F × Vec4) → False := by
          intro j x w h
          have := hall _ (List.getElem?_mem h)
          simp at this
        constructor
        · intro h; simp [selectStep] at h
        · intro m v h
          simp only [selectStep, Option.some.injEq, Prod.mk.injEq] at h
          obtain ⟨rfl, rfl⟩ := h
          refine ⟨l.length, hlast, ?_, ?_⟩
          · intro j x w hj
            rcases hget j x w hj with ⟨_, h'⟩ | ⟨_, h'⟩
            · exact absurd (hnone j x w h') id
            · simp only [Prod.mk.injEq, Option.some.injEq] at h'
              exact le_of_eq h'.1.symm
          · intro j x w hji hj
            rcases hget j x w hj with ⟨_, h'⟩ | ⟨h', _⟩
            · exact absurd (hnone j x w h') id
            · omega
      | some b =>
        obtain ⟨bm, bv⟩ := b
        obtain ⟨i, hi, hmax, hlow⟩ := ih2 bm bv hb
        have hil : i < l.length := by
          by_contra hcon
          rw [List.getElem?_eq_none (not_lt.mp hcon)] at hi
          simp at hi
        constructor
        · intro h
          simp only [selectStep] at h
          split_ifs at h
        · intro m v h
          simp only [selectStep] at h
          by_cases hlt : bm < ev
          · rw [if_pos hlt] at h
            simp only [Option.some.injEq, Prod.mk.injEq] at h
            obtain ⟨rfl, rfl⟩ := h
            refine ⟨l.length, hlast, ?_, ?_⟩
            · intro j x w hj
              rcases hget j x w hj with ⟨_, h'⟩ | ⟨_, h'⟩
              · exact le_of_lt (lt_of_le_of_lt (hmax j x w h') hlt)
              · simp only [Prod.mk.injEq, Option.some.injEq] at h'
                exact le_of_eq h'.1.symm
            · intro j x w hji hj
              rcases hget j x w hj with ⟨_, h'⟩ | ⟨h', _⟩
              · exact lt_of_le_of_lt (hmax j x w h') hlt
              · omega
          · rw [if_neg hlt] at h
            simp only [Option.some.injEq, Prod.mk.injEq] at h
            obtain ⟨rfl, rfl⟩ := h
            refine ⟨i, by rw [List.getElem?_append_left hil]; exact hi, ?_, ?_⟩
            · intro j x w hj
              rcases hget j x w hj with ⟨_, h'⟩ | ⟨_, h'⟩
              · exact hmax j x w h'
              · simp only [Prod.mk.injEq, Option.some.injEq] at h'
                rw [← h'.1]; exact not_lt.mp hlt
            · intro j x w hji hj
              rcases hget j x w hj with ⟨_, h'⟩ | ⟨h', _⟩
              · exact hlow j x w hji h'
              · omega

/-- The column selected by `localize` when the solver returns a finite eigenvalue. -/
theorem selectEigenvector_max (env : Env) (A : Mat4) (h : ∃ e ∈ env.eigen A, e.1 ≠ none) :
    ∃ (i : Nat) (m : ℚ) (v : Vec4), (env.eigen A)[i]? = some (some m, v) ∧
      selectEigenvector env A = v ∧
      (∀ (j : Nat) (x : ℚ) (w : Vec4), (env.eigen A)[j]? = some (some x, w) → x ≤ m) ∧
      (∀ (j : Nat) (x : ℚ) (w : Vec4), j < i → (env.eigen A)[j]? = some (some x, w) → x < m) := by
  obtain ⟨h1, h2⟩ := select_foldl_max (env.eigen A)
  cases hb : (env.eigen A).foldl selectStep none with
  | none =>
    obtain ⟨e, he, hfin⟩ := h
    exact absurd (h1 hb e he) hfin
  | some b =>
    obtain ⟨m, v⟩ := b
    obtain ⟨i, hi, hmax, hlow⟩ := h2 m v hb
    exact ⟨i, m, v, hi, by simp [selectEigenvector, hb], hmax, hlow⟩

/-! ## Lemmas on the cumulative transform -/

theorem icpBody_Trs (env : Env) (reference : PointCloud) (s s' : State) (T : DualQuat)
    (h : icpBody env reference s = some (s', T)) :
    s'.Trs = mmul (env.Matrix T) s.Trs := by
  unfold icpBody at h
  cases hf : filterStep env s.calls (nearestSearch env reference s.source) s.Dmax with
  | none => rw [hf] at h; exact absurd h (by simp)
  | some res =>
    obtain ⟨matched, Dmax', calls'⟩ := res
    rw [hf] at h
    simp only at h
    cases hl : localize env reference s.source matched with
    | none => rw [hl] at h; exact absurd h (by simp)
    | some T' =>
      rw [hl] at h
      simp only [Option.some.injEq, Prod.mk.injEq] at h
      obtain ⟨h1, h2⟩ := h
      subst h2
      rw [← h1]

theorem iterState_succ_inv (env : Env) (reference : PointCloud) (s0 s : State) (k : Nat)
    (h : iterState env reference s0 (k + 1) = some s) :
    ∃ s' T, iterState env reference s0 k = some s' ∧ icpBody env reference s' = some (s, T) := by
  simp only [iterState] at h
  cases hk : iterState env reference s0 k with
  | none => rw [hk] at h; exact absurd h (by simp)
  | some s' =>
    rw [hk] at h
    simp only at h
    cases hb : icpBody env reference s' with
    | none => rw [hb] at h; exact absurd h (by simp)
    | some res =>
      obtain ⟨s'', T⟩ := res
      rw [hb] at h
      simp only [Option.map_some', Option.some.injEq] at h
      subst h
      exact ⟨s', T, rfl, hb⟩

/-- The state at the exit of the loop of `ICP` is the state after as many iterations as were
run. -/
theorem icpLoop_state (env : Env) (reference : PointCloud) (s0 : State) :
    ∀ (fuel iter : Nat) (s : State) (r : Result),
      iterState env reference s0 iter = some s →
      icpLoop env reference fuel iter s = some r →
      iterState env reference s0 r.iters = some r.state := by
  intro fuel
  induction fuel with
  | zero =>
    intro iter s r hs h
    simp only [icpLoop, Option.some.injEq] at h
    subst h
    exact hs
  | succ fuel ih =>
    intro iter s r hs h
    simp only [icpLoop] at h
    cases hb : icpBody env reference s with
    | none => rw [hb] at h; exact absurd h (by simp)
    | some res =>
      obtain ⟨s', T⟩ := res
      rw [hb] at h
      simp only at h
      have hnext := iterState_succ env reference s0 s s' T iter hs hb
      split_ifs at h
      · simp only [Option.some.injEq] at h
        subst h
        exact hnext
      · exact ih (iter + 1) s' r hnext h

/-- After `k` iterations every source point is the current `Trs` applied to its value at the
call, and `Trs` is the product of the matrices of the `k` motions and of the prior. -/
theorem iterState_cumulative (env : Env) (reference source : PointCloud) (Trs0 : Mat4) :
    ∀ (k : Nat) (s : State), iterState env reference (initState source Trs0) k = some s →
      s.source = source.map (transformPoint s.Trs) ∧
      ∃ Ts : List DualQuat, Ts.length = k ∧
        s.Trs = Ts.foldl (fun Trs T => mmul (env.Matrix T) Trs) Trs0 ∧
        ∀ (j : Nat) (T : DualQuat), Ts[j]? = some T →
          ∃ sj sj', iterState env reference (initState source Trs0) j = some sj ∧
            icpBody env reference sj = some (sj', T) := by
  intro k
  induction k with
  | zero =>
    intro s h
    simp only [iterState, Option.some.injEq] at h
    subst h
    exact ⟨rfl, [], rfl, rfl, fun j T hj => by simp at hj⟩
  | succ k ih =>
    intro s h
    obtain ⟨s', T, hk, hb⟩ := iterState_succ_inv env reference _ s k h
    obtain ⟨hsrc, Ts, hlen, hTrs, hTs⟩ := ih s' hk
    have h1 := icpBody_source env reference s' s T hb
    have h2 := icpBody_Trs env reference s' s T hb
    refine ⟨?_, Ts ++ [T], by simp [hlen], ?_, ?_⟩
    · rw [h1, hsrc, List.map_map, h2]
      apply List.map_congr_left
      intro p _
      exact transformPoint_mmul _ _ p
    · rw [List.foldl_append, List.foldl_cons, List.foldl_nil, ← hTrs, h2]
    · intro j T' hj
      rcases Nat.lt_trichotomy j Ts.length with hlt | heq | hgt
      · rw [List.getElem?_append_left hlt] at hj
        exact hTs j T' hj
      · subst heq
        rw [List.getElem?_append_right (le_refl _)] at hj
        simp only [Nat.sub_self, List.getElem?_cons_zero, Option.some.injEq] at hj
        subst hj
        exact ⟨s', s, by rw [hlen]; exact hk, hb⟩
      · rw [List.getElem?_eq_none (by simp; omega)] at hj
        simp at hj

/-! ## Lemmas on rounding -/

theorem roundHalfEven_near (n : ℚ) (m : Int) (h1 : (m : ℚ) - 1 / 2 < n) (h2 : n < (m : ℚ) + 1 / 2) :
    roundHalfEven n = m := by
  unfold roundHalfEven
  by_cases hge : (m : ℚ) ≤ n
  · have hf : ⌊n⌋ = m := by
      rw [Int.floor_eq_iff]; constructor <;> linarith
    rw [hf, if_pos (by linarith)]
  · have hf : ⌊n⌋ = m - 1 := by
      rw [Int.floor_eq_iff]; push_cast; constructor <;> linarith
    rw [hf]
    push_cast
    rw [if_neg (by linarith), if_pos (by linarith)]
    ring

theorem roundHalfEven_tie (f : Int) :
    roundHalfEven ((f : ℚ) + 1 / 2) = if f % 2 = 0 then f else f + 1 := by
  have hf : ⌊(f : ℚ) + 1 / 2⌋ = f := by
    rw [Int.floor_eq_iff]; constructor <;> linarith
  unfold roundHalfEven
  rw [hf, if_neg (by norm_num), if_neg (by norm_num)]

theorem roundHalfEven_ge (n : ℚ) : n - 1 / 2 ≤ (roundHalfEven n : ℚ) := by
  have h1 := Int.floor_le n
  have h2 := Int.lt_floor_add_one n
  unfold roundHalfEven
  split_ifs with a b c
  · linarith
  · push_cast; linarith
  · linarith
  · push_cast; linarith

theorem roundHalfEven_le (n : ℚ) : (roundHalfEven n : ℚ) ≤ n + 1 / 2 := by
  have h1 := Int.floor_le n
  have h2 := Int.lt_floor_add_one n
  unfold roundHalfEven
  split_ifs with a b c
  · linarith
  · push_cast; linarith
  · linarith
  · push_cast; linarith

theorem roundHalfEven_floor_le (n : ℚ) : ⌊n⌋ ≤ roundHalfEven n := by
  unfold roundHalfEven
  split_ifs <;> omega

theorem roundHalfEven_le_floor (n : ℚ) : roundHalfEven n ≤ ⌊n⌋ + 1 := by
  unfold roundHalfEven
  split_ifs <;> omega

theorem roundHalfEven_mono (a b : ℚ) (h : a ≤ b) : roundHalfEven a ≤ roundHalfEven b := by
  have hfl : ⌊a⌋ ≤ ⌊b⌋ := Int.floor_mono h
  rcases lt_or_eq_of_le hfl with hlt | heq
  · exact le_trans (roundHalfEven_le_floor a) (le_trans (by omega) (roundHalfEven_floor_le b))
  · unfold roundHalfEven
    rw [← heq]
    split_ifs <;> first | omega | (exfalso; linarith)

theorem roundHalfEven_intCast (k : Int) : roundHalfEven (k : ℚ) = k :=
  roundHalfEven_near _ k (by linarith) (by linarith)

theorem lastPlace_eq (p : Nat) (emin : Int) (q : ℚ) (e : Int) (he : emin ≤ e)
    (hlo : (2 : ℚ) ^ (p - 1) * (2 : ℚ) ^ e ≤ |q|) (hhi : |q| < (2 : ℚ) ^ p * (2 : ℚ) ^ e)
    (hp : 1 ≤ p) : lastPlace p emin q = e := by
  have hupos : (0 : ℚ) < (2 : ℚ) ^ e := by positivity
  have habs : 0 < |q| := lt_of_lt_of_le (by positivity) hlo
  have hlog : Int.log 2 |q| = e + ((p : Int) - 1) := by
    have h1 : e + ((p : Int) - 1) ≤ Int.log 2 |q| := by
      rw [← Int.zpow_le_iff_le_log (by norm_num) habs]
      have : ((2 : ℕ) : ℚ) ^ (e + ((p : Int) - 1)) = (2 : ℚ) ^ (p - 1) * (2 : ℚ) ^ e := by
        rw [zpow_add₀ (by norm_num), mul_comm]
        congr 1
        have : ((p : Int) - 1) = ((p - 1 : Nat) : Int) := by omega
        rw [this, zpow_natCast]
        norm_num
      rw [this]; exact hlo
    have h2 : Int.log 2 |q| < e + ((p : Int) - 1) + 1 := by
      rw [← Int.lt_zpow_iff_log_lt (by norm_num) habs]
      have : ((2 : ℕ) : ℚ) ^ (e + ((p : Int) - 1) + 1) = (2 : ℚ) ^ p * (2 : ℚ) ^ e := by
        have : e + ((p : Int) - 1) + 1 = e + (p : Int) := by ring
        rw [this, zpow_add₀ (by norm_num), mul_comm, zpow_natCast]
        norm_num
      rw [this]; exact hhi
    omega
  unfold lastPlace
  rw [hlog]; simp [he]

/-- The rounding of a number of the normal range: if `|q|` lies in the binade
`[2^(p-1) u, 2^p u)` with `u = 2^e` and `e ≥ emin`, and `m u` is within half a unit of `|q|`,
then `q` rounds to `m u` with the sign of `q`. -/
theorem roundBits_eval (p : Nat) (emin : Int) (q : ℚ) (m e : Int) (u : ℚ)
    (hu : u = (2 : ℚ) ^ e) (he : emin ≤ e)
    (hlo : (2 : ℚ) ^ (p - 1) * u ≤ |q|) (hhi : |q| < (2 : ℚ) ^ p * u) (hp : 1 ≤ p)
    (hnear : |(|q|) - (m : ℚ) * u| < u / 2) :
    roundBits p emin q = (if q < 0 then -1 else 1) * ((m : ℚ) * u) := by
  subst hu
  have hupos : (0 : ℚ) < (2 : ℚ) ^ e := by positivity
  have hq0 : q ≠ 0 := by
    intro h
    rw [h, abs_zero] at hlo
    have : 0 < (2 : ℚ) ^ (p - 1) * (2 : ℚ) ^ e := by positivity
    linarith
  have hlp := lastPlace_eq p emin q e he hlo hhi hp
  obtain ⟨hn1, hn2⟩ := abs_lt.mp hnear
  have hr : roundHalfEven (|q| / (2 : ℚ) ^ e) = m := by
    apply roundHalfEven_near
    · rw [lt_div_iff₀ hupos]; linarith
    · rw [div_lt_iff₀ hupos]; linarith
  simp only [roundBits, hq0, if_false, hlp, hr]

/-- The rounding of a number of the normal range that lies halfway between `f u` and
`(f + 1) u`: the tie goes to the even one of `f` and `f + 1`. -/
theorem roundBits_tie (p : Nat) (emin : Int) (q : ℚ) (f e : Int) (u : ℚ)
    (hu : u = (2 : ℚ) ^ e) (he : emin ≤ e)
    (hlo : (2 : ℚ) ^ (p - 1) * u ≤ |q|) (hhi : |q| < (2 : ℚ) ^ p * u) (hp : 1 ≤ p)
    (hq : |q| = ((f : ℚ) + 1 / 2) * u) :
    roundBits p emin q =
      (if q < 0 then -1 else 1) * (((if f % 2 = 0 then f else f + 1 : Int) : ℚ) * u) := by
  subst hu
  have hupos : (0 : ℚ) < (2 : ℚ) ^ e := by positivity
  have hq0 : q ≠ 0 := by
    intro h
    rw [h, abs_zero] at hlo
    have : 0 < (2 : ℚ) ^ (p - 1) * (2 : ℚ) ^ e := by positivity
    linarith
  have hlp := lastPlace_eq p emin q e he hlo hhi hp
  have hn : |q| / (2 : ℚ) ^ e = (f : ℚ) + 1 / 2 := by
    rw [hq]; field_simp
    ring
  simp only [roundBits, hq0, if_false, hlp, hn, roundHalfEven_tie]

theorem roundBits_neg (p : Nat) (emin : Int) (q : ℚ) :
    roundBits p emin (-q) = -roundBits p emin q := by
  by_cases hq : q = 0
  · simp [roundBits, hq]
  · have hq' : -q ≠ 0 := neg_ne_zero.mpr hq
    simp only [roundBits, lastPlace, hq, hq', if_false, abs_neg]
    rcases lt_or_gt_of_ne hq with h | h
    · have h1 : ¬ (-q < 0) := by linarith
      simp only [h, h1, if_true, if_false]
      ring
    · have h1 : -q < 0 := by linarith
      have h2 : ¬ (q < 0) := by linarith
      simp only [h1, h2, if_true, if_false]
      ring

theorem roundBits_nonneg (p : Nat) (emin : Int) (q : ℚ) (h : 0 ≤ q) : 0 ≤ roundBits p emin q := by
  unfold roundBits
  split_ifs with h0 h1
  · exact le_refl _
  · linarith
  · have hn : 0 ≤ |q| / (2 : ℚ) ^ lastPlace p emin q := by positivity
    have : (0 : Int) ≤ roundHalfEven (|q| / (2 : ℚ) ^ lastPlace p emin q) := by
      have := roundHalfEven_mono 0 _ hn
      rwa [show roundHalfEven 0 = 0 from roundHalfEven_intCast 0] at this
    have h2 : (0 : ℚ) ≤ (roundHalfEven (|q| / (2 : ℚ) ^ lastPlace p emin q) : ℚ) := by
      exact_mod_cast this
    positivity

theorem roundBits_of_pos (p : Nat) (emin : Int) (q : ℚ) (h : 0 < q) :
    roundBits p emin q =
      (roundHalfEven (q / (2 : ℚ) ^ lastPlace p emin q) : ℚ) * (2 : ℚ) ^ lastPlace p emin q := by
  simp only [roundBits, ne_of_gt h, if_false, not_lt.mpr (le_of_lt h), abs_of_pos h, one_mul]

/-- The last place of a positive number: the number is below `2^p` units, and is at least
`2^(p-1)` units unless the last place is the least one. -/
theorem lastPlace_spec (p : Nat) (emin : Int) (q : ℚ) (h : 0 < q) :
    emin ≤ lastPlace p emin q ∧
    q < (2 : ℚ) ^ p * (2 : ℚ) ^ lastPlace p emin q ∧
    (lastPlace p emin q = emin ∨ (2 : ℚ) ^ (p - 1 : Int) * (2 : ℚ) ^ lastPlace p emin q ≤ q) := by
  have habs : |q| = q := abs_of_pos h
  have h1 : q < (2 : ℚ) ^ (Int.log 2 q + 1) := by
    have := Int.lt_zpow_succ_log_self (by norm_num : 1 < 2) q
    simpa using this
  have h2 : (2 : ℚ) ^ (Int.log 2 q) ≤ q := by
    have := Int.zpow_log_le_self (by norm_num : 1 < 2) h
    simpa using this
  unfold lastPlace
  rw [habs]
  refine ⟨le_max_right _ _, ?_, ?_⟩
  · have hle : Int.log 2 q + 1 ≤ (p : Int) + max (Int.log 2 q - ((p : Int) - 1)) emin := by
      have := le_max_left (Int.log 2 q - ((p : Int) - 1)) emin
      omega
    calc q < (2 : ℚ) ^ (Int.log 2 q + 1) := h1
      _ ≤ (2 : ℚ) ^ ((p : Int) + max (Int.log 2 q - ((p : Int) - 1)) emin) :=
        zpow_le_zpow_right₀ (by norm_num) hle
      _ = (2 : ℚ) ^ p * (2 : ℚ) ^ max (Int.log 2 q - ((p : Int) - 1)) emin := by
        rw [zpow_add₀ (by norm_num), zpow_natCast]
  · rcases le_total (Int.log 2 q - ((p : Int) - 1)) emin with hc | hc
    · left; exact max_eq_right hc
    · right
      rw [max_eq_left hc, ← zpow_add₀ (by norm_num)]
      have : ((p : Int) - 1) + (Int.log 2 q - ((p : Int) - 1)) = Int.log 2 q := by ring
      rw [this]; exact h2

theorem lastPlace_mono (p : Nat) (emin : Int) (x y : ℚ) (hx : 0 < x) (hxy : x ≤ y) :
    lastPlace p emin x ≤ lastPlace p emin y := by
  unfold lastPlace
  rw [abs_of_pos hx, abs_of_pos (lt_of_lt_of_le hx hxy)]
  have := Int.log_mono_right (b := 2) hx hxy
  exact max_le_max (by omega) (le_refl _)

/-- Rounding is monotone on the non-negative numbers. -/
theorem roundBits_mono (p : Nat) (emin : Int) (x y : ℚ) (hp : 1 ≤ p) (hx : 0 ≤ x) (hxy : x ≤ y) :
    roundBits p emin x ≤ roundBits p emin y := by
  rcases eq_or_lt_of_le hx with h0 | hpos
  · rw [← h0]
    have : roundBits p emin 0 = 0 := by simp [roundBits]
    rw [this]
    exact roundBits_nonneg p emin y (le_trans hx hxy)
  · have hy : 0 < y := lt_of_lt_of_le hpos hxy
    rw [roundBits_of_pos p emin x hpos, roundBits_of_pos p emin y hy]
    obtain ⟨_, hxu, _⟩ := lastPlace_spec p emin x hpos
    obtain ⟨_, _, hyl⟩ := lastPlace_spec p emin y hy
    have hle := lastPlace_mono p emin x y hpos hxy
    have hux : (0 : ℚ) < (2 : ℚ) ^ lastPlace p emin x := by positivity
    have huy : (0 : ℚ) < (2 : ℚ) ^ lastPlace p emin y := by positivity
    rcases eq_or_lt_of_le hle with heq | hlt
    · rw [← heq]
      have hn : x / (2 : ℚ) ^ lastPlace p emin x ≤ y / (2 : ℚ) ^ lastPlace p emin x :=
        div_le_div_of_nonneg_right hxy (le_of_lt hux)
      have := roundHalfEven_mono _ _ hn
      have hc : (roundHalfEven (x / (2 : ℚ) ^ lastPlace p emin x) : ℚ) ≤
          (roundHalfEven (y / (2 : ℚ) ^ lastPlace p emin x) : ℚ) := by exact_mod_cast this
      exact mul_le_mul_of_nonneg_right hc (le_of_lt hux)
    · have hyl' : (2 : ℚ) ^ (p - 1 : Int) * (2 : ℚ) ^ lastPlace p emin y ≤ y := by
        rcases hyl with h | h
        · have := lastPlace_spec p emin x hpos
          omega
        · exact h
      -- the rounded `x` is at most `2^p` units of `x`
      have hrx : (roundHalfEven (x / (2 : ℚ) ^ lastPlace p emin x) : ℚ) ≤ (2 : ℚ) ^ p := by
        have hn : x / (2 : ℚ) ^ lastPlace p emin x ≤ (((2 : Int) ^ p : Int) : ℚ) := by
          rw [div_le_iff₀ hux]; push_cast; exact le_of_lt hxu
        have := roundHalfEven_mono _ _ hn
        rw [roundHalfEven_intCast] at this
        have hc : (roundHalfEven (x / (2 : ℚ) ^ lastPlace p emin x) : ℚ) ≤
            (((2 : Int) ^ p : Int) : ℚ) := by exact_mod_cast this
        simpa using hc
      -- the rounded `y` is at least `2^(p-1)` units of `y`
      have hry : (2 : ℚ) ^ (p - 1) ≤ (roundHalfEven (y / (2 : ℚ) ^ lastPlace p emin y) : ℚ) := by
        have hpz : (2 : ℚ) ^ (p - 1 : Int) = (2 : ℚ) ^ (p - 1) := by
          have : ((p : Int) - 1) = ((p - 1 : Nat) : Int) := by omega
          rw [this, zpow_natCast]
        have hn : (((2 : Int) ^ (p - 1) : Int) : ℚ) ≤ y / (2 : ℚ) ^ lastPlace p emin y := by
          rw [le_div_iff₀ huy]; push_cast; rw [← hpz]; exact hyl'
        have := roundHalfEven_mono _ _ hn
        rw [roundHalfEven_intCast] at this
        have hc : (((2 : Int) ^ (p - 1) : Int) : ℚ) ≤
            (roundHalfEven (y / (2 : ℚ) ^ lastPlace p emin y) : ℚ) := by exact_mod_cast this
        simpa using hc
      have hstep : (2 : ℚ) ^ p * (2 : ℚ) ^ lastPlace p emin x ≤
          (2 : ℚ) ^ (p - 1) * (2 : ℚ) ^ lastPlace p emin y := by
        have h1 : lastPlace p emin x + 1 ≤ lastPlace p emin y := by omega
        have h2 : (2 : ℚ) ^ (lastPlace p emin x + 1) ≤ (2 : ℚ) ^ lastPlace p emin y :=
          zpow_le_zpow_right₀ (by norm_num) h1
        rw [zpow_add₀ (by norm_num), zpow_one] at h2
        have h3 : (2 : ℚ) ^ p = (2 : ℚ) ^ (p - 1) * 2 := by
          have : p = (p - 1) + 1 := by omega
          nth_rewrite 1 [this]
          rw [pow_succ]
        rw [h3, mul_assoc]
        apply mul_le_mul_of_nonneg_left _ (by positivity)
        linarith
      calc (roundHalfEven (x / (2 : ℚ) ^ lastPlace p emin x) : ℚ) * (2 : ℚ) ^ lastPlace p emin x
          ≤ (2 : ℚ) ^ p * (2 : ℚ) ^ lastPlace p emin x :=
            mul_le_mul_of_nonneg_right hrx (le_of_lt hux)
        _ ≤ (2 : ℚ) ^ (p - 1) * (2 : ℚ) ^ lastPlace p emin y := hstep
        _ ≤ (roundHalfEven (y / (2 : ℚ) ^ lastPlace p emin y) : ℚ) *
            (2 : ℚ) ^ lastPlace p emin y := mul_le_mul_of_nonneg_right hry (le_of_lt huy)

/-- The rounding error of a positive number: at most half a unit of its last place. -/
theorem roundBits_error (p : Nat) (emin : Int) (q : ℚ) (h : 0 < q) :
    q - (2 : ℚ) ^ lastPlace p emin q / 2 ≤ roundBits p emin q ∧
    roundBits p emin q ≤ q + (2 : ℚ) ^ lastPlace p emin q / 2 := by
  have hu : (0 : ℚ) < (2 : ℚ) ^ lastPlace p emin q := by positivity
  rw [roundBits_of_pos p emin q h]
  have h1 := roundHalfEven_ge (q / (2 : ℚ) ^ lastPlace p emin q)
  have h2 := roundHalfEven_le (q / (2 : ℚ) ^ lastPlace p emin q)
  have hq : q / (2 : ℚ) ^ lastPlace p emin q * (2 : ℚ) ^ lastPlace p emin q = q := by
    field_simp
  constructor
  · have := mul_le_mul_of_nonneg_right h1 (le_of_lt hu)
    rw [sub_mul, hq] at this
    linarith
  · have := mul_le_mul_of_nonneg_right h2 (le_of_lt hu)
    rw [add_mul, hq] at this
    linarith

/-- The relative rounding error of a number of the normal range is at most `2^-p`. -/
theorem roundBits_normal (p : Nat) (emin : Int) (q : ℚ) (hp : 1 ≤ p)
    (h : (2 : ℚ) ^ (p - 1) * (2 : ℚ) ^ emin ≤ q) :
    q - q / (2 : ℚ) ^ p ≤ roundBits p emin q ∧ roundBits p emin q ≤ q + q / (2 : ℚ) ^ p := by
  have hpos : 0 < q := lt_of_lt_of_le (by positivity) h
  obtain ⟨hmin, _, hl⟩ := lastPlace_spec p emin q hpos
  obtain ⟨e1, e2⟩ := roundBits_error p emin q hpos
  have hpz : (2 : ℚ) ^ (p - 1 : Int) = (2 : ℚ) ^ (p - 1) := by
    have : ((p : Int) - 1) = ((p - 1 : Nat) : Int) := by omega
    rw [this, zpow_natCast]
  have hl' : (2 : ℚ) ^ (p - 1) * (2 : ℚ) ^ lastPlace p emin q ≤ q := by
    rcases hl with h1 | h1
    · rw [h1]; exact h
    · rw [← hpz]; exact h1
  have h3 : (2 : ℚ) ^ p = (2 : ℚ) ^ (p - 1) * 2 := by
    have : p = (p - 1) + 1 := by omega
    nth_rewrite 1 [this]
    rw [pow_succ]
  have hbound : (2 : ℚ) ^ lastPlace p emin q / 2 ≤ q / (2 : ℚ) ^ p := by
    rw [div_le_div_iff₀ (by norm_num) (by positivity), h3]
    nlinarith [hl']
  constructor <;> linarith

/-- The rounding to 24 bits of a positive number of the normal range: `q` lies in the binade
`[2^23 u, 2^24 u)` whose unit in the last place is `u = 2^e`, within half a unit of
`r = m u`. -/
theorem roundBits_eval32 (q r u : ℚ) (m e : Int) (hu : u = (2 : ℚ) ^ e) (hr : r = (m : ℚ) * u)
    (he : -149 ≤ e) (hlo : 8388608 * u ≤ q) (hhi : q < 16777216 * u)
    (h1 : r - u / 2 < q) (h2 : q < r + u / 2) :
    roundBits 24 (-149) q = r ∧ 0 ≤ r := by
  have hupos : 0 < u := by rw [hu]; positivity
  have hq : 0 < q := lt_of_lt_of_le (by positivity) hlo
  have habs : |q| = q := abs_of_pos hq
  have hr0 : 0 ≤ r := by
    by_contra hneg
    push_neg at hneg
    have hm : (m : ℚ) < 0 := by
      by_contra hm
      push_neg at hm
      have : 0 ≤ (m : ℚ) * u := mul_nonneg hm (le_of_lt hupos)
      linarith
    have hm1 : (m : ℚ) ≤ -1 := by
      have : m ≤ -1 := by
        have : m < 0 := by exact_mod_cast hm
        omega
      exact_mod_cast this
    have : (m : ℚ) * u ≤ -1 * u := mul_le_mul_of_nonneg_right hm1 (le_of_lt hupos)
    linarith
  refine ⟨?_, hr0⟩
  rw [roundBits_eval 24 (-149) q m e u hu he (by rw [habs]; norm_num; linarith)
    (by rw [habs]; norm_num; linarith) (by norm_num)
    (by rw [habs, ← hr, abs_lt]; constructor <;> linarith)]
  rw [if_neg (by linarith), ← hr]; ring

/-- The value of type `float` of a positive exact result of the normal range. -/
theorem fl32_eval (q r u : ℚ) (m e : Int) (hu : u = (2 : ℚ) ^ e) (hr : r = (m : ℚ) * u)
    (he : -149 ≤ e) (hlo : 8388608 * u ≤ q) (hhi : q < 16777216 * u)
    (h1 : r - u / 2 < q) (h2 : q < r + u / 2)
    (hfin : r < 340282366920938463463374607431768211456) :
    fl32 (some q) = some r := by
  obtain ⟨hrb, hr0⟩ := roundBits_eval32 q r u m e hu hr he hlo hhi h1 h2
  simp only [fl32, hrb, abs_of_nonneg hr0]
  rw [if_neg (by norm_num; linarith)]

/-- An exact result that rounds to `2^128` or more overflows. -/
theorem fl32_overflow (q r u : ℚ) (m e : Int) (hu : u = (2 : ℚ) ^ e) (hr : r = (m : ℚ) * u)
    (he : -149 ≤ e) (hlo : 8388608 * u ≤ q) (hhi : q < 16777216 * u)
    (h1 : r - u / 2 < q) (h2 : q < r + u / 2)
    (hbig : 340282366920938463463374607431768211456 ≤ r) :
    fl32 (some q) = none := by
  obtain ⟨hrb, hr0⟩ := roundBits_eval32 q r u m e hu hr he hlo hhi h1 h2
  simp only [fl32, hrb, abs_of_nonneg hr0]
  rw [if_pos (by norm_num; linarith)]

/-- The binary64 rounding of a positive number of the normal range. -/
theorem fl64_eval (q r u : ℚ) (m e : Int) (hu : u = (2 : ℚ) ^ e) (hr : r = (m : ℚ) * u)
    (he : -1074 ≤ e) (hlo : 4503599627370496 * u ≤ q) (hhi : q < 9007199254740992 * u)
    (h1 : r - u / 2 < q) (h2 : q < r + u / 2)
    (hfin : r < 340282366920938463463374607431768211456) :
    fl64 (some q) = some r := by
  have hupos : 0 < u := by rw [hu]; positivity
  have hq : 0 < q := lt_of_lt_of_le (by positivity) hlo
  have habs : |q| = q := abs_of_pos hq
  have hr0 : 0 ≤ r := by
    by_contra hneg
    push_neg at hneg
    have hm : (m : ℚ) < 0 := by
      by_contra hm
      push_neg at hm
      have : 0 ≤ (m : ℚ) * u := mul_nonneg hm (le_of_lt hupos)
      linarith
    have hm1 : (m : ℚ) ≤ -1 := by
      have : m ≤ -1 := by
        have : m < 0 := by exact_mod_cast hm
        omega
      exact_mod_cast this
    have : (m : ℚ) * u ≤ -1 * u := mul_le_mul_of_nonneg_right hm1 (le_of_lt hupos)
    linarith
  have hrb : roundBits 53 (-1074) q = r := by
    rw [roundBits_eval 53 (-1074) q m e u hu he (by rw [habs]; norm_num; linarith)
      (by rw [habs]; norm_num; linarith) (by norm_num)
      (by rw [habs, ← hr, abs_lt]; constructor <;> linarith)]
    rw [if_neg (by linarith), ← hr]; ring
  simp only [fl64, hrb, abs_of_nonneg hr0]
  have hbig : (340282366920938463463374607431768211456 : ℚ) ≤ (2 : ℚ) ^ (1024 : Nat) := by
    norm_num
  rw [if_neg (by linarith)]

theorem fl32_zero : fl32 (some 0) = some 0 := by
  simp [fl32, roundBits]

theorem fl32_neg (q r : ℚ) (h : fl32 (some q) = some r) : fl32 (some (-q)) = some (-r) := by
  simp only [fl32, roundBits_neg, abs_neg] at h ⊢
  split_ifs at h ⊢ with h1
  simp only [Option.some.injEq] at h ⊢
  rw [h]


/-- The value of type `float` of a positive exact result of the normal range that lies
halfway between two neighbouring values. -/
theorem fl32_tie (q r u : ℚ) (f m e : Int) (hu : u = (2 : ℚ) ^ e) (hr : r = (m : ℚ) * u)
    (hm : m = if f % 2 = 0 then f else f + 1)
    (he : -149 ≤ e) (hlo : 8388608 * u ≤ q) (hhi : q < 16777216 * u)
    (hq : q = ((f : ℚ) + 1 / 2) * u) (hr0 : 0 ≤ r)
    (hfin : r < 340282366920938463463374607431768211456) :
    fl32 (some q) = some r := by
  have hupos : 0 < u := by rw [hu]; positivity
  have hqpos : 0 < q := lt_of_lt_of_le (by positivity) hlo
  have habs : |q| = q := abs_of_pos hqpos
  have hrb : roundBits 24 (-149) q = r := by
    rw [roundBits_tie 24 (-149) q f e u hu he (by rw [habs]; norm_num; linarith)
      (by rw [habs]; norm_num; linarith) (by norm_num) (by rw [habs]; exact hq)]
    rw [if_neg (by linarith), ← hm, ← hr]; ring
  simp only [fl32, hrb, abs_of_nonneg hr0]
  rw [if_neg (by norm_num; linarith)]

/-! ## Lemmas on `choose_xi` and the statistics in rounded arithmetic -/

theorem binOf32_overflow (max q : ℚ) (h : max < q) :
    binOf32 (some max) (some q) = some num_bins := by
  simp [binOf32, flt, h]

/-- The computed bin of a distance `d ≤ max` from the rounded product `p` and the rounded
quotient `q`. -/
theorem binOf32_eq (max d p q : ℚ) (k : Nat) (hle : d ≤ max)
    (hp : fmul32 (some 25) (some d) = some p) (hq : fdiv32 (some p) (some max) = some q)
    (hk : k ≤ num_bins) (h1 : (k : ℚ) ≤ q) (h2 : q < (k : ℚ) + 1) :
    binOf32 (some max) (some d) = some k := by
  have h25 : ((num_bins : Nat) : ℚ) = 25 := by norm_num [num_bins]
  have h0 : 0 ≤ q := le_trans (by positivity) h1
  have hfl : ⌊q⌋ = (k : Int) := by
    rw [Int.floor_eq_iff]
    exact ⟨h1, h2⟩
  have hk' : (k : Int) ≤ (num_bins : Int) := by exact_mod_cast hk
  simp [binOf32, flt, not_lt.mpr hle, h25, hp, hq, f2i, truncate, h0, hfl, hk']

/-- The computed bin of a distance `d ≤ max` whose product with 25 overflows: the cast to
`int` is undefined. -/
theorem binOf32_undefined (max d : ℚ) (hle : d ≤ max)
    (hp : fmul32 (some 25) (some d) = none) :
    binOf32 (some max) (some d) = none := by
  have h25 : ((num_bins : Nat) : ℚ) = 25 := by norm_num [num_bins]
  simp [binOf32, flt, not_lt.mpr hle, h25, hp, fdiv32, fdiv, fl32, f2i]

theorem binOf32_le (max d : F) (k : Nat) (h : binOf32 max d = some k) : k ≤ num_bins := by
  unfold binOf32 at h
  split_ifs at h with h1
  · simp only [Option.some.injEq] at h; omega
  · cases hf : f2i (fdiv32 (fmul32 (some (num_bins : ℚ)) d) max) with
    | none => rw [hf] at h; simp at h
    | some z =>
      rw [hf] at h
      simp only at h
      split_ifs at h with h2
      simp only [Option.some.injEq] at h
      omega

theorem histogram32_eq_histLoop32 (nearest_d : List F) (size : Nat) (max : F)
    (h : nearest_d.length = size) :
    histogram32 nearest_d size max =
      histLoop32 max nearest_d (List.replicate (num_bins + 1) 0) := by
  subst h
  simp [histogram32]

/-- The histogram loop as computed is defined exactly when every distance has a computed bin,
and then counter `k` has grown by the number of distances whose computed bin is `k`. -/
theorem histLoop32_count (max : F) (ds : List F) :
    ∀ counts0 counts : List Nat, histLoop32 max ds counts0 = some counts →
      counts.length = counts0.length ∧
      (num_bins < counts0.length → counts.sum = counts0.sum + ds.length) ∧
      ∀ k, k < counts0.length →
        counts.getD k 0 =
          counts0.getD k 0 + ds.countP (fun d => decide (binOf32 max d = some k)) := by
  induction ds with
  | nil =>
    intro counts0 counts h
    simp only [histLoop32, Option.some.injEq] at h
    subst h
    simp
  | cons d ds ih =>
    intro counts0 counts h
    simp only [histLoop32] at h
    cases hb : binOf32 max d with
    | none => rw [hb] at h; simp at h
    | some j =>
      rw [hb] at h
      simp only at h
      obtain ⟨h1, h2, h3⟩ := ih (incr counts0 j) counts h
      rw [incr_length] at h1 h2 h3
      have hj : j ≤ num_bins := binOf32_le max d j hb
      refine ⟨h1, fun hlen => ?_, fun k hk => ?_⟩
      · rw [h2 hlen, incr_sum counts0 j (by omega), List.length_cons]; omega
      · rw [h3 k hk, incr_getD, List.countP_cons]
        by_cases hjk : j = k
        · subst hjk
          simp [hk, hb]; omega
        · have hne : ¬ (some j = some k) := by simpa using hjk
          simp [hjk, hb]

theorem histLoop32_defined (max : F) (ds : List F) :
    ∀ counts0 : List Nat, (∀ d ∈ ds, ∃ k, binOf32 max d = some k) →
      ∃ counts, histLoop32 max ds counts0 = some counts := by
  induction ds with
  | nil => intro counts0 _; exact ⟨counts0, rfl⟩
  | cons d ds ih =>
    intro counts0 h
    obtain ⟨k, hk⟩ := h d (List.mem_cons_self _ _)
    obtain ⟨counts, hc⟩ := ih (incr counts0 k) (fun d' hd' => h d' (List.mem_cons_of_mem _ hd'))
    exact ⟨counts, by simp only [histLoop32, hk, hc]⟩

theorem histLoop32_undefined (max : F) (ds : List F) :
    ∀ counts0 : List Nat, (∃ d ∈ ds, binOf32 max d = none) →
      histLoop32 max ds counts0 = none := by
  induction ds with
  | nil => intro counts0 h; obtain ⟨d, hd, _⟩ := h; simp at hd
  | cons d ds ih =>
    intro counts0 h
    obtain ⟨d', hd', hn⟩ := h
    cases hb : binOf32 max d with
    | none => simp only [histLoop32, hb]
    | some k =>
      simp only [histLoop32, hb]
      rcases List.mem_cons.mp hd' with rfl | hmem
      · rw [hn] at hb; simp at hb
      · exact ih _ ⟨d', hmem, hn⟩

theorem valleyLoop32_bounds (counts : List Nat) (elevation : Nat) :
    ∀ fuel valley, valley ≤ valleyLoop32 counts elevation fuel valley ∧
      valleyLoop32 counts elevation fuel valley ≤ valley + fuel := by
  intro fuel
  induction fuel with
  | zero => intro valley; exact ⟨le_refl _, le_refl _⟩
  | succ fuel ih =>
    intro valley
    obtain ⟨h1, h2⟩ := ih (valley + 1)
    simp only [valleyLoop32]
    split_ifs
    · exact ⟨by omega, by omega⟩
    · exact ⟨le_refl _, by omega⟩
    · exact ⟨by omega, by omega⟩

theorem findValley32_bounds (counts : List Nat) (peak elevation : Nat) (hp : peak ≤ num_bins) :
    peak + 1 ≤ findValley32 counts peak elevation ∧
      findValley32 counts peak elevation ≤ num_bins + 1 := by
  obtain ⟨h1, h2⟩ := valleyLoop32_bounds counts elevation (num_bins - (peak + 1)) (peak + 1)
  unfold findValley32
  exact ⟨h1, by omega⟩

theorem estimateMax32_const (rand : Nat → Nat) (nearest_d : List F) (size r : Nat) (q : ℚ)
    (hs : size ≠ 0) (hr : ∀ n, rand n % size = r) (hd : nearest_d[r]? = some (some q))
    (hq : 0 ≤ q) :
    estimateMax32 rand nearest_d size =
      some (fl32 (fmul64 (some q) (fl64 (some (21 / 20))))) := by
  have hne : List.range 100 ≠ [] := by decide
  simp [estimateMax32, sample_foldlM_const rand nearest_d size r q hs hr hd, hne,
    max_eq_right hq]

/-- Pass 1 as computed adds up, in index order, the distances of the accepted indices only. -/
theorem sumMu32_eq (Dmax : F) (nearest : List (Int × F)) :
    sumMu32 Dmax nearest =
      ((nearest.filter (fun r => flt r.2 Dmax)).map Prod.snd).foldl fadd32 (some 0) := by
  have h : ∀ acc : F,
      nearest.foldl (fun mu r => if flt r.2 Dmax then fadd32 mu r.2 else mu) acc =
        ((nearest.filter (fun r => flt r.2 Dmax)).map Prod.snd).foldl fadd32 acc := by
    induction nearest with
    | nil => intro acc; rfl
    | cons r rs ih =>
      intro acc
      by_cases hr : flt r.2 Dmax = true
      · simp only [List.foldl_cons, hr, if_true, List.filter_cons_of_pos, List.map_cons, ih]
      · simp only [List.foldl_cons, hr, if_false, List.filter_cons_of_neg, ih,
          Bool.false_eq_true, not_false_eq_true]
  exact h (some 0)

/-- Pass 1 as computed adds up, in index order, the rounded squares of the distances of the
accepted indices only. -/
theorem sumSigma32_eq (Dmax : F) (nearest : List (Int × F)) :
    sumSigma32 Dmax nearest =
      ((nearest.filter (fun r => flt r.2 Dmax)).map Prod.snd).foldl
        (fun sigma d => fadd32 sigma (fmul32 d d)) (some 0) := by
  have h : ∀ acc : F,
      nearest.foldl
          (fun sigma r => if flt r.2 Dmax then fadd32 sigma (fmul32 r.2 r.2) else sigma) acc =
        ((nearest.filter (fun r => flt r.2 Dmax)).map Prod.snd).foldl
          (fun sigma d => fadd32 sigma (fmul32 d d)) acc := by
    induction nearest with
    | nil => intro acc; rfl
    | cons r rs ih =>
      intro acc
      by_cases hr : flt r.2 Dmax = true
      · simp only [List.foldl_cons, hr, if_true, List.filter_cons_of_pos, List.map_cons, ih]
      · simp only [List.foldl_cons, hr, if_false, List.filter_cons_of_neg, ih,
          Bool.false_eq_true, not_false_eq_true]
  exact h (some 0)

/-! ## Runs in rounded arithmetic -/

theorem fdiv32_some (x y : ℚ) (hy : y ≠ 0) :
    fdiv32 (some x) (some y) = fl32 (some (x / y)) := by
  simp [fdiv32, fdiv, hy]

theorem histLoop32_cons (max d : F) (ds : List F) (counts : List Nat) (k : Nat)
    (h : binOf32 max d = some k) :
    histLoop32 max (d :: ds) counts = histLoop32 max ds (incr counts k) := by
  simp only [histLoop32, h]

/-- A distance one unit in the last place below `max` whose computed bin is the overflow bin:
the product `25 * d` and its quotient by `max` both round up, to 25. -/
theorem binOf32_edge :
    binOf32 (some (16516999 / 262144)) (some (8258499 / 131072)) = some 25 := by
  have hp : fmul32 (some 25) (some (8258499 / 131072)) = (some (12903905 / 8192)) :=
    fl32_eval _ _ (1 / 8192) 12903905 (-13) (by norm_num) (by norm_num) (by norm_num)
      (by norm_num) (by norm_num) (by norm_num) (by norm_num) (by norm_num)
  have hq : fdiv32 (some (12903905 / 8192)) (some (16516999 / 262144)) = (some 25) :=
    (fdiv32_some _ _ (by norm_num)).trans (fl32_eval _ _ (1 / 524288) 13107200 (-19) (by norm_num)
      (by norm_num) (by norm_num) (by norm_num) (by norm_num) (by norm_num) (by norm_num)
      (by norm_num))
  exact binOf32_eq _ _ _ _ 25 (by norm_num) hp hq (by decide) (by norm_num) (by norm_num)

/-- A distance below `max` whose product with 25 overflows: no bin index is computed. -/
theorem binOf32_large :
    binOf32 (some 85070591730234615865843651857942052864)
      (some 42535295865117307932921825928971026432) = none := by
  have hp : fmul32 (some 25) (some 42535295865117307932921825928971026432) = none :=
    fl32_overflow _ 1063382396627932698323045648224275660800 81129638414606681695789005144064
      13107200 (106) (by norm_num) (by norm_num) (by norm_num) (by norm_num) (by norm_num)
      (by norm_num) (by norm_num) (by norm_num)
  exact binOf32_undefined _ _ (by norm_num) hp

/-- Pass 1 on three equal distances `0x1.df3b64p-4` (about 0.117) and `Dmax = 200`: the sum
of the three rounds up and `mu` is one unit in the last place above the distance. -/
theorem equalRun_mu :
    pass1Mu32 (some 200)
      [(0, some (7851737 / 67108864)), (1, some (7851737 / 67108864)), (2, some (7851737 /
          67108864))] =
      (some (15703475 / 134217728)) := by
  have c0 : flt (some (7851737 / 67108864)) (some 200) = true :=
    by simp only [flt, decide_eq_true_eq]; norm_num
  have a0 : fadd32 (some 0) (some (7851737 / 67108864)) = (some (7851737 / 67108864)) :=
    fl32_eval _ _ (1 / 134217728) 15703474 (-27) (by norm_num) (by norm_num) (by norm_num)
      (by norm_num) (by norm_num) (by norm_num) (by norm_num) (by norm_num)
  have a1 : fadd32 (some (7851737 / 67108864)) (some (7851737 / 67108864)) = (some (7851737 /
      33554432)) :=
    fl32_eval _ _ (1 / 67108864) 15703474 (-26) (by norm_num) (by norm_num) (by norm_num)
      (by norm_num) (by norm_num) (by norm_num) (by norm_num) (by norm_num)
  have a2 : fadd32 (some (7851737 / 33554432)) (some (7851737 / 67108864)) = (some (5888803 /
      16777216)) :=
    fl32_tie _ _ (1 / 33554432) 11777605 11777606 (-25) (by norm_num) (by norm_num) (by norm_num)
      (by norm_num) (by norm_num) (by norm_num) (by norm_num) (by norm_num) (by norm_num)
  have hn : fl32 (some 3) = some 3 :=
    fl32_eval _ _ (1 / 4194304) 12582912 (-22) (by norm_num) (by norm_num) (by norm_num)
      (by norm_num) (by norm_num) (by norm_num) (by norm_num) (by norm_num)
  have hlen : (([(0, some (7851737 / 67108864)), (1, some (7851737 / 67108864)), (2, some (7851737 /
      67108864))] : List (Int × F)).length : ℚ) = 3 :=
    by norm_num
  have hs : sumMu32 (some 200) [(0, some (7851737 / 67108864)), (1, some (7851737 / 67108864)), (2,
      some (7851737 / 67108864))] = (some (5888803 / 16777216)) :=
    by simp only [sumMu32, List.foldl_cons, List.foldl_nil, c0, if_true, a0, a1, a2]
  have hq : fdiv32 (some (5888803 / 16777216)) (some 3) = (some (15703475 / 134217728)) :=
    (fdiv32_some _ _ (by norm_num)).trans (fl32_eval _ _ (1 / 134217728) 15703475 (-27)
      (by norm_num) (by norm_num) (by norm_num) (by norm_num) (by norm_num) (by norm_num)
      (by norm_num) (by norm_num))
  simp only [pass1Mu32, hs, hlen, hn, hq]

/-- Pass 1 on three equal distances `0x1.df3b64p-4` and `Dmax = 200`: the computed
`sigma/n` is two units in the last place below the computed `mu*mu`, so the argument of the
square root is the negative number `-2^-29`. -/
theorem equalRun_arg :
    pass1Arg32 (some 200)
      [(0, some (7851737 / 67108864)), (1, some (7851737 / 67108864)), (2, some (7851737 /
          67108864))] =
      some (-(1 / 536870912)) := by
  have c0 : flt (some (7851737 / 67108864)) (some 200) = true :=
    by simp only [flt, decide_eq_true_eq]; norm_num
  have hp : fmul32 (some (7851737 / 67108864)) (some (7851737 / 67108864)) = (some (14698451 /
      1073741824)) :=
    fl32_eval _ _ (1 / 1073741824) 14698451 (-30) (by norm_num) (by norm_num) (by norm_num)
      (by norm_num) (by norm_num) (by norm_num) (by norm_num) (by norm_num)
  have g0 : fadd32 (some 0) (some (14698451 / 1073741824)) = (some (14698451 / 1073741824)) :=
    fl32_eval _ _ (1 / 1073741824) 14698451 (-30) (by norm_num) (by norm_num) (by norm_num)
      (by norm_num) (by norm_num) (by norm_num) (by norm_num) (by norm_num)
  have g1 : fadd32 (some (14698451 / 1073741824)) (some (14698451 / 1073741824)) = (some (14698451
      / 536870912)) :=
    fl32_eval _ _ (1 / 536870912) 14698451 (-29) (by norm_num) (by norm_num) (by norm_num)
      (by norm_num) (by norm_num) (by norm_num) (by norm_num) (by norm_num)
  have g2 : fadd32 (some (14698451 / 536870912)) (some (14698451 / 1073741824)) = (some (5511919 /
      134217728)) :=
    fl32_eval _ _ (1 / 268435456) 11023838 (-28) (by norm_num) (by norm_num) (by norm_num)
      (by norm_num) (by norm_num) (by norm_num) (by norm_num) (by norm_num)
  have hn : fl32 (some 3) = some 3 :=
    fl32_eval _ _ (1 / 4194304) 12582912 (-22) (by norm_num) (by norm_num) (by norm_num)
      (by norm_num) (by norm_num) (by norm_num) (by norm_num) (by norm_num)
  have hlen : (([(0, some (7851737 / 67108864)), (1, some (7851737 / 67108864)), (2, some (7851737
      / 67108864))] : List (Int × F)).length : ℚ) = 3 :=
    by norm_num
  have hs : sumSigma32 (some 200) [(0, some (7851737 / 67108864)), (1, some (7851737 / 67108864)),
      (2, some (7851737 / 67108864))] = (some (5511919 / 134217728)) :=
    by simp only [sumSigma32, List.foldl_cons, List.foldl_nil, c0, if_true, hp, g0, g1, g2]
  have ha : fdiv32 (some (5511919 / 134217728)) (some 3) = (some (14698451 / 1073741824)) :=
    (fdiv32_some _ _ (by norm_num)).trans (fl32_eval _ _ (1 / 1073741824) 14698451 (-30)
      (by norm_num) (by norm_num) (by norm_num) (by norm_num) (by norm_num) (by norm_num)
      (by norm_num) (by norm_num))
  have hb : fmul32 (some (15703475 / 134217728)) (some (15703475 / 134217728)) = (some (14698453 /
      1073741824)) :=
    fl32_eval _ _ (1 / 1073741824) 14698453 (-30) (by norm_num) (by norm_num) (by norm_num)
      (by norm_num) (by norm_num) (by norm_num) (by norm_num) (by norm_num)
  have hba : fl32 (some ((14698453 / 1073741824) - (14698451 / 1073741824))) = (some (1 /
      536870912)) :=
    fl32_eval _ _ (1 / 4503599627370496) 8388608 (-52) (by norm_num) (by norm_num) (by norm_num)
      (by norm_num) (by norm_num) (by norm_num) (by norm_num) (by norm_num)
  have hsub : fsub32 (some (14698451 / 1073741824)) (some (14698453 / 1073741824)) = some (-(1 /
      536870912)) := by
    have e : ((14698451 / 1073741824) - (14698453 / 1073741824) : ℚ) = -((14698453 / 1073741824) -
        (14698451 / 1073741824)) := by ring
    show fl32 (some ((14698451 / 1073741824) - (14698453 / 1073741824))) = _
    rw [e]
    exact fl32_neg _ _ hba
  simp only [pass1Arg32, equalRun_mu, hs, hlen, hn, ha, hb, hsub]

/-- The filter step on three equal distances `0x1.df3b64p-4` with `Dmax = 200`, for a square
root that is NaN on negative numbers: `sigma` and the new `Dmax` are NaN and pass 2 rejects
every index. -/
theorem equalRun_filter (env : Env) (hs : ∀ q : ℚ, q < 0 → env.sqrt q = none) (calls : Nat) :
    pass1Sigma32 env (some 200)
      [(0, some (7851737 / 67108864)), (1, some (7851737 / 67108864)), (2, some (7851737 /
          67108864))] = none ∧
    filterStep32 env calls
      [(0, some (7851737 / 67108864)), (1, some (7851737 / 67108864)), (2, some (7851737 /
          67108864))] (some 200) =
      some ([-1, -1, -1], none, calls) := by
  have hsig : pass1Sigma32 env (some 200)
      [(0, some (7851737 / 67108864)), (1, some (7851737 / 67108864)), (2, some (7851737 /
          67108864))] = none := by
    unfold pass1Sigma32
    rw [equalRun_arg]
    have h : env.sqrt (-(1 / 536870912)) = none := hs _ (by norm_num)
    simp only [fsqrt, h, fl32]
  have hlt : flt (some (15703475 / 134217728)) D = true := by
    simp only [flt, D, decide_eq_true_eq]; norm_num
  have hup : ∀ (nearest_d : List F) (matched : List Int),
      updateDmax32 env calls nearest_d matched (some (15703475 / 134217728)) none = some (none,
          calls) := by
    intro nearest_d matched
    unfold updateDmax32
    rw [if_pos hlt]
    simp only [fmul32, fmul_none_right, fl32, fadd32, fadd_none_right]
  refine ⟨hsig, ?_⟩
  simp only [filterStep32, equalRun_mu, hsig, hup, matchPass, List.map_cons, List.map_nil, flt,
    Bool.false_eq_true, if_false]

/-- The run of `choose_xi` on ten distances of which every sample hits index 6: `max` is
the `float` nearest to the `double` product of 152.825012 and 1.05, about 160.466263. -/
theorem peakRun_max (rand : Nat → Nat) (hr : ∀ n, rand n % 10 = 6) :
    estimateMax32 rand
      [some (13460885 / 2097152), some (13460885 / 4194304), some (8973923 / 4194304),
          some (13460885 / 8388608), some (2692177 / 2097152), some (4206527 / 262144),
          some (2503885 / 16384), some (2503885 / 16384), some (2503885 / 16384), some (2503885 /
          16384)] 10 =
      some (some (10516317 / 65536)) := by
  have h105 : fl64 (some (21 / 20)) = (some (4728779608739021 / 4503599627370496)) :=
    fl64_eval _ _ (1 / 4503599627370496) 4728779608739021 (-52) (by norm_num) (by norm_num)
      (by norm_num) (by norm_num) (by norm_num) (by norm_num) (by norm_num) (by norm_num)
  have h64 : fmul64 (some (2503885 / 16384)) (some (4728779608739021 / 4503599627370496)) = (some
      (10516317 / 65536)) :=
    fl64_eval _ _ (1 / 35184372088832) 5645904698671104 (-45) (by norm_num) (by norm_num)
      (by norm_num) (by norm_num) (by norm_num) (by norm_num) (by norm_num) (by norm_num)
  have h32 : fl32 (some (10516317 / 65536)) = (some (10516317 / 65536)) :=
    fl32_eval _ _ (1 / 65536) 10516317 (-16) (by norm_num) (by norm_num) (by norm_num)
      (by norm_num) (by norm_num) (by norm_num) (by norm_num) (by norm_num)
  rw [estimateMax32_const rand _ 10 6 (2503885 / 16384) (by decide) hr rfl (by norm_num), h105, h64,
      h32]

/-- The histogram of that run: the five smallest distances are counted in bin 0, the sixth
in bin 2 and the four largest in bin 23. -/
theorem peakRun_hist :
    histogram32
      [some (13460885 / 2097152), some (13460885 / 4194304), some (8973923 / 4194304),
          some (13460885 / 8388608), some (2692177 / 2097152), some (4206527 / 262144),
          some (2503885 / 16384), some (2503885 / 16384), some (2503885 / 16384), some (2503885 /
          16384)] 10
      (some (10516317 / 65536)) =
      some [5, 0, 1, 0, 0, 0, 0, 0, 0, 0, 0, 0, 0, 0, 0, 0, 0, 0, 0, 0, 0, 0, 0, 4, 0, 0] := by
  have p0 : fmul32 (some 25) (some (13460885 / 2097152)) = (some (2629079 / 16384)) :=
    fl32_eval _ _ (1 / 65536) 10516316 (-16) (by norm_num) (by norm_num) (by norm_num)
      (by norm_num) (by norm_num) (by norm_num) (by norm_num) (by norm_num)
  have q0 : fdiv32 (some (2629079 / 16384)) (some (10516317 / 65536)) = (some (8388607 / 8388608))
      :=
    (fdiv32_some _ _ (by norm_num)).trans (fl32_eval _ _ (1 / 16777216) 16777214 (-24)
      (by norm_num) (by norm_num) (by norm_num) (by norm_num) (by norm_num) (by norm_num)
      (by norm_num) (by norm_num))
  have b0 : binOf32 (some (10516317 / 65536)) (some (13460885 / 2097152)) = some 0 :=
    binOf32_eq _ _ _ _ 0 (by norm_num) p0 q0 (by decide) (by norm_num) (by norm_num)
  have p1 : fmul32 (some 25) (some (13460885 / 4194304)) = (some (2629079 / 32768)) :=
    fl32_eval _ _ (1 / 131072) 10516316 (-17) (by norm_num) (by norm_num) (by norm_num)
      (by norm_num) (by norm_num) (by norm_num) (by norm_num) (by norm_num)
  have q1 : fdiv32 (some (2629079 / 32768)) (some (10516317 / 65536)) = (some (8388607 /
      16777216)) :=
    (fdiv32_some _ _ (by norm_num)).trans (fl32_eval _ _ (1 / 33554432) 16777214 (-25)
      (by norm_num) (by norm_num) (by norm_num) (by norm_num) (by norm_num) (by norm_num)
      (by norm_num) (by norm_num))
  have b1 : binOf32 (some (10516317 / 65536)) (some (13460885 / 4194304)) = some 0 :=
    binOf32_eq _ _ _ _ 0 (by norm_num) p1 q1 (by decide) (by norm_num) (by norm_num)
  have p2 : fmul32 (some 25) (some (8973923 / 4194304)) = (some (14021755 / 262144)) :=
    fl32_eval _ _ (1 / 262144) 14021755 (-18) (by norm_num) (by norm_num) (by norm_num)
      (by norm_num) (by norm_num) (by norm_num) (by norm_num) (by norm_num)
  have q2 : fdiv32 (some (14021755 / 262144)) (some (10516317 / 65536)) = (some (5592405 /
      16777216)) :=
    (fdiv32_some _ _ (by norm_num)).trans (fl32_eval _ _ (1 / 33554432) 11184810 (-25)
      (by norm_num) (by norm_num) (by norm_num) (by norm_num) (by norm_num) (by norm_num)
      (by norm_num) (by norm_num))
  have b2 : binOf32 (some (10516317 / 65536)) (some (8973923 / 4194304)) = some 0 :=
    binOf32_eq _ _ _ _ 0 (by norm_num) p2 q2 (by decide) (by norm_num) (by norm_num)
  have p3 : fmul32 (some 25) (some (13460885 / 8388608)) = (some (2629079 / 65536)) :=
    fl32_eval _ _ (1 / 262144) 10516316 (-18) (by norm_num) (by norm_num) (by norm_num)
      (by norm_num) (by norm_num) (by norm_num) (by norm_num) (by norm_num)
  have q3 : fdiv32 (some (2629079 / 65536)) (some (10516317 / 65536)) = (some (8388607 /
      33554432)) :=
    (fdiv32_some _ _ (by norm_num)).trans (fl32_eval _ _ (1 / 67108864) 16777214 (-26)
      (by norm_num) (by norm_num) (by norm_num) (by norm_num) (by norm_num) (by norm_num)
      (by norm_num) (by norm_num))
  have b3 : binOf32 (some (10516317 / 65536)) (some (13460885 / 8388608)) = some 0 :=
    binOf32_eq _ _ _ _ 0 (by norm_num) p3 q3 (by decide) (by norm_num) (by norm_num)
  have p4 : fmul32 (some 25) (some (2692177 / 2097152)) = (some (8413053 / 262144)) :=
    fl32_eval _ _ (1 / 262144) 8413053 (-18) (by norm_num) (by norm_num) (by norm_num)
      (by norm_num) (by norm_num) (by norm_num) (by norm_num) (by norm_num)
  have q4 : fdiv32 (some (8413053 / 262144)) (some (10516317 / 65536)) = (some (3355443 /
      16777216)) :=
    (fdiv32_some _ _ (by norm_num)).trans (fl32_eval _ _ (1 / 67108864) 13421772 (-26)
      (by norm_num) (by norm_num) (by norm_num) (by norm_num) (by norm_num) (by norm_num)
      (by norm_num) (by norm_num))
  have b4 : binOf32 (some (10516317 / 65536)) (some (2692177 / 2097152)) = some 0 :=
    binOf32_eq _ _ _ _ 0 (by norm_num) p4 q4 (by decide) (by norm_num) (by norm_num)
  have p5 : fmul32 (some 25) (some (4206527 / 262144)) = (some (13145397 / 32768)) :=
    fl32_eval _ _ (1 / 32768) 13145397 (-15) (by norm_num) (by norm_num) (by norm_num)
      (by norm_num) (by norm_num) (by norm_num) (by norm_num) (by norm_num)
  have q5 : fdiv32 (some (13145397 / 32768)) (some (10516317 / 65536)) = (some (10485761 /
      4194304)) :=
    (fdiv32_some _ _ (by norm_num)).trans (fl32_eval _ _ (1 / 4194304) 10485761 (-22)
      (by norm_num) (by norm_num) (by norm_num) (by norm_num) (by norm_num) (by norm_num)
      (by norm_num) (by norm_num))
  have b5 : binOf32 (some (10516317 / 65536)) (some (4206527 / 262144)) = some 2 :=
    binOf32_eq _ _ _ _ 2 (by norm_num) p5 q5 (by decide) (by norm_num) (by norm_num)
  have p6 : fmul32 (some 25) (some (2503885 / 16384)) = (some (15649281 / 4096)) :=
    fl32_eval _ _ (1 / 4096) 15649281 (-12) (by norm_num) (by norm_num) (by norm_num)
      (by norm_num) (by norm_num) (by norm_num) (by norm_num) (by norm_num)
  have q6 : fdiv32 (some (15649281 / 4096)) (some (10516317 / 65536)) = (some (12483047 / 524288))
      :=
    (fdiv32_some _ _ (by norm_num)).trans (fl32_eval _ _ (1 / 524288) 12483047 (-19) (by norm_num)
      (by norm_num) (by norm_num) (by norm_num) (by norm_num) (by norm_num) (by norm_num)
      (by norm_num))
  have b6 : binOf32 (some (10516317 / 65536)) (some (2503885 / 16384)) = some 23 :=
    binOf32_eq _ _ _ _ 23 (by norm_num) p6 q6 (by decide) (by norm_num) (by norm_num)
  refine (histogram32_eq_histLoop32 _ _ _ rfl).trans ?_
  rw [histLoop32_cons _ _ _ _ _ b0, histLoop32_cons _ _ _ _ _ b1, histLoop32_cons _ _ _ _ _ b2,
    histLoop32_cons _ _ _ _ _ b3, histLoop32_cons _ _ _ _ _ b4, histLoop32_cons _ _ _ _ _ b5,
    histLoop32_cons _ _ _ _ _ b6, histLoop32_cons _ _ _ _ _ b6, histLoop32_cons _ _ _ _ _ b6,
    histLoop32_cons _ _ _ _ _ b6]
  rfl

/-- The first distance of that run is counted in bin 0. -/
theorem peakRun_bin :
    binOf32 (some (10516317 / 65536)) (some (13460885 / 2097152)) = some 0 := by
  have p0 : fmul32 (some 25) (some (13460885 / 2097152)) = (some (2629079 / 16384)) :=
    fl32_eval _ _ (1 / 65536) 10516316 (-16) (by norm_num) (by norm_num) (by norm_num)
      (by norm_num) (by norm_num) (by norm_num) (by norm_num) (by norm_num)
  have q0 : fdiv32 (some (2629079 / 16384)) (some (10516317 / 65536)) = (some (8388607 / 8388608))
      :=
    (fdiv32_some _ _ (by norm_num)).trans (fl32_eval _ _ (1 / 16777216) 16777214 (-24)
      (by norm_num) (by norm_num) (by norm_num) (by norm_num) (by norm_num) (by norm_num)
      (by norm_num) (by norm_num))
  exact binOf32_eq _ _ _ _ 0 (by norm_num) p0 q0 (by decide) (by norm_num) (by norm_num)

/-- The valley loop of that run: bin 1 is empty, which is not more than the `double` product
`5 * 0.6 = 3.0`, and bin 2 holds more, so the loop leaves at once with `valley = 1`. -/
theorem peakRun_valley :
    findValley32 [5, 0, 1, 0, 0, 0, 0, 0, 0, 0, 0, 0, 0, 0, 0, 0, 0, 0, 0, 0, 0, 0, 0, 4, 0, 0] 0 5
        = 1 := by
  have h06 : fl64 (some (3 / 5)) = (some (5404319552844595 / 9007199254740992)) :=
    fl64_eval _ _ (1 / 9007199254740992) 5404319552844595 (-53) (by norm_num) (by norm_num)
      (by norm_num) (by norm_num) (by norm_num) (by norm_num) (by norm_num) (by norm_num)
  have h5 : fmul64 (some 5) (some (5404319552844595 / 9007199254740992)) = some 3 :=
    fl64_eval _ _ (1 / 2251799813685248) 6755399441055744 (-51) (by norm_num) (by norm_num)
      (by norm_num) (by norm_num) (by norm_num) (by norm_num) (by norm_num) (by norm_num)
  have hc : flt (fmul64 (some ((5 : Nat) : ℚ)) (fl64 (some (3 / 5))))
      (some ((([5, 0, 1, 0, 0, 0, 0, 0, 0, 0, 0, 0, 0, 0, 0, 0, 0, 0, 0, 0, 0, 0, 0, 4, 0, 0] : List
          Nat).getD 1 0 : Nat) : ℚ)) = false := by
    rw [h06]
    have e5 : ((5 : Nat) : ℚ) = 5 := by norm_num
    rw [e5, h5]
    simp [flt]
  show valleyLoop32 _ 5 (23 + 1) 1 = 1
  rw [valleyLoop32, hc]
  simp

/-- The value returned by `choose_xi` in that run: the `float` quotient `1/25` times `max`
rounds to 6.41865015, which is the first distance itself. -/
theorem peakRun_xi (rand : Nat → Nat) (hr : ∀ n, rand n % 10 = 6) (matched : List Int)
    (hm : matched.length = 10) :
    choose_xi32 rand
      [some (13460885 / 2097152), some (13460885 / 4194304), some (8973923 / 4194304),
          some (13460885 / 8388608), some (2692177 / 2097152), some (4206527 / 262144),
          some (2503885 / 16384), some (2503885 / 16384), some (2503885 / 16384), some (2503885 /
          16384)] matched =
      some (some (13460885 / 2097152)) := by
  have hv : fdiv32 (some 1) (some 25) = (some (5368709 / 134217728)) :=
    (fdiv32_some _ _ (by norm_num)).trans (fl32_eval _ _ (1 / 268435456) 10737418 (-28)
      (by norm_num) (by norm_num) (by norm_num) (by norm_num) (by norm_num) (by norm_num)
      (by norm_num) (by norm_num))
  have hx : fmul32 (some (5368709 / 134217728)) (some (10516317 / 65536)) = (some (13460885 /
      2097152)) :=
    fl32_eval _ _ (1 / 2097152) 13460885 (-21) (by norm_num) (by norm_num) (by norm_num)
      (by norm_num) (by norm_num) (by norm_num) (by norm_num) (by norm_num)
  have hpeak : findPeak [5, 0, 1, 0, 0, 0, 0, 0, 0, 0, 0, 0, 0, 0, 0, 0, 0, 0, 0, 0, 0, 0, 0, 4, 0,
      0] = (0, 5) := by
    decide
  have e1 : ((1 : Nat) : ℚ) = 1 := by norm_num
  have e25 : ((num_bins : Nat) : ℚ) = 25 := by norm_num [num_bins]
  simp only [choose_xi32, hm, peakRun_max rand hr, peakRun_hist, hpeak, peakRun_valley, e1, e25,
    hv, hx]

/-- Pass 1 of that run with `Dmax = 200`: every distance is accepted and `mu` is about
64.2. -/
theorem peakRun_mu :
    pass1Mu32 (some 200)
      [(0, some (13460885 / 2097152)), (1, some (13460885 / 4194304)), (2, some (8973923 /
          4194304)), (3, some (13460885 / 8388608)), (4, some (2692177 / 2097152)), (5,
          some (4206527 / 262144)), (6, some (2503885 / 16384)), (7, some (2503885 / 16384)), (8,
          some (2503885 / 16384)), (9, some (2503885 / 16384))] =
      (some (1051857 / 16384)) := by
  have c0 : flt (some (13460885 / 2097152)) (some 200) = true :=
    by simp only [flt, decide_eq_true_eq]; norm_num
  have a0 : fadd32 (some 0) (some (13460885 / 2097152)) = (some (13460885 / 2097152)) :=
    fl32_eval _ _ (1 / 2097152) 13460885 (-21) (by norm_num) (by norm_num) (by norm_num)
      (by norm_num) (by norm_num) (by norm_num) (by norm_num) (by norm_num)
  have c1 : flt (some (13460885 / 4194304)) (some 200) = true :=
    by simp only [flt, decide_eq_true_eq]; norm_num
  have a1 : fadd32 (some (13460885 / 2097152)) (some (13460885 / 4194304)) = (some (630979 /
      65536)) :=
    fl32_eval _ _ (1 / 1048576) 10095664 (-20) (by norm_num) (by norm_num) (by norm_num)
      (by norm_num) (by norm_num) (by norm_num) (by norm_num) (by norm_num)
  have c2 : flt (some (8973923 / 4194304)) (some 200) = true :=
    by simp only [flt, decide_eq_true_eq]; norm_num
  have a2 : fadd32 (some (630979 / 65536)) (some (8973923 / 4194304)) = (some (12339145 /
      1048576)) :=
    fl32_eval _ _ (1 / 1048576) 12339145 (-20) (by norm_num) (by norm_num) (by norm_num)
      (by norm_num) (by norm_num) (by norm_num) (by norm_num) (by norm_num)
  have c3 : flt (some (13460885 / 8388608)) (some 200) = true :=
    by simp only [flt, decide_eq_true_eq]; norm_num
  have a3 : fadd32 (some (12339145 / 1048576)) (some (13460885 / 8388608)) = (some (3505439 /
      262144)) :=
    fl32_eval _ _ (1 / 1048576) 14021756 (-20) (by norm_num) (by norm_num) (by norm_num)
      (by norm_num) (by norm_num) (by norm_num) (by norm_num) (by norm_num)
  have c4 : flt (some (2692177 / 2097152)) (some 200) = true :=
    by simp only [flt, decide_eq_true_eq]; norm_num
  have a4 : fadd32 (some (3505439 / 262144)) (some (2692177 / 2097152)) = (some (3841961 /
      262144)) :=
    fl32_tie _ _ (1 / 1048576) 15367844 15367844 (-20) (by norm_num) (by norm_num) (by norm_num)
      (by norm_num) (by norm_num) (by norm_num) (by norm_num) (by norm_num) (by norm_num)
  have c5 : flt (some (4206527 / 262144)) (some 200) = true :=
    by simp only [flt, decide_eq_true_eq]; norm_num
  have a5 : fadd32 (some (3841961 / 262144)) (some (4206527 / 262144)) = (some (1006061 / 32768))
      :=
    fl32_eval _ _ (1 / 524288) 16096976 (-19) (by norm_num) (by norm_num) (by norm_num)
      (by norm_num) (by norm_num) (by norm_num) (by norm_num) (by norm_num)
  have c6 : flt (some (2503885 / 16384)) (some 200) = true :=
    by simp only [flt, decide_eq_true_eq]; norm_num
  have a6 : fadd32 (some (1006061 / 32768)) (some (2503885 / 16384)) = (some (6013831 / 32768)) :=
    fl32_eval _ _ (1 / 65536) 12027662 (-16) (by norm_num) (by norm_num) (by norm_num)
      (by norm_num) (by norm_num) (by norm_num) (by norm_num) (by norm_num)
  have a7 : fadd32 (some (6013831 / 32768)) (some (2503885 / 16384)) = (some (11021601 / 32768))
      :=
    fl32_eval _ _ (1 / 32768) 11021601 (-15) (by norm_num) (by norm_num) (by norm_num)
      (by norm_num) (by norm_num) (by norm_num) (by norm_num) (by norm_num)
  have a8 : fadd32 (some (11021601 / 32768)) (some (2503885 / 16384)) = (some (16029371 / 32768))
      :=
    fl32_eval _ _ (1 / 32768) 16029371 (-15) (by norm_num) (by norm_num) (by norm_num)
      (by norm_num) (by norm_num) (by norm_num) (by norm_num) (by norm_num)
  have a9 : fadd32 (some (16029371 / 32768)) (some (2503885 / 16384)) = (some (5259285 / 8192)) :=
    fl32_tie _ _ (1 / 16384) 10518570 10518570 (-14) (by norm_num) (by norm_num) (by norm_num)
      (by norm_num) (by norm_num) (by norm_num) (by norm_num) (by norm_num) (by norm_num)
  have hn : fl32 (some 10) = some 10 :=
    fl32_eval _ _ (1 / 1048576) 10485760 (-20) (by norm_num) (by norm_num) (by norm_num)
      (by norm_num) (by norm_num) (by norm_num) (by norm_num) (by norm_num)
  have hlen : (([(0, some (13460885 / 2097152)), (1, some (13460885 / 4194304)), (2, some (8973923 /
      4194304)), (3, some (13460885 / 8388608)), (4, some (2692177 / 2097152)), (5, some (4206527 /
      262144)), (6, some (2503885 / 16384)), (7, some (2503885 / 16384)), (8, some (2503885 /
      16384)), (9, some (2503885 / 16384))] : List (Int × F)).length : ℚ) = 10 :=
    by norm_num
  have hs : sumMu32 (some 200) [(0, some (13460885 / 2097152)), (1, some (13460885 / 4194304)), (2,
      some (8973923 / 4194304)), (3, some (13460885 / 8388608)), (4, some (2692177 / 2097152)), (5,
      some (4206527 / 262144)), (6, some (2503885 / 16384)), (7, some (2503885 / 16384)), (8,
      some (2503885 / 16384)), (9, some (2503885 / 16384))] = (some (5259285 / 8192)) :=
    by simp only [sumMu32, List.foldl_cons, List.foldl_nil, c0, c1, c2, c3, c4, c5, c6, if_true,
      a0, a1, a2, a3, a4, a5, a6, a7, a8, a9]
  have hq : fdiv32 (some (5259285 / 8192)) (some 10) = (some (1051857 / 16384)) :=
    (fdiv32_some _ _ (by norm_num)).trans (fl32_eval _ _ (1 / 131072) 8414856 (-17) (by norm_num)
      (by norm_num) (by norm_num) (by norm_num) (by norm_num) (by norm_num) (by norm_num)
      (by norm_num))
  simp only [pass1Mu32, hs, hlen, hn, hq]

/-- The filter step of that run, as in the first iteration of `ICP` (`Dmax = 200`): `mu` is
not below `6*D`, so the new `Dmax` is the value of `choose_xi`, the first distance, and pass 2,
whose test is strict, rejects index 0. -/
theorem peakRun_filter (env : Env) (hr : ∀ n, env.rand n % 10 = 6) (calls : Nat) :
    filterStep32 env calls
      [(0, some (13460885 / 2097152)), (1, some (13460885 / 4194304)), (2, some (8973923 /
          4194304)), (3, some (13460885 / 8388608)), (4, some (2692177 / 2097152)), (5,
          some (4206527 / 262144)), (6, some (2503885 / 16384)), (7, some (2503885 / 16384)), (8,
          some (2503885 / 16384)), (9, some (2503885 / 16384))] (some 200) =
      some ([-1, 1, 2, 3, 4, -1, -1, -1, -1, -1],
        (some (13460885 / 2097152)), calls + 100) := by
  have h30 : fmul32 (some 3) (some 10) = (some 30) :=
    fl32_eval _ _ (1 / 524288) 15728640 (-19) (by norm_num) (by norm_num) (by norm_num)
      (by norm_num) (by norm_num) (by norm_num) (by norm_num) (by norm_num)
  have h60 : fmul32 (some 6) (some 10) = (some 60) :=
    fl32_eval _ _ (1 / 262144) 15728640 (-18) (by norm_num) (by norm_num) (by norm_num)
      (by norm_num) (by norm_num) (by norm_num) (by norm_num) (by norm_num)
  have hD : D = some 10 := rfl
  have l1 : flt (some (1051857 / 16384)) (some 10) = false := by
    simp only [flt, decide_eq_false_iff_not]; norm_num
  have l2 : flt (some (1051857 / 16384)) (some 30) = false := by
    simp only [flt, decide_eq_false_iff_not]; norm_num
  have l3 : flt (some (1051857 / 16384)) (some 60) = false := by
    simp only [flt, decide_eq_false_iff_not]; norm_num
  have hxi := peakRun_xi (fun n => env.rand (calls + n)) (fun n => hr (calls + n))
    (matchPass (some 200)
      [(0, some (13460885 / 2097152)), (1, some (13460885 / 4194304)), (2, some (8973923 /
          4194304)), (3, some (13460885 / 8388608)), (4, some (2692177 / 2097152)), (5,
          some (4206527 / 262144)), (6, some (2503885 / 16384)), (7, some (2503885 / 16384)), (8,
          some (2503885 / 16384)), (9, some (2503885 / 16384))])
    (by rw [matchPass_length]; rfl)
  have hup : ∀ sigma : F, updateDmax32 env calls
      [some (13460885 / 2097152), some (13460885 / 4194304), some (8973923 / 4194304),
          some (13460885 / 8388608), some (2692177 / 2097152), some (4206527 / 262144),
          some (2503885 / 16384), some (2503885 / 16384), some (2503885 / 16384), some (2503885 /
          16384)]
      (matchPass (some 200)
        [(0, some (13460885 / 2097152)), (1, some (13460885 / 4194304)), (2, some (8973923 /
            4194304)), (3, some (13460885 / 8388608)), (4, some (2692177 / 2097152)), (5,
            some (4206527 / 262144)), (6, some (2503885 / 16384)), (7, some (2503885 / 16384)), (8,
            some (2503885 / 16384)), (9, some (2503885 / 16384))])
      (some (1051857 / 16384)) sigma =
      some ((some (13460885 / 2097152)), calls + 100) := by
    intro sigma
    unfold updateDmax32
    rw [hD, h30, h60, l1, l2, l3]
    simp only [Bool.false_eq_true, if_false, hxi, Option.map_some']
  have hmap : ([(0, some (13460885 / 2097152)), (1, some (13460885 / 4194304)), (2, some (8973923 /
      4194304)), (3, some (13460885 / 8388608)), (4, some (2692177 / 2097152)), (5, some (4206527 /
      262144)), (6, some (2503885 / 16384)), (7, some (2503885 / 16384)), (8, some (2503885 /
      16384)), (9, some (2503885 / 16384))] : List (Int × F)).map Prod.snd =
      [some (13460885 / 2097152), some (13460885 / 4194304), some (8973923 / 4194304),
          some (13460885 / 8388608), some (2692177 / 2097152), some (4206527 / 262144),
          some (2503885 / 16384), some (2503885 / 16384), some (2503885 / 16384), some (2503885 /
          16384)] := rfl
  have hpass : matchPass (some (13460885 / 2097152))
      [(0, some (13460885 / 2097152)), (1, some (13460885 / 4194304)), (2, some (8973923 /
          4194304)), (3, some (13460885 / 8388608)), (4, some (2692177 / 2097152)), (5,
          some (4206527 / 262144)), (6, some (2503885 / 16384)), (7, some (2503885 / 16384)), (8,
          some (2503885 / 16384)), (9, some (2503885 / 16384))] =
      [-1, 1, 2, 3, 4, -1, -1, -1, -1, -1] := by
    simp only [matchPass, List.map_cons, List.map_nil, flt]
    norm_num
  simp only [filterStep32, hmap, peakRun_mu, hup, hpass]

/-! ## Lemmas on the range of the rounded histogram -/

/-- A non-negative exact result that is at most a value `B` of type `float` has a value of type
`float`, which is at most `B`. -/
theorem fl32_le (q B : ℚ) (h0 : 0 ≤ q) (hB : q ≤ B) (hfix : roundBits 24 (-149) B = B)
    (hfin : B < 340282366920938463463374607431768211456) :
    fl32 (some q) = some (roundBits 24 (-149) q) ∧ 0 ≤ roundBits 24 (-149) q ∧
      roundBits 24 (-149) q ≤ B := by
  have hnn := roundBits_nonneg 24 (-149) q h0
  have hle : roundBits 24 (-149) q ≤ B := by
    have := roundBits_mono 24 (-149) q B (by norm_num) h0 hB
    rwa [hfix] at this
  refine ⟨?_, hnn, hle⟩
  simp only [fl32, abs_of_nonneg hnn]
  rw [if_neg (by norm_num; linarith)]

theorem roundBits_two_pow_127 :
    roundBits 24 (-149) 170141183460469231731687303715884105728 =
      170141183460469231731687303715884105728 :=
  (roundBits_eval32 _ _ 20282409603651670423947251286016 8388608 104 (by norm_num) (by norm_num)
    (by norm_num) (by norm_num) (by norm_num) (by norm_num) (by norm_num)).1

theorem roundBits_51_halves : roundBits 24 (-149) (51 / 2) = 51 / 2 :=
  (roundBits_eval32 _ _ (1 / 524288) 13369344 (-19) (by norm_num) (by norm_num)
    (by norm_num) (by norm_num) (by norm_num) (by norm_num) (by norm_num)).1

/-- The computed bin index of a non-negative distance is within 0..25 when `max` is a number of
the normal range (`2^-126 ≤ max`) and `25 * max` is at most `2^127`. -/
theorem binOf32_defined (max d : ℚ) (hmax : 1 / 85070591730234615865843651857942052864 ≤ max)
    (hover : 25 * max ≤ 170141183460469231731687303715884105728) (hd : 0 ≤ d) :
    ∃ k, binOf32 (some max) (some d) = some k ∧ k ≤ num_bins := by
  have hmpos : 0 < max := lt_of_lt_of_le (by norm_num) hmax
  by_cases h : max < d
  · exact ⟨num_bins, binOf32_overflow max d h, le_refl _⟩
  · have hle : d ≤ max := not_lt.mp h
    have h25 : ((num_bins : Nat) : ℚ) = 25 := by norm_num [num_bins]
    -- the product
    have hX := fl32_le (25 * d) _ (by positivity) (by linarith) roundBits_two_pow_127
      (by norm_num)
    have hXm : roundBits 24 (-149) (25 * d) ≤ roundBits 24 (-149) (25 * max) :=
      roundBits_mono 24 (-149) _ _ (by norm_num) (by positivity) (by linarith)
    have hnorm := (roundBits_normal 24 (-149) (25 * max) (by norm_num)
      (by norm_num; linarith)).2
    have hXle : roundBits 24 (-149) (25 * d) ≤ 51 / 2 * max := by
      have : (25 * max) / (2 : ℚ) ^ 24 ≤ 1 / 2 * max := by
        rw [div_le_iff₀ (by positivity)]; norm_num; linarith
      linarith
    -- the quotient
    have hq0 : 0 ≤ roundBits 24 (-149) (25 * d) / max := div_nonneg hX.2.1 (le_of_lt hmpos)
    have hY := fl32_le (roundBits 24 (-149) (25 * d) / max) (51 / 2) hq0
      (by rw [div_le_iff₀ hmpos]; exact hXle) roundBits_51_halves (by norm_num)
    have t0 : 0 ≤ truncate (roundBits 24 (-149) (roundBits 24 (-149) (25 * d) / max)) := by
      simp only [truncate, hY.2.1, if_true]
      exact Int.floor_nonneg.mpr hY.2.1
    have t1 : truncate (roundBits 24 (-149) (roundBits 24 (-149) (25 * d) / max)) ≤
        (num_bins : Int) := by
      simp only [truncate, hY.2.1, if_true]
      have : ⌊roundBits 24 (-149) (roundBits 24 (-149) (25 * d) / max)⌋ < 26 := by
        rw [Int.floor_lt]; push_cast; linarith [hY.2.2]
      simp only [num_bins]; omega
    refine ⟨(truncate (roundBits 24 (-149) (roundBits 24 (-149) (25 * d) / max))).toNat, ?_, ?_⟩
    · simp [binOf32, flt, h, h25, fmul32, fmul, fdiv32, fdiv, ne_of_gt hmpos, hX.1, hY.1, f2i,
        t0, t1]
    · omega

/-- The histogram as computed is defined, for non-negative distances, when `max` is a number
of the normal range and `25 * max` is at most `2^127`. -/
theorem histogram32_defined (max : ℚ)
    (hmax : 1 / 85070591730234615865843651857942052864 ≤ max)
    (hover : 25 * max ≤ 170141183460469231731687303715884105728) (nearest_d : List F)
    (size : Nat) (hlen : size ≤ nearest_d.length)
    (hfin : ∀ d ∈ nearest_d, ∃ q : ℚ, 0 ≤ q ∧ d = some q) :
    ∃ counts, histogram32 nearest_d size (some max) = some counts := by
  have h : ∀ d ∈ nearest_d.take size, ∃ k, binOf32 (some max) d = some k := by
    intro d hd
    obtain ⟨q, hq, rfl⟩ := hfin d (List.mem_of_mem_take hd)
    obtain ⟨k, hk, _⟩ := binOf32_defined max q hmax hover hq
    exact ⟨k, hk⟩
  obtain ⟨counts, hc⟩ := histLoop32_defined (some max) (nearest_d.take size)
    (List.replicate (num_bins + 1) 0) h
  exact ⟨counts, by simp only [histogram32, not_lt.mpr hlen, if_false, hc]⟩

/-! ## Lemmas on the rounding error of the histogram and of the threshold -/

/-- A natural number of at most 24 bits is a value of type `float`. -/
theorem roundBits_natCast (j : Nat) (hj : j < 16777216) : roundBits 24 (-149) (j : ℚ) = j := by
  rcases Nat.eq_zero_or_pos j with h0 | hpos
  · subst h0; simp [roundBits]
  · have hq : (0 : ℚ) < (j : ℚ) := by exact_mod_cast hpos
    rw [roundBits_of_pos 24 (-149) _ hq]
    have hlog : Int.log 2 (j : ℚ) < 24 := by
      rw [← Int.lt_zpow_iff_log_lt (by norm_num) hq]
      norm_num
      exact hj
    have hlog0 : 0 ≤ Int.log 2 (j : ℚ) := by
      rw [← Int.zpow_le_iff_le_log (by norm_num) hq]
      have : (1 : ℚ) ≤ (j : ℚ) := by exact_mod_cast hpos
      simpa using this
    have he : lastPlace 24 (-149) (j : ℚ) = Int.log 2 (j : ℚ) - 23 := by
      unfold lastPlace
      rw [abs_of_pos hq]
      have : Int.log 2 (j : ℚ) - ((24 : Nat) : Int) + 1 ≥ -149 := by omega
      rw [max_eq_left (by push_cast; omega)]
      push_cast; ring
    obtain ⟨t, ht⟩ : ∃ t : Nat, Int.log 2 (j : ℚ) - 23 = -(t : Int) :=
      ⟨(23 - Int.log 2 (j : ℚ)).toNat, by omega⟩
    rw [he, ht, zpow_neg, zpow_natCast]
    have hn : (j : ℚ) / ((2 : ℚ) ^ t)⁻¹ = (((j : Int) * 2 ^ t : Int) : ℚ) := by
      push_cast; field_simp
    rw [hn, roundHalfEven_intCast]
    push_cast; field_simp

/-- A positive exact result of the normal range that is at most `2^127` has a value of type
`float`, within a relative error of `2^-24`. -/
theorem fl32_normal (q : ℚ) (hlo : 1 / 85070591730234615865843651857942052864 ≤ q)
    (hhi : q ≤ 170141183460469231731687303715884105728) :
    fl32 (some q) = some (roundBits 24 (-149) q) ∧
      q - q / 16777216 ≤ roundBits 24 (-149) q ∧ roundBits 24 (-149) q ≤ q + q / 16777216 := by
  have hpos : 0 < q := lt_of_lt_of_le (by norm_num) hlo
  obtain ⟨h1, _, _⟩ := fl32_le q _ (le_of_lt hpos) hhi roundBits_two_pow_127 (by norm_num)
  have h := roundBits_normal 24 (-149) q (by norm_num) (by norm_num; linarith)
  norm_num at h
  exact ⟨h1, by linarith [h.1], h.2⟩

theorem roundBits_half : roundBits 24 (-149) (1 / 2) = 1 / 2 :=
  (roundBits_eval32 _ _ (1 / 16777216) 8388608 (-24) (by norm_num) (by norm_num)
    (by norm_num) (by norm_num) (by norm_num) (by norm_num) (by norm_num)).1

theorem roundBits_two_pow_neg_122 :
    roundBits 24 (-149) (1 / 5316911983139663491615228241121378304) =
      1 / 5316911983139663491615228241121378304 :=
  (roundBits_eval32 _ _ (1 / 44601490397061246283071436545296723011960832) 8388608 (-145)
    (by norm_num) (by norm_num) (by norm_num) (by norm_num) (by norm_num) (by norm_num)
    (by norm_num)).1

theorem roundBits_two : roundBits 24 (-149) 2 = 2 := by
  have := roundBits_natCast 2 (by norm_num)
  simpa using this

/-- The product and the quotient from which the bin index of a distance `d ≤ max` is computed,
for `max` between `2^-120` and `2^120`: both are finite and the index is the integer part of
the quotient. -/
theorem binOf32_parts (max d : ℚ) (k : Nat)
    (hmax1 : 1 / 1329227995784915872903807060280344576 ≤ max)
    (hmax2 : max ≤ 1329227995784915872903807060280344576) (hd : 0 ≤ d) (hle : d ≤ max)
    (hk : binOf32 (some max) (some d) = some k) :
    (k : ℚ) ≤ roundBits 24 (-149) (roundBits 24 (-149) (25 * d) / max) ∧
    roundBits 24 (-149) (roundBits 24 (-149) (25 * d) / max) < (k : ℚ) + 1 ∧
    0 ≤ roundBits 24 (-149) (25 * d) ∧ roundBits 24 (-149) (25 * d) ≤ 51 / 2 * max := by
  have hmpos : 0 < max := lt_of_lt_of_le (by norm_num) hmax1
  have h25 : ((num_bins : Nat) : ℚ) = 25 := by norm_num [num_bins]
  have hX := fl32_le (25 * d) _ (by positivity) (by linarith) roundBits_two_pow_127
    (by norm_num)
  have hXm : roundBits 24 (-149) (25 * d) ≤ roundBits 24 (-149) (25 * max) :=
    roundBits_mono 24 (-149) _ _ (by norm_num) (by positivity) (by linarith)
  have hnorm := (fl32_normal (25 * max) (by linarith) (by linarith)).2.2
  have hXle : roundBits 24 (-149) (25 * d) ≤ 51 / 2 * max := by linarith
  have hq0 : 0 ≤ roundBits 24 (-149) (25 * d) / max := div_nonneg hX.2.1 (le_of_lt hmpos)
  have hY := fl32_le (roundBits 24 (-149) (25 * d) / max) (51 / 2) hq0
    (by rw [div_le_iff₀ hmpos]; exact hXle) roundBits_51_halves (by norm_num)
  have hfl : ⌊roundBits 24 (-149) (roundBits 24 (-149) (25 * d) / max)⌋ = (k : Int) := by
    have h := hk
    simp only [binOf32, flt, not_lt.mpr hle, decide_False, Bool.false_eq_true, if_false, h25,
      fmul32, fmul, fdiv32, fdiv, ne_of_gt hmpos, hX.1, hY.1, f2i, truncate, hY.2.1,
      if_true] at h
    split_ifs at h with hc
    simp only [Option.some.injEq] at h
    omega
  have h1 := Int.floor_le (roundBits 24 (-149) (roundBits 24 (-149) (25 * d) / max))
  have h2 := Int.lt_floor_add_one (roundBits 24 (-149) (roundBits 24 (-149) (25 * d) / max))
  rw [hfl] at h1 h2
  exact ⟨by exact_mod_cast h1, by exact_mod_cast h2, hX.2.1, hXle⟩

/-- The bin edges as computed, for `max` between `2^-120` and `2^120`: a non-negative distance
whose computed index is `k` satisfies `k * max * (1 - 2^-22) ≤ 25 * d`, and
`25 * d * (1 - 2^-24) < (k + 1) * max` when `k < 25`. -/
theorem binOf32_edges (max d : ℚ) (k : Nat)
    (hmax1 : 1 / 1329227995784915872903807060280344576 ≤ max)
    (hmax2 : max ≤ 1329227995784915872903807060280344576) (hd : 0 ≤ d)
    (hk : binOf32 (some max) (some d) = some k) :
    (k : ℚ) * max * (1 - 1 / 4194304) ≤ 25 * d ∧
    (k < 25 → 25 * d * (1 - 1 / 16777216) < ((k : ℚ) + 1) * max) := by
  have hmpos : 0 < max := lt_of_lt_of_le (by norm_num) hmax1
  by_cases h : max < d
  · have h25 := binOf32_overflow max d h
    rw [hk] at h25
    simp only [Option.some.injEq, num_bins] at h25
    subst h25
    refine ⟨?_, fun hlt => absurd hlt (by norm_num)⟩
    push_cast
    nlinarith
  · have hle : d ≤ max := not_lt.mp h
    obtain ⟨hY1, hY2, hX0, hXle⟩ := binOf32_parts max d k hmax1 hmax2 hd hle hk
    have hkk : (0 : ℚ) ≤ (k : ℚ) := by positivity
    constructor
    · rcases Nat.eq_zero_or_pos k with h0 | hpos
      · subst h0; simp only [Nat.cast_zero, zero_mul]; positivity
      · have hk1 : (1 : ℚ) ≤ (k : ℚ) := by exact_mod_cast hpos
        -- the quotient is in the normal range
        have hq : 1 / 2 ≤ roundBits 24 (-149) (25 * d) / max := by
          by_contra hcon
          push_neg at hcon
          have := roundBits_mono 24 (-149) _ _ (by norm_num)
            (div_nonneg hX0 (le_of_lt hmpos)) (le_of_lt hcon)
          rw [roundBits_half] at this
          linarith
        have hqn := (fl32_normal (roundBits 24 (-149) (25 * d) / max) (by linarith)
          (by rw [div_le_iff₀ hmpos]; nlinarith)).2.2
        -- `k ≤ (X / max) * (1 + 2^-24)`
        have hX1 : (k : ℚ) * max ≤
            roundBits 24 (-149) (25 * d) * (1 + 1 / 16777216) := by
          have h3 : (k : ℚ) ≤ roundBits 24 (-149) (25 * d) / max * (1 + 1 / 16777216) := by
            linarith
          have h4 := mul_le_mul_of_nonneg_right h3 (le_of_lt hmpos)
          have h5 : roundBits 24 (-149) (25 * d) / max * (1 + 1 / 16777216) * max =
              roundBits 24 (-149) (25 * d) * (1 + 1 / 16777216) := by
            field_simp
            ring
          rw [h5] at h4
          exact h4
        -- the product is in the normal range
        have hdn : 1 / 5316911983139663491615228241121378304 ≤ 25 * d := by
          by_contra hcon
          push_neg at hcon
          have := roundBits_mono 24 (-149) _ _ (by norm_num) (by positivity : 0 ≤ 25 * d)
            (le_of_lt hcon)
          rw [roundBits_two_pow_neg_122] at this
          nlinarith
        have hXn := (fl32_normal (25 * d) (by linarith) (by linarith)).2.2
        nlinarith
    · intro hk25
      have hk1 : (k : ℚ) + 1 ≤ 25 := by
        have : k + 1 ≤ 25 := hk25
        exact_mod_cast this
      -- the rounded product is below `(k + 1) * max`
      have hXlt : roundBits 24 (-149) (25 * d) < ((k : ℚ) + 1) * max := by
        by_contra hcon
        push_neg at hcon
        have hq : ((k + 1 : Nat) : ℚ) ≤ roundBits 24 (-149) (25 * d) / max := by
          rw [le_div_iff₀ hmpos]; push_cast; exact hcon
        have := roundBits_mono 24 (-149) _ _ (by norm_num) (by positivity) hq
        rw [roundBits_natCast (k + 1) (by omega)] at this
        push_cast at this
        linarith
      by_cases hdn : 1 / 85070591730234615865843651857942052864 ≤ 25 * d
      · have hXn := (fl32_normal (25 * d) hdn (by linarith)).2.1
        linarith
      · push_neg at hdn
        have : max ≤ ((k : ℚ) + 1) * max := by nlinarith
        nlinarith

/-- The value returned by `choose_xi` as computed, for a valley `1 ≤ v ≤ 26` and `max` between
`2^-120` and `2^120`: a number that is `v / 25 * max` to within a relative error of `2^-23`
below and `2^-22` above. -/
theorem xi32_value (max : ℚ) (v : Nat) (hv1 : 1 ≤ v) (hv2 : v ≤ 26)
    (hmax1 : 1 / 1329227995784915872903807060280344576 ≤ max)
    (hmax2 : max ≤ 1329227995784915872903807060280344576) :
    ∃ x : ℚ, fmul32 (fdiv32 (some (v : ℚ)) (some ((num_bins : Nat) : ℚ))) (some max) = some x ∧
      (v : ℚ) / 25 * max * (1 - 1 / 8388608) ≤ x ∧
      x ≤ (v : ℚ) / 25 * max * (1 + 1 / 4194304) := by
  have hmpos : 0 < max := lt_of_lt_of_le (by norm_num) hmax1
  have h25 : ((num_bins : Nat) : ℚ) = 25 := by norm_num [num_bins]
  have hva : (1 : ℚ) ≤ (v : ℚ) := by exact_mod_cast hv1
  have hvb : (v : ℚ) ≤ 26 := by exact_mod_cast hv2
  have hq1 : (1 : ℚ) / 25 ≤ (v : ℚ) / 25 := by
    apply div_le_div_of_nonneg_right hva (by norm_num)
  have hq2 : (v : ℚ) / 25 ≤ 26 / 25 := by
    apply div_le_div_of_nonneg_right hvb (by norm_num)
  obtain ⟨hw, hw1, hw2⟩ := fl32_normal ((v : ℚ) / 25) (by linarith) (by linarith)
  have hwlo : (1 : ℚ) / 32 ≤ roundBits 24 (-149) ((v : ℚ) / 25) := by linarith
  have hwhi : roundBits 24 (-149) ((v : ℚ) / 25) ≤ 2 := by linarith
  obtain ⟨hx, hx1, hx2⟩ := fl32_normal (roundBits 24 (-149) ((v : ℚ) / 25) * max)
    (by nlinarith) (by nlinarith)
  refine ⟨roundBits 24 (-149) (roundBits 24 (-149) ((v : ℚ) / 25) * max), ?_, ?_, ?_⟩
  · rw [h25, fdiv32_some _ _ (by norm_num), hw]
    exact hx
  · have h1 : (v : ℚ) / 25 * (1 - 1 / 16777216) * max ≤
        roundBits 24 (-149) ((v : ℚ) / 25) * max :=
      mul_le_mul_of_nonneg_right (by linarith) (le_of_lt hmpos)
    have h2 : 0 ≤ (v : ℚ) / 25 * max := by positivity
    nlinarith
  · have h1 : roundBits 24 (-149) ((v : ℚ) / 25) * max ≤
        (v : ℚ) / 25 * (1 + 1 / 16777216) * max :=
      mul_le_mul_of_nonneg_right (by linarith) (le_of_lt hmpos)
    have h2 : 0 ≤ (v : ℚ) / 25 * max := by positivity
    nlinarith

/-- A distance whose computed bin lies at least two below the valley is below the returned
threshold as computed. -/
theorem xi32_above_lower_bins (max d x : ℚ) (k v : Nat)
    (hmax1 : 1 / 1329227995784915872903807060280344576 ≤ max)
    (hmax2 : max ≤ 1329227995784915872903807060280344576) (hd : 0 ≤ d)
    (hk : binOf32 (some max) (some d) = some k) (hkv : k + 2 ≤ v) (hv : v ≤ 26)
    (hx : (v : ℚ) / 25 * max * (1 - 1 / 8388608) ≤ x) : d < x := by
  have hmpos : 0 < max := lt_of_lt_of_le (by norm_num) hmax1
  have hk25 : k < 25 := by omega
  have hedge := (binOf32_edges max d k hmax1 hmax2 hd hk).2 hk25
  have hkv' : (k : ℚ) + 2 ≤ (v : ℚ) := by exact_mod_cast hkv
  have hk0 : (0 : ℚ) ≤ (k : ℚ) := by positivity
  have hk24 : (k : ℚ) ≤ 24 := by
    have : k ≤ 24 := by omega
    exact_mod_cast this
  by_contra hcon
  push_neg at hcon
  -- `25 x ≥ (k + 2) max (1 - 2^-23)`
  have h1 : ((k : ℚ) + 2) * max * (1 - 1 / 8388608) ≤ 25 * x := by
    have : ((k : ℚ) + 2) * max * (1 - 1 / 8388608) ≤ (v : ℚ) * max * (1 - 1 / 8388608) := by
      apply mul_le_mul_of_nonneg_right _ (by norm_num)
      exact mul_le_mul_of_nonneg_right hkv' (le_of_lt hmpos)
    have h2 : (v : ℚ) / 25 * max * (1 - 1 / 8388608) * 25 =
        (v : ℚ) * max * (1 - 1 / 8388608) := by ring
    linarith
  -- `25 x (1 - 2^-24) < (k + 1) max`
  have h3 : 25 * x * (1 - 1 / 16777216) < ((k : ℚ) + 1) * max := by
    have : 25 * x * (1 - 1 / 16777216) ≤ 25 * d * (1 - 1 / 16777216) := by
      apply mul_le_mul_of_nonneg_right _ (by norm_num)
      linarith
    linarith
  have h4 : ((k : ℚ) + 2) * max * (1 - 1 / 8388608) * (1 - 1 / 16777216) ≤
      25 * x * (1 - 1 / 16777216) :=
    mul_le_mul_of_nonneg_right h1 (by norm_num)
  have h5 : ((k : ℚ) + 1) * max <
      ((k : ℚ) + 2) * max * (1 - 1 / 8388608) * (1 - 1 / 16777216) := by
    have : (0 : ℚ) < max * (1 - ((k : ℚ) + 2) * (3 / 16777216)) := by
      apply mul_pos hmpos
      nlinarith
    nlinarith
  linarith

/-! ## The variance of pass 1 over exact arithmetic -/

/-- Over exact arithmetic, for every non-empty list of nearest-neighbour results and every
current `Dmax`, with `S1` and `S2` the sums of `d_i` and `d_i^2` over the indices with
`d_i < Dmax` that pass 1 accumulates and `N` the number of source indices, the argument
`S2/N - (S1/N)^2` of the square root of line 176 is a number and is not negative; so `sigma` is
the square root of a non-negative number, and is a number `>= 0` for a square root that maps
non-negative numbers to non-negative numbers. -/
theorem pass1_variance_nonneg (env : Env) (Dmax : F) (nearest : List (Int × F))
    (hne : nearest ≠ []) :
    ∃ S1 S2 v : ℚ,
      sumMu Dmax nearest = some S1 ∧ sumSigma Dmax nearest = some S2 ∧
      S1 = ((nearest.filter (fun r => flt r.2 Dmax)).map (fun r => r.2.getD 0)).sum ∧
      S2 = ((nearest.filter (fun r => flt r.2 Dmax)).map
        (fun r => r.2.getD 0 * r.2.getD 0)).sum ∧
      pass1Mu Dmax nearest = some (S1 / (nearest.length : ℚ)) ∧
      fsub (fdiv (sumSigma Dmax nearest) (some (nearest.length : ℚ)))
        (fmul (pass1Mu Dmax nearest) (pass1Mu Dmax nearest)) = some v ∧
      v = S2 / (nearest.length : ℚ) -
        S1 / (nearest.length : ℚ) * (S1 / (nearest.length : ℚ)) ∧
      0 ≤ v ∧
      pass1Sigma env Dmax nearest = env.sqrt v ∧
      ((∀ q : ℚ, 0 ≤ q → ∃ r : ℚ, 0 ≤ r ∧ env.sqrt q = some r) →
        ∃ s : ℚ, 0 ≤ s ∧ pass1Sigma env Dmax nearest = some s) := by
  have hpos : 0 < nearest.length := List.length_pos.mpr hne
  have hn : (nearest.length : ℚ) ≠ 0 := by exact_mod_cast (Nat.pos_iff_ne_zero.mp hpos)
  have hmu : pass1Mu Dmax nearest =
      some (((nearest.filter (fun r => flt r.2 Dmax)).map (fun r => r.2.getD 0)).sum /
        (nearest.length : ℚ)) := by
    simp only [pass1Mu, sumMu_eq, fdiv, hn, if_false]
  have hlen : ((nearest.filter (fun r => flt r.2 Dmax)).map (fun r => r.2.getD 0)).length ≤
      nearest.length := by
    rw [List.length_map]; exact List.length_filter_le _ _
  have hsq : ((nearest.filter (fun r => flt r.2 Dmax)).map (fun r => r.2.getD 0)).map
      (fun x => x * x) =
      (nearest.filter (fun r => flt r.2 Dmax)).map (fun r => r.2.getD 0 * r.2.getD 0) := by
    rw [List.map_map]; rfl
  have hv := variance_nonneg
    ((nearest.filter (fun r => flt r.2 Dmax)).map (fun r => r.2.getD 0)) nearest.length hlen hpos
  rw [hsq] at hv
  have harg : fsub (fdiv (sumSigma Dmax nearest) (some (nearest.length : ℚ)))
      (fmul (pass1Mu Dmax nearest) (pass1Mu Dmax nearest)) =
      some (((nearest.filter (fun r => flt r.2 Dmax)).map
          (fun r => r.2.getD 0 * r.2.getD 0)).sum / (nearest.length : ℚ) -
        ((nearest.filter (fun r => flt r.2 Dmax)).map (fun r => r.2.getD 0)).sum /
            (nearest.length : ℚ) *
          (((nearest.filter (fun r => flt r.2 Dmax)).map (fun r => r.2.getD 0)).sum /
            (nearest.length : ℚ))) := by
    simp only [hmu, sumSigma_eq, fdiv, hn, if_false, fmul, fsub]
  have hsig : pass1Sigma env Dmax nearest =
      fsqrt env (fsub (fdiv (sumSigma Dmax nearest) (some (nearest.length : ℚ)))
        (fmul (pass1Mu Dmax nearest) (pass1Mu Dmax nearest))) := rfl
  rw [harg] at hsig
  refine ⟨_, _, _, sumMu_eq Dmax nearest, sumSigma_eq Dmax nearest, rfl, rfl, hmu, harg, rfl,
    hv, hsig, fun hsqrt => ?_⟩
  obtain ⟨r, hr, hrs⟩ := hsqrt _ hv
  exact ⟨r, hr, hsig.trans hrs⟩

/-! ## The claims -/

/-- C1 (code defect, the code at the failing input): when a non-empty cloud without NaN is both
the reference and the source, the prior is the identity, every nearest-neighbour distance is 0
and every source index has a nearest reference index, the first filter step of `ICP` computes
`mu = 0`, `sigma = 0` and `Dmax = 0`, and pass 2 (`0 < 0` is false) rejects every index: the
solver is given `matchCount = 0` and returns a motion whose dual part is NaN. -/
theorem C1_identical_clouds_no_match (env : Env) (cloud : PointCloud)
    (hs : env.sqrt 0 = some 0) (hne : cloud ≠ []) (hfin : ∀ p ∈ cloud, p.hasNaN = false)
    (hnn : ∀ p ∈ cloud, ∃ i : Int, 0 ≤ i ∧ env.nearestKSearch cloud p = (i, some 0)) :
    (initState cloud identity).source = cloud ∧
    (∀ r ∈ nearestSearch env cloud (initState cloud identity).source, 0 ≤ r.1 ∧ r.2 = some 0) ∧
    filterStep env (initState cloud identity).calls
        (nearestSearch env cloud (initState cloud identity).source)
        (initState cloud identity).Dmax =
      some (List.replicate cloud.length (-1), some 0, 0) ∧
    matchCount (List.replicate cloud.length (-1)) = 0 ∧
    (∃ s, icpBody env cloud (initState cloud identity) = some (s, nanMotion env)) ∧
    (nanMotion env).d = nanVec := by
  have hsrc : (initState cloud identity).source = cloud := by
    simp only [initState]
    conv_rhs => rw [← List.map_id cloud]
    exact List.map_congr_left (fun p hp => transformPoint_identity p (hfin p hp))
  have hx : ∀ p ∈ cloud, isnan p.x = false := by
    intro p hp
    have := hfin p hp
    simp only [PointXYZ.hasNaN, Bool.or_eq_false_iff] at this
    exact this.1.1.1
  have hnear : ∀ r ∈ nearestSearch env cloud (initState cloud identity).source,
      0 ≤ r.1 ∧ r.2 = some 0 := by
    rw [hsrc]
    intro r hr
    obtain ⟨p, hp, rfl⟩ := List.mem_map.mp hr
    obtain ⟨i, hi, hq⟩ := hnn p hp
    simp [hx p hp, hq, hi]
  have hlen : (nearestSearch env cloud (initState cloud identity).source).length =
      cloud.length := by
    rw [hsrc]; simp [nearestSearch]
  have hfil := filterStep_zero env hs (initState cloud identity).calls
    (nearestSearch env cloud (initState cloud identity).source) (initState cloud identity).Dmax
    (by rw [hsrc]; simpa [nearestSearch] using hne) (fun r hr => (hnear r hr).2)
  rw [hlen] at hfil
  refine ⟨hsrc, hnear, hfil, matchCount_replicate _, ?_, rfl⟩
  exact ⟨_, icpBody_zero env hs cloud (initState cloud identity) (by rw [hsrc]; exact hne)
    (fun r hr => (hnear r hr).2)⟩

/-- C1 (witness): the cloud of the single point (1, 2, 3) registered on itself from the
identity prior, with the exact nearest-neighbour search. -/
theorem C1_identical_clouds_no_match_witness :
    sampleEnv.nearestKSearch [⟨some 1, some 2, some 3, some 1⟩]
      ⟨some 1, some 2, some 3, some 1⟩ = (0, some 0) ∧
    filterStep sampleEnv 0
        (nearestSearch sampleEnv [⟨some 1, some 2, some 3, some 1⟩]
          (initState [⟨some 1, some 2, some 3, some 1⟩] identity).source)
        (initState [⟨some 1, some 2, some 3, some 1⟩] identity).Dmax =
      some ([-1], some 0, 0) := by
  have hq : sampleEnv.nearestKSearch [⟨some 1, some 2, some 3, some 1⟩]
      ⟨some 1, some 2, some 3, some 1⟩ = (0, some 0) := by
    simp [sampleEnv, scanNearest, sqDist, fsub, fmul, fadd]
  refine ⟨hq, ?_⟩
  exact (C1_identical_clouds_no_match sampleEnv [⟨some 1, some 2, some 3, some 1⟩]
    sampleEnv_sqrt_zero (by simp)
    (by intro p hp; simp at hp; subst hp; rfl)
    (by intro p hp; simp at hp; subst hp; exact ⟨0, le_refl _, hq⟩)).2.2.1

/-- C2 (counterexample): with the single correspondence entry -1 (`matchCount = 0`) `localize`
does not fail: it returns a dual quaternion whose dual part, obtained by dividing by
`W = 0`, is NaN; and the call of `ICP` on the one-point cloud (1, 2, 3) registered on itself,
whose filter step accepts no match in either iteration, applies that motion to `Trs` twice and
leaves the loop by the convergence `break`. -/
theorem C2_zero_match_counterexample :
    matchCount [-1] = 0 ∧
    localize sampleEnv [⟨some 1, some 2, some 3, some 1⟩] [⟨some 1, some 2, some 3, some 1⟩]
      [-1] = some (nanMotion sampleEnv) ∧
    (nanMotion sampleEnv).d = nanVec ∧
    ICP sampleEnv [⟨some 1, some 2, some 3, some 1⟩] [⟨some 1, some 2, some 3, some 1⟩]
        identity =
      some { state := { source := [⟨some 1, some 2, some 3, some 1⟩]
                        Trs := mmul (sampleEnv.Matrix (nanMotion sampleEnv))
                          (mmul (sampleEnv.Matrix (nanMotion sampleEnv)) identity)
                        Dmax := some 0
                        calls := 0 }
             iters := 2
             exit := Exit.Converged
             ret := some 0 } := by
  have hp : (⟨some 1, some 2, some 3, some 1⟩ : PointXYZ).hasNaN = false := rfl
  have hfix : ([⟨some 1, some 2, some 3, some 1⟩] : PointCloud).map (transformPoint identity) =
      [⟨some 1, some 2, some 3, some 1⟩] := by
    simp [transformPoint_identity _ hp]
  refine ⟨rfl, localize_unmatched _ _ _ _ (by simp), rfl, ?_⟩
  apply ICP_zero_run sampleEnv sampleEnv_sqrt_zero _ _ _ (by simp) hfix
  · rw [sampleEnv_matrix]; exact hfix
  · intro r hr
    simp [nearestSearch, isnan, sampleEnv, scanNearest, sqDist, fsub, fmul, fadd] at hr
    rw [hr]
  · rw [sampleEnv_dt]; simp [flt]
  · rw [sampleEnv_dth]; simp [flt]

/-- C2 (amended): when every entry of `matched` is the unmatched sentinel, `localize` makes no
check and does not fail: it returns the eigenvector selected from the solver's answer for a
matrix `A` whose entries are all NaN, with a dual part whose entries are all NaN; and an
iteration of `ICP` whose filter step accepts no match applies the `Matrix()` of that motion
to every source point and to `Trs` and goes on to the stopping test. -/
theorem C2_zero_match_motion (env : Env) (reference : PointCloud) (s : State)
    (matched : List Int) (Dmax : F) (calls : Nat)
    (hf : filterStep env s.calls (nearestSearch env reference s.source) s.Dmax =
      some (matched, Dmax, calls))
    (h0 : matchCount matched = 0) :
    localize env reference s.source matched =
      some { r := selectEigenvector env nanMat, d := nanVec } ∧
    icpBody env reference s =
      some ({ source := s.source.map (transformPoint (env.Matrix (nanMotion env)))
              Trs := mmul (env.Matrix (nanMotion env)) s.Trs
              Dmax := Dmax
              calls := calls }, nanMotion env) := by
  have hneg : ∀ m ∈ matched, m < 0 := by
    intro m hm
    by_contra hcon
    have : m ∈ matched.filter (fun m => decide (0 ≤ m)) :=
      List.mem_filter.mpr ⟨hm, by simpa using not_lt.mp hcon⟩
    rw [matchCount, List.length_eq_zero] at h0
    rw [h0] at this
    exact absurd this (List.not_mem_nil _)
  have hloc := localize_unmatched env reference s.source matched hneg
  refine ⟨hloc, ?_⟩
  simp only [icpBody, hf, hloc]

/-- C2 (witness): the first iteration of `ICP` on the one-point cloud (1, 2, 3) registered on
itself from the identity prior. -/
theorem C2_zero_match_motion_witness :
    matchCount [-1] = 0 ∧
    localize sampleEnv [⟨some 1, some 2, some 3, some 1⟩]
        (initState [⟨some 1, some 2, some 3, some 1⟩] identity).source [-1] =
      some { r := selectEigenvector sampleEnv nanMat, d := nanVec } := by
  refine ⟨rfl, ?_⟩
  have hq : sampleEnv.nearestKSearch [⟨some 1, some 2, some 3, some 1⟩]
      ⟨some 1, some 2, some 3, some 1⟩ = (0, some 0) := by
    simp [sampleEnv, scanNearest, sqDist, fsub, fmul, fadd]
  have hp : (⟨some 1, some 2, some 3, some 1⟩ : PointXYZ).hasNaN = false := rfl
  have hsrc : (initState [⟨some 1, some 2, some 3, some 1⟩] identity).source =
      [⟨some 1, some 2, some 3, some 1⟩] := by
    simp [initState, transformPoint_identity _ hp]
  have hf : filterStep sampleEnv (initState [⟨some 1, some 2, some 3, some 1⟩] identity).calls
      (nearestSearch sampleEnv [⟨some 1, some 2, some 3, some 1⟩]
        (initState [⟨some 1, some 2, some 3, some 1⟩] identity).source)
      (initState [⟨some 1, some 2, some 3, some 1⟩] identity).Dmax = some ([-1], some 0, 0) := by
    apply filterStep_zero sampleEnv sampleEnv_sqrt_zero
    · rw [hsrc]; simp [nearestSearch]
    · rw [hsrc]
      intro r hr
      simp only [nearestSearch, List.map_cons, List.map_nil, List.mem_singleton] at hr
      rw [hr]
      simp [isnan, hq]
  exact (C2_zero_match_motion sampleEnv [⟨some 1, some 2, some 3, some 1⟩]
    (initState [⟨some 1, some 2, some 3, some 1⟩] identity) [-1] (some 0) 0 hf rfl).1

/-- C3 (counterexample): with an empty reference cloud and a source cloud of one NaN point
(no query is issued for it, so the answer does not depend on the k-d tree), `ICP` reports no
invalid input: it enters the loop, runs the filter step and the solver twice and leaves by
the convergence `break` of the second iteration. -/
theorem C3_empty_reference_counterexample :
    ICP sampleEnv [] [nanPoint] identity =
      some { state := { source := [nanPoint]
                        Trs := mmul (sampleEnv.Matrix (nanMotion sampleEnv))
                          (mmul (sampleEnv.Matrix (nanMotion sampleEnv)) identity)
                        Dmax := some 0
                        calls := 0 }
             iters := 2
             exit := Exit.Converged
             ret := some 0 } := by
  apply ICP_zero_run sampleEnv sampleEnv_sqrt_zero _ _ _ (by simp)
  · exact map_transformPoint_nan identity 1
  · exact map_transformPoint_nan _ 1
  · intro r hr
    rw [show ([nanPoint] : PointCloud) = List.replicate 1 nanPoint from rfl,
      nearestSearch_nan] at hr
    rw [List.eq_of_mem_replicate hr]
  · rw [sampleEnv_dt]; simp [flt]
  · rw [sampleEnv_dth]; simp [flt]

/-- C3 (amended): `ICP` makes no validation of its inputs and the loop is entered whatever the
clouds are: the call is the first loop body run on the entry state, followed by the rest of
the loop. With an empty source cloud that body makes no query, its filter step computes
`mu = 0/0` and reaches `rand() % matched.size()` of `choose_xi` with size 0, so the call has
no defined result. Every call that returns (also with an empty reference cloud) has run the
nearest-neighbour search, the filter step and the solver at least twice. -/
theorem C3_no_input_validation (env : Env) (reference source : PointCloud) (Trs : Mat4) :
    ICP env reference source Trs =
      (match icpBody env reference (initState source Trs) with
       | none => none
       | some (s, _) => icpLoop env reference (MAX_ITER - 1) 1 s) ∧
    (source = [] → ICP env reference source Trs = none) ∧
    (∀ r, ICP env reference source Trs = some r →
      2 ≤ r.iters ∧ icpBody env reference (initState source Trs) ≠ none) := by
  have hunf : ICP env reference source Trs =
      (match icpBody env reference (initState source Trs) with
       | none => none
       | some (s, _) => icpLoop env reference (MAX_ITER - 1) 1 s) := by
    have hfuel : MAX_ITER = (MAX_ITER - 1) + 1 := rfl
    unfold ICP
    conv_lhs => rw [hfuel, icpLoop]
    cases icpBody env reference (initState source Trs) with
    | none => rfl
    | some res => simp [stopTest]
  refine ⟨hunf, ?_, ?_⟩
  · intro h
    rw [hunf, icpBody_empty env reference _ (by simp [initState, h])]
  · intro r hr
    refine ⟨(icpLoop_iters env reference MAX_ITER 0 _ r hr).2.2 rfl (by decide), ?_⟩
    intro hb
    rw [hunf, hb] at hr
    exact absurd hr (by simp)

/-- C3 (witness): with both clouds empty the call has no defined result. -/
theorem C3_no_input_validation_witness :
    ([] : PointCloud) = [] ∧ ICP sampleEnv [] [] identity = none :=
  ⟨rfl, (C3_no_input_validation sampleEnv [] [] identity).2.1 rfl⟩

/-- C4: after one filter step of `ICP` (pass 1, the update of `Dmax`, pass 2), `matched` has
one entry per source index, `matched[i]` is the nearest reference index of `i` if
`distance[i] < new Dmax` and -1 otherwise, so an accepted entry (one that is not negative)
never has a distance at or above the new `Dmax`; and the step returns whenever `mu < 6 D`
(in the last case it returns whenever `choose_xi` does). -/
theorem C4_filter_monotonicity (env : Env) (calls : Nat) (nearest : List (Int × F))
    (Dmax : F) :
    (flt (pass1Mu Dmax nearest) (fmul (some 6) D) = true →
      ∃ res, filterStep env calls nearest Dmax = some res) ∧
    (∀ matched Dmax' calls', filterStep env calls nearest Dmax = some (matched, Dmax', calls') →
      matched.length = nearest.length ∧
      ∀ i (hi : i < nearest.length),
        matched[i]? = some (if flt nearest[i].2 Dmax' = true then nearest[i].1 else -1) ∧
        (∀ m, matched[i]? = some m → 0 ≤ m →
          flt nearest[i].2 Dmax' = true ∧
          ¬ ∃ d b : ℚ, nearest[i].2 = some d ∧ Dmax' = some b ∧ b ≤ d)) := by
  constructor
  · intro h
    unfold filterStep updateDmax
    split_ifs
    · exact ⟨_, rfl⟩
    · exact ⟨_, rfl⟩
    · exact ⟨_, rfl⟩
  · intro matched Dmax' calls' hf
    unfold filterStep at hf
    cases hu : updateDmax env calls (nearest.map Prod.snd) (matchPass Dmax nearest)
        (pass1Mu Dmax nearest) (pass1Sigma env Dmax nearest) with
    | none => rw [hu] at hf; exact absurd hf (by simp)
    | some res =>
      obtain ⟨D1, c1⟩ := res
      rw [hu] at hf
      simp only [Option.some.injEq, Prod.mk.injEq] at hf
      obtain ⟨rfl, rfl, rfl⟩ := hf
      refine ⟨matchPass_length _ _, fun i hi => ⟨matchPass_getElem? _ _ i hi, ?_⟩⟩
      intro m hm h0
      rw [matchPass_getElem? _ _ i hi] at hm
      have hlt : flt nearest[i].2 D1 = true := by
        by_contra hcon
        rw [if_neg hcon] at hm
        simp only [Option.some.injEq] at hm
        omega
      refine ⟨hlt, ?_⟩
      rintro ⟨d, b, hd, hb, hle⟩
      rw [hd, hb] at hlt
      simp only [flt, decide_eq_true_eq] at hlt
      exact absurd hlt (not_lt.mpr hle)

/-- C4 (witness): the distances 0 and 80 with `Dmax = 200` give `mu = 40`, `sigma = 40` and the
new `Dmax = 80`; index 0 is accepted and index 1, whose distance is not below 80, is
rejected. -/
theorem C4_filter_monotonicity_witness :
    filterStep sampleEnv 0 [(5, some 0), (7, some 80)] (some 200) = some ([5, -1], some 80, 0) ∧
    ([5, -1] : List Int).length = [((5 : Int), (some 0 : F)), (7, some 80)].length := by
  have hsq : Nat.sqrt 1600 = 40 := Nat.sqrt_eq 40
  have hf : filterStep sampleEnv 0 [(5, some 0), (7, some 80)] (some 200) =
      some ([5, -1], some 80, 0) := by
    have hmu : pass1Mu (some 200) [((5 : Int), (some 0 : F)), (7, some 80)] = some 40 := by
      simp [pass1Mu, sumMu, flt, fadd, fdiv]; norm_num
    have hsig : pass1Sigma sampleEnv (some 200) [((5 : Int), (some 0 : F)), (7, some 80)] =
        some 40 := by
      simp [pass1Sigma, hmu, sumSigma, flt, fadd, fmul, fdiv, fsub, fsqrt, sampleEnv]
      have ht : Int.toNat 1600 = 1600 := rfl
      norm_num
      rw [ht, hsq]; norm_num
    simp [filterStep, hmu, hsig, updateDmax, flt, D, fmul, fadd, matchPass]
    norm_num
  exact ⟨hf, ((C4_filter_monotonicity sampleEnv 0 [(5, some 0), (7, some 80)] (some 200)).2
    _ _ _ hf).1⟩

/-- C8: a source point with a NaN among its floats is NaN in every float once the prior has
been applied and stays so in every iteration of `ICP`; in every iteration that is reached its
nearest-neighbour entry is (-1, 0) whatever the k-d tree is (no query is issued for it), its
entry of the correspondence set given to the solver is -1, and `localize` and `matchCount`
give what they give when that index is removed from the source cloud and from `matched`. -/
theorem C8_nan_points_never_matched (env : Env) (reference source : PointCloud) (Trs : Mat4)
    (k : Nat) (s : State)
    (hk : iterState env reference (initState source Trs) k = some s)
    (i : Nat) (hi : i < source.length) (hnan : source[i].hasNaN = true) :
    s.source[i]? = some nanPoint ∧
    (∀ kd, (nearestSearch { env with nearestKSearch := kd } reference s.source)[i]? =
      some (-1, some 0)) ∧
    (∀ matched Dmax calls,
      filterStep env s.calls (nearestSearch env reference s.source) s.Dmax =
        some (matched, Dmax, calls) →
      matched[i]? = some (-1) ∧
      localize env reference s.source matched =
        localize env reference (s.source.eraseIdx i) (matched.eraseIdx i) ∧
      matchCount matched = matchCount (matched.eraseIdx i)) := by
  have hsrc := iterState_source_nan env reference source Trs i hi hnan k s hk
  refine ⟨hsrc, fun kd => nearestSearch_getElem?_nan _ reference s.source i hsrc, ?_⟩
  intro matched Dmax calls hf
  have hm : matched[i]? = some (-1) := by
    rw [filterStep_matched env _ _ _ _ _ _ hf]
    simp [matchPass, nearestSearch_getElem?_nan env reference s.source i hsrc]
  refine ⟨hm, ?_, matchCount_eraseIdx matched i (-1) hm (by decide)⟩
  simp only [localize, accLoop_eraseIdx env reference i matched s.source _ (-1) hm (by decide)]

/-- C8 (witness): the source point (1, NaN, 3), whose `x` is a number, after one iteration of
`ICP` from the identity prior. -/
theorem C8_nan_points_never_matched_witness :
    (⟨some 1, none, some 3, some 1⟩ : PointXYZ).hasNaN = true ∧
    ∃ s, iterState sampleEnv [] (initState [⟨some 1, none, some 3, some 1⟩] identity) 1 =
        some s ∧
      s.source[0]? = some nanPoint ∧
      (nearestSearch sampleEnv [] s.source)[0]? = some (-1, some 0) := by
  refine ⟨rfl, ?_⟩
  have hinit : initState [⟨some 1, none, some 3, some 1⟩] identity =
      initState (List.replicate (0 + 1) nanPoint) identity := by
    simp [initState, transformPoint_hasNaN]
    rfl
  obtain ⟨s, hs, _, _⟩ := iterState_nan sampleEnv sampleEnv_sqrt_zero [] 0 identity 1
  rw [← hinit] at hs
  have h := C8_nan_points_never_matched sampleEnv [] [⟨some 1, none, some 3, some 1⟩] identity
    1 s hs 0 (by simp) rfl
  exact ⟨s, hs, h.1, h.2.1 sampleEnv.nearestKSearch⟩

/-- C10: the update of `Dmax` in `ICP`, with `D = 10`: for a real `mu` the new `Dmax` is
`mu + 3*sigma` if `mu < 10`, `mu + 2*sigma` if `10 <= mu < 30`, `mu + sigma` if
`30 <= mu < 60`, and the result of `choose_xi` if `mu >= 60`; exactly one of the four cases
applies; the filter step uses this update with the `mu` and `sigma` of pass 1, and two values
of the previous `Dmax` that give the same `mu` and `sigma` give the same filter step. -/
theorem C10_dmax_update_rule (env : Env) (calls : Nat) (nearest : List (Int × F))
    (matched : List Int) (mu : ℚ) (sigma : F) :
    D = some 10 ∧
    (mu < 10 → updateDmax env calls (nearest.map Prod.snd) matched (some mu) sigma =
      some (fadd (some mu) (fmul (some 3) sigma), calls)) ∧
    (10 ≤ mu → mu < 30 → updateDmax env calls (nearest.map Prod.snd) matched (some mu) sigma =
      some (fadd (some mu) (fmul (some 2) sigma), calls)) ∧
    (30 ≤ mu → mu < 60 → updateDmax env calls (nearest.map Prod.snd) matched (some mu) sigma =
      some (fadd (some mu) sigma, calls)) ∧
    (60 ≤ mu → updateDmax env calls (nearest.map Prod.snd) matched (some mu) sigma =
      (choose_xi (fun n => env.rand (calls + n)) (nearest.map Prod.snd) matched).map
        (fun Dmax => (Dmax, calls + 100))) ∧
    ((mu < 10 ∧ ¬ (10 ≤ mu ∧ mu < 30) ∧ ¬ (30 ≤ mu ∧ mu < 60) ∧ ¬ 60 ≤ mu) ∨
     (¬ mu < 10 ∧ (10 ≤ mu ∧ mu < 30) ∧ ¬ (30 ≤ mu ∧ mu < 60) ∧ ¬ 60 ≤ mu) ∨
     (¬ mu < 10 ∧ ¬ (10 ≤ mu ∧ mu < 30) ∧ (30 ≤ mu ∧ mu < 60) ∧ ¬ 60 ≤ mu) ∨
     (¬ mu < 10 ∧ ¬ (10 ≤ mu ∧ mu < 30) ∧ ¬ (30 ≤ mu ∧ mu < 60) ∧ 60 ≤ mu)) ∧
    (∀ Dmax : F, filterStep env calls nearest Dmax =
      (updateDmax env calls (nearest.map Prod.snd) (matchPass Dmax nearest)
        (pass1Mu Dmax nearest) (pass1Sigma env Dmax nearest)).map
        (fun u => (matchPass u.1 nearest, u.1, u.2))) ∧
    (∀ Dmax1 Dmax2 : F, pass1Mu Dmax1 nearest = pass1Mu Dmax2 nearest →
      pass1Sigma env Dmax1 nearest = pass1Sigma env Dmax2 nearest →
      filterStep env calls nearest Dmax1 = filterStep env calls nearest Dmax2) := by
  have hD3 : fmul (some 3) (some (10 : ℚ)) = some 30 := by simp [fmul]; norm_num
  have hD6 : fmul (some 6) (some (10 : ℚ)) = some 60 := by simp [fmul]; norm_num
  have hupd : ∀ (m1 m2 : List Int) (a b : F), m1.length = m2.length →
      updateDmax env calls (nearest.map Prod.snd) m1 a b =
        updateDmax env calls (nearest.map Prod.snd) m2 a b := by
    intro m1 m2 a b h
    simp only [updateDmax, choose_xi_length _ _ m1 m2 h]
  refine ⟨rfl, ?_, ?_, ?_, ?_, ?_, ?_, ?_⟩
  · intro h
    simp [updateDmax, flt, D, h]
  · intro h1 h2
    simp [updateDmax, hD3, flt, D, not_lt.mpr h1, h2]
  · intro h1 h2
    have h3 : ¬ mu < 10 := by linarith
    have h4 : ¬ mu < 30 := by linarith
    simp [updateDmax, hD3, hD6, flt, D, h3, h4, h2]
  · intro h1
    have h3 : ¬ mu < 10 := by linarith
    have h4 : ¬ mu < 30 := by linarith
    have h5 : ¬ mu < 60 := by linarith
    simp [updateDmax, hD3, hD6, flt, D, h3, h4, h5]
  · by_cases h1 : mu < 10
    · left; exact ⟨h1, by intro h; linarith [h.1], by intro h; linarith [h.1], by linarith⟩
    · by_cases h2 : mu < 30
      · right; left
        exact ⟨h1, ⟨not_lt.mp h1, h2⟩, by intro h; linarith [h.1], by linarith⟩
      · by_cases h3 : mu < 60
        · right; right; left
          exact ⟨h1, by intro h; exact h2 h.2, ⟨not_lt.mp h2, h3⟩, by linarith⟩
        · right; right; right
          exact ⟨h1, by intro h; exact h2 h.2, by intro h; exact h3 h.2, not_lt.mp h3⟩
  · intro Dmax
    unfold filterStep
    cases updateDmax env calls (nearest.map Prod.snd) (matchPass Dmax nearest)
      (pass1Mu Dmax nearest) (pass1Sigma env Dmax nearest) <;> rfl
  · intro Dmax1 Dmax2 hmu hsig
    unfold filterStep
    rw [hmu, hsig, hupd (matchPass Dmax1 nearest) (matchPass Dmax2 nearest) _ _
      (by rw [matchPass_length, matchPass_length])]

/-- C10 (witness): `mu = 40` lies in the third case, and with `sigma = 40` the new `Dmax` is
80. -/
theorem C10_dmax_update_rule_witness :
    (30 : ℚ) ≤ 40 ∧ (40 : ℚ) < 60 ∧
    updateDmax sampleEnv 0 (([] : List (Int × F)).map Prod.snd) [] (some 40) (some 40) =
      some (some 80, 0) := by
  have h := (C10_dmax_update_rule sampleEnv 0 [] [] 40 (some 40)).2.2.2.1
    (by norm_num) (by norm_num)
  refine ⟨by norm_num, by norm_num, ?_⟩
  rw [h]
  simp [fadd]; norm_num
/-- C11 (counterexample): with the distances 0 and 300 and `Dmax = 200` (its value in the first
iteration), pass 1 leaves the rejected distance 300 out of the sums: over exact arithmetic and
as the code computes it, `mu = 0`, whereas the mean of the two distances is 150. And as the
code computes it, the `mu` of three equal distances `0x1.df3b64p-4`, all accepted, is not
their mean, the distance itself, but one unit in the last place above it. -/
theorem C11_pass1_counterexample :
    pass1Mu (some 200) [(0, some 0), (1, some 300)] = some 0 ∧
    pass1Sigma sampleEnv (some 200) [(0, some 0), (1, some 300)] = some 0 ∧
    pass1Mu32 (some 200) [(0, some 0), (1, some 300)] = some 0 ∧
    ((0 : ℚ) + 300) / 2 = 150 ∧ (some 0 : F) ≠ some 150 ∧
    pass1Mu32 (some 200) [(0, some (7851737 / 67108864)), (1, some (7851737 / 67108864)), (2,
        some (7851737 / 67108864))] = some (15703475 / 134217728) ∧
    (((7851737 / 67108864) : ℚ) + (7851737 / 67108864) + (7851737 / 67108864)) / 3 = (7851737 /
        67108864) ∧
    (some (15703475 / 134217728) : F) ≠ some (7851737 / 67108864) := by
  have hmu : pass1Mu (some 200) [((0 : Int), (some 0 : F)), (1, some 300)] = some 0 := by
    norm_num [pass1Mu, sumMu, flt, fadd, fdiv]
  have c0 : flt (some 0) (some 200) = true := by
    simp only [flt, decide_eq_true_eq]; norm_num
  have c1 : flt (some 300) (some 200) = false := by
    simp only [flt, decide_eq_false_iff_not]; norm_num
  have a0 : fadd32 (some 0) (some 0) = some 0 := by
    simp [fadd32, fadd, fl32_zero]
  have hn : fl32 (some 2) = some 2 :=
    fl32_eval _ _ (1 / 4194304) 8388608 (-22) (by norm_num) (by norm_num) (by norm_num)
      (by norm_num) (by norm_num) (by norm_num) (by norm_num) (by norm_num)
  have hlen : (([(0, some 0), (1, some 300)] : List (Int × F)).length : ℚ) = 2 := by norm_num
  have hs : sumMu32 (some 200) [(0, some 0), (1, some 300)] = some 0 := by
    simp only [sumMu32, List.foldl_cons, List.foldl_nil, c0, c1, if_true, a0,
      Bool.false_eq_true, if_false]
  have hq : fdiv32 (some 0) (some 2) = some 0 := by
    rw [fdiv32_some _ _ (by norm_num)]
    norm_num
    exact fl32_zero
  have hmu32 : pass1Mu32 (some 200) [(0, some 0), (1, some 300)] = some 0 := by
    simp only [pass1Mu32, hs, hlen, hn, hq]
  refine ⟨hmu, ?_, hmu32, by norm_num, by simp, equalRun_mu, by norm_num, ?_⟩
  · norm_num [pass1Sigma, hmu, sumSigma, flt, fadd, fmul, fdiv, fsub, fsqrt, sampleEnv]
  · intro h
    have := Option.some.inj h
    norm_num at this

/-- C11 (amended): for every non-empty list of nearest-neighbour results and every current
`Dmax`, the `mu` of pass 1 is the sum of the distances of the accepted indices (those with
`d_i < Dmax`) divided by the number `N` of source indices, and `sigma` is the square root of
(the sum of `d_i^2` over the accepted indices) / `N` minus `mu^2`, the divisor being `N` and
not the number of accepted matches. As the code computes them, the sums run in index order and
every sum, product, quotient and difference is rounded to `float`. Over exact arithmetic `mu`
and `sigma` are these quantities exactly, and when every distance is below `Dmax` they are the
mean and the standard deviation over all `N` source indices. -/
theorem C11_pass1_statistics (env : Env) (Dmax : F) (nearest : List (Int × F))
    (hne : nearest ≠ []) :
    (pass1Mu32 Dmax nearest =
        fdiv32 (((nearest.filter (fun r => flt r.2 Dmax)).map Prod.snd).foldl fadd32 (some 0))
          (fl32 (some (nearest.length : ℚ))) ∧
      pass1Sigma32 env Dmax nearest =
        fl32 (fsqrt env (fsub32
          (fdiv32 (((nearest.filter (fun r => flt r.2 Dmax)).map Prod.snd).foldl
              (fun sigma d => fadd32 sigma (fmul32 d d)) (some 0))
            (fl32 (some (nearest.length : ℚ))))
          (fmul32 (pass1Mu32 Dmax nearest) (pass1Mu32 Dmax nearest))))) ∧
    pass1Mu Dmax nearest =
      some (((nearest.filter (fun r => flt r.2 Dmax)).map (fun r => r.2.getD 0)).sum /
        (nearest.length : ℚ)) ∧
    pass1Sigma env Dmax nearest =
      env.sqrt (((nearest.filter (fun r => flt r.2 Dmax)).map
          (fun r => r.2.getD 0 * r.2.getD 0)).sum / (nearest.length : ℚ) -
        ((nearest.filter (fun r => flt r.2 Dmax)).map (fun r => r.2.getD 0)).sum /
            (nearest.length : ℚ) *
          (((nearest.filter (fun r => flt r.2 Dmax)).map (fun r => r.2.getD 0)).sum /
            (nearest.length : ℚ))) ∧
    ((∀ r ∈ nearest, flt r.2 Dmax = true) →
      pass1Mu Dmax nearest =
        some ((nearest.map (fun r => r.2.getD 0)).sum / (nearest.length : ℚ)) ∧
      pass1Sigma env Dmax nearest =
        env.sqrt ((nearest.map (fun r => r.2.getD 0 * r.2.getD 0)).sum / (nearest.length : ℚ) -
          (nearest.map (fun r => r.2.getD 0)).sum / (nearest.length : ℚ) *
            ((nearest.map (fun r => r.2.getD 0)).sum / (nearest.length : ℚ)))) := by
  have hn : (nearest.length : ℚ) ≠ 0 := by
    have : nearest.length ≠ 0 := fun h => hne (List.length_eq_zero.mp h)
    exact_mod_cast this
  have hmu : pass1Mu Dmax nearest =
      some (((nearest.filter (fun r => flt r.2 Dmax)).map (fun r => r.2.getD 0)).sum /
        (nearest.length : ℚ)) := by
    simp only [pass1Mu, sumMu_eq, fdiv, hn, if_false]
  have hsig : pass1Sigma env Dmax nearest =
      env.sqrt (((nearest.filter (fun r => flt r.2 Dmax)).map
          (fun r => r.2.getD 0 * r.2.getD 0)).sum / (nearest.length : ℚ) -
        ((nearest.filter (fun r => flt r.2 Dmax)).map (fun r => r.2.getD 0)).sum /
            (nearest.length : ℚ) *
          (((nearest.filter (fun r => flt r.2 Dmax)).map (fun r => r.2.getD 0)).sum /
            (nearest.length : ℚ))) := by
    simp only [pass1Sigma, hmu, sumSigma_eq, fdiv, hn, if_false, fmul, fsub, fsqrt]
  refine ⟨⟨?_, ?_⟩, hmu, hsig, fun hall => ?_⟩
  · simp only [pass1Mu32, sumMu32_eq]
  · simp only [pass1Sigma32, pass1Arg32, sumSigma32_eq]
  · have hfil : nearest.filter (fun r => flt r.2 Dmax) = nearest :=
      List.filter_eq_self.mpr hall
    rw [hfil] at hmu hsig
    exact ⟨hmu, hsig⟩

/-- C11 (witness): the distances 0 and 80 with `Dmax = 200`, both accepted: `mu = 40`, over
exact arithmetic and as the code computes it. -/
theorem C11_pass1_statistics_witness :
    [((5 : Int), (some 0 : F)), (7, some 80)] ≠ [] ∧
    pass1Mu (some 200) [(5, some 0), (7, some 80)] = some 40 ∧
    pass1Mu32 (some 200) [(5, some 0), (7, some 80)] = some 40 := by
  obtain ⟨⟨h32, _⟩, hex, _, _⟩ :=
    C11_pass1_statistics sampleEnv (some 200) [(5, some 0), (7, some 80)] (by simp)
  refine ⟨by simp, ?_, ?_⟩
  · rw [hex]
    simp [flt]
    norm_num
  · rw [h32]
    have c0 : flt (some 0) (some 200) = true := by
      simp only [flt, decide_eq_true_eq]; norm_num
    have c1 : flt (some 80) (some 200) = true := by
      simp only [flt, decide_eq_true_eq]; norm_num
    have a0 : fadd32 (some 0) (some 0) = some 0 := by
      simp [fadd32, fadd, fl32_zero]
    have a1 : fadd32 (some 0) (some 80) = some 80 :=
      fl32_eval _ _ (1 / 131072) 10485760 (-17) (by norm_num) (by norm_num) (by norm_num)
          (by norm_num) (by norm_num) (by norm_num) (by norm_num) (by norm_num)
    have hn : fl32 (some 2) = some 2 :=
      fl32_eval _ _ (1 / 4194304) 8388608 (-22) (by norm_num) (by norm_num) (by norm_num)
          (by norm_num) (by norm_num) (by norm_num) (by norm_num) (by norm_num)
    have hlen : (([(5, some 0), (7, some 80)] : List (Int × F)).length : ℚ) = 2 := by
      norm_num
    have hq : fdiv32 (some 80) (some 2) = some 40 :=
      (fdiv32_some _ _ (by norm_num)).trans
        (fl32_eval _ _ (1 / 262144) 10485760 (-18) (by norm_num) (by norm_num) (by norm_num)
            (by norm_num) (by norm_num) (by norm_num) (by norm_num) (by norm_num))
    simp only [List.filter_cons, c0, c1, if_true, List.filter_nil, List.map_cons, List.map_nil,
      List.foldl_cons, List.foldl_nil, a0, a1, hlen, hn, hq]

/-- C13 (counterexample): as the code computes it, the distance `d = 0x1.f80f0cp+5`, which is
below `max = 0x1.f80f0ep+5` and not below `24 * max / 25`, is counted in counter 25 and not in
counter 24: the `float` product `25 * d` and its `float` quotient by `max` round up to `25`.
And for the distance `2^125`, below `max = 2^126`, the product `25 * d` overflows and no bin
index within 0..25 is computed. -/
theorem C13_histogram_counterexample :
    (24 * (16516999 / 262144) / 25 : ℚ) ≤ 8258499 / 131072 ∧
    (8258499 / 131072 : ℚ) < 25 * (16516999 / 262144) / 25 ∧
    ¬ ((16516999 / 262144 : ℚ) ≤ 8258499 / 131072) ∧
    binOf32 (some (16516999 / 262144)) (some (8258499 / 131072)) = some 25 ∧
    histogram32 [some (8258499 / 131072)] 1 (some (16516999 / 262144)) =
      some [0, 0, 0, 0, 0, 0, 0, 0, 0, 0, 0, 0, 0, 0, 0, 0, 0, 0, 0, 0, 0, 0, 0, 0, 0, 1] ∧
    (42535295865117307932921825928971026432 : ℚ) <
      85070591730234615865843651857942052864 ∧
    binOf32 (some 85070591730234615865843651857942052864)
      (some 42535295865117307932921825928971026432) = none ∧
    histogram32 [some 42535295865117307932921825928971026432] 1
      (some 85070591730234615865843651857942052864) = none := by
  refine ⟨by norm_num, by norm_num, by norm_num, binOf32_edge, ?_, by norm_num, binOf32_large,
    ?_⟩
  · refine (histogram32_eq_histLoop32 _ _ _ rfl).trans ?_
    rw [histLoop32_cons _ _ _ _ _ binOf32_edge]
    rfl
  · refine (histogram32_eq_histLoop32 _ _ _ rfl).trans ?_
    exact histLoop32_undefined _ _ _ ⟨_, List.mem_singleton.mpr rfl, binOf32_large⟩

/-- C13 (amended): over exact arithmetic, for every list of `N` non-negative distances and
every `max > 0`, the histogram of `choose_xi` is defined and has 26 counters whose sum is `N`;
for every `k < 25`, counter `k` is the number of distances `d` with
`k * max / 25 <= d < (k + 1) * max / 25`, counter 25 is the number of distances `d >= max`,
and every bin index is within 0..25. As the code computes it in `float` arithmetic, the
histogram is defined exactly when every distance has a computed index within 0..25, which is
the case when `2^-126 <= max <= 2^127 / 25`; it then has 26 counters whose sum is `N`, counter
`k` is the number of distances whose computed index is `k`, a distance above `max` has the
computed index 25, and for `max` between `2^-120` and `2^120` a distance `d` whose computed
index is `k` lies between the bin edges up to the rounding error:
`k * max * (1 - 2^-22) <= 25 * d`, and `25 * d * (1 - 2^-24) < (k + 1) * max` when `k < 25`. -/
theorem C13_histogram_construction (ds : List ℚ) (max : ℚ) (hmax : 0 < max)
    (hnn : ∀ d ∈ ds, 0 ≤ d) :
    (∃ counts, histogram (ds.map some) ds.length (some max) = some counts ∧
      counts.length = 26 ∧ counts.sum = ds.length ∧
      (∀ k, k < 25 → counts.getD k 0 =
        ds.countP (fun d => decide ((k : ℚ) * max / 25 ≤ d ∧ d < ((k : ℚ) + 1) * max / 25))) ∧
      counts.getD 25 0 = ds.countP (fun d => decide (max ≤ d)) ∧
      ∀ d ∈ ds, ∃ k, k ≤ 25 ∧ binOf (some max) (some d) = some k) ∧
    (((∃ counts, histogram32 (ds.map some) ds.length (some max) = some counts) ↔
        ∀ d ∈ ds, ∃ k, k ≤ 25 ∧ binOf32 (some max) (some d) = some k) ∧
      (1 / 85070591730234615865843651857942052864 ≤ max →
        25 * max ≤ 170141183460469231731687303715884105728 →
        ∃ counts, histogram32 (ds.map some) ds.length (some max) = some counts) ∧
      (∀ counts, histogram32 (ds.map some) ds.length (some max) = some counts →
        counts.length = 26 ∧ counts.sum = ds.length ∧
        ∀ k, k ≤ 25 → counts.getD k 0 =
          ds.countP (fun d => decide (binOf32 (some max) (some d) = some k))) ∧
      (∀ d ∈ ds, max < d → binOf32 (some max) (some d) = some 25) ∧
      (1 / 1329227995784915872903807060280344576 ≤ max →
        max ≤ 1329227995784915872903807060280344576 →
        ∀ d ∈ ds, ∀ k, binOf32 (some max) (some d) = some k →
          (k : ℚ) * max * (1 - 1 / 4194304) ≤ 25 * d ∧
          (k < 25 → 25 * d * (1 - 1 / 16777216) < ((k : ℚ) + 1) * max))) := by
  have hfin : ∀ d ∈ ds.map some, ∃ q : ℚ, 0 ≤ q ∧ d = some q := by
    intro d hd
    obtain ⟨q, hq, rfl⟩ := List.mem_map.mp hd
    exact ⟨q, hnn q hq, rfl⟩
  refine ⟨?_, ?_, ?_, ?_, ?_, ?_⟩
  · obtain ⟨counts, hc, hl⟩ := histogram_defined max hmax (ds.map some) ds.length (by simp) hfin
    have hloop : histLoop (some max) (ds.map some) (List.replicate (num_bins + 1) 0) =
        some counts := by
      rw [← histogram_eq_histLoop (ds.map some) ds.length (some max) (by simp)]; exact hc
    obtain ⟨_, hsum, hcount⟩ := histLoop_count (some max) (ds.map some) _ counts hloop
    have hnb : (num_bins : ℚ) = 25 := by norm_num [num_bins]
    have hget : ∀ k, k < 26 → counts.getD k 0 =
        ds.countP (fun d => decide (binOf (some max) (some d) = some k)) := by
      intro k hk
      have h := hcount k (by simpa [num_bins] using hk)
      have h0 : (List.replicate (num_bins + 1) 0).getD k 0 = 0 := by
        simp only [List.getD_eq_getElem?_getD, List.getElem?_replicate]
        split_ifs <;> rfl
      rw [h, h0, List.countP_map, Nat.zero_add]
      rfl
    refine ⟨counts, hc, by simpa [num_bins] using hl, ?_, ?_, ?_, ?_⟩
    · have := hsum (by simp)
      simpa using this
    · intro k hk
      rw [hget k (by omega)]
      apply List.countP_congr
      intro d hd
      simp only [decide_eq_true_eq]
      rw [binOf_iff max d k hmax (hnn d hd), hnb]
      have hk' : k < num_bins := by simpa [num_bins] using hk
      have hk'' : k ≠ num_bins := ne_of_lt hk'
      constructor
      · rintro (⟨_, h1, h2⟩ | ⟨h1, _⟩)
        · exact ⟨by rw [div_le_iff₀ (by norm_num)]; linarith,
            by rw [lt_div_iff₀ (by norm_num)]; linarith⟩
        · exact absurd h1 hk''
      · rintro ⟨h1, h2⟩
        left
        rw [div_le_iff₀ (by norm_num)] at h1
        rw [lt_div_iff₀ (by norm_num)] at h2
        exact ⟨hk', by linarith, by linarith⟩
    · rw [hget 25 (by omega)]
      apply List.countP_congr
      intro d hd
      simp only [decide_eq_true_eq]
      rw [binOf_iff max d 25 hmax (hnn d hd)]
      constructor
      · rintro (⟨h1, _⟩ | ⟨_, h2⟩)
        · simp [num_bins] at h1
        · exact h2
      · intro h; exact Or.inr ⟨rfl, h⟩
    · intro d hd
      obtain ⟨k, hk, hle⟩ := binOf_defined max d hmax (hnn d hd)
      exact ⟨k, by simpa [num_bins] using hle, hk⟩
  · rw [histogram32_eq_histLoop32 (ds.map some) ds.length (some max) (by simp)]
    constructor
    · rintro ⟨counts, hc⟩ d hd
      cases hb : binOf32 (some max) (some d) with
      | none =>
        have := histLoop32_undefined (some max) (ds.map some) (List.replicate (num_bins + 1) 0)
          ⟨some d, List.mem_map.mpr ⟨d, hd, rfl⟩, hb⟩
        rw [this] at hc; simp at hc
      | some k => exact ⟨k, by simpa [num_bins] using binOf32_le _ _ k hb, rfl⟩
    · intro h
      apply histLoop32_defined
      intro d hd
      obtain ⟨q, hq, rfl⟩ := List.mem_map.mp hd
      obtain ⟨k, _, hk⟩ := h q hq
      exact ⟨k, hk⟩
  · intro h1 h2
    exact histogram32_defined max h1 h2 (ds.map some) ds.length (by simp) hfin
  · intro counts hc
    rw [histogram32_eq_histLoop32 (ds.map some) ds.length (some max) (by simp)] at hc
    obtain ⟨hl, hsum, hcount⟩ := histLoop32_count (some max) (ds.map some) _ counts hc
    refine ⟨by simpa [num_bins] using hl, ?_, ?_⟩
    · have := hsum (by simp)
      simpa using this
    · intro k hk
      have h := hcount k (by simp [num_bins]; omega)
      have h0 : (List.replicate (num_bins + 1) 0).getD k 0 = 0 := by
        simp only [List.getD_eq_getElem?_getD, List.getElem?_replicate]
        split_ifs <;> rfl
      rw [h, h0, List.countP_map, Nat.zero_add]
      rfl
  · intro d _ hd
    exact binOf32_overflow max d hd
  · intro h1 h2 d hd k hk
    exact binOf32_edges max d k h1 h2 (hnn d hd) hk

/-- C13 (witness): the distance `0x1.f80f0cp+5` with `max = 0x1.f80f0ep+5`: over exact
arithmetic it is counted in counter 24; as computed the histogram is defined, its counters sum
to 1 and the distance is counted in counter 25. -/
theorem C13_histogram_construction_witness :
    (0 : ℚ) < 16516999 / 262144 ∧
    (∃ counts, histogram (([8258499 / 131072] : List ℚ).map some)
        ([8258499 / 131072] : List ℚ).length (some (16516999 / 262144)) = some counts ∧
      counts.sum = 1 ∧ counts.getD 24 0 = 1) ∧
    ∃ counts, histogram32 (([8258499 / 131072] : List ℚ).map some)
        ([8258499 / 131072] : List ℚ).length (some (16516999 / 262144)) = some counts ∧
      counts.sum = 1 ∧ counts.getD 25 0 = 1 := by
  obtain ⟨⟨counts, h1, _, h3, h4, _, _⟩, _, hdef, hcount, _, _⟩ :=
    C13_histogram_construction [8258499 / 131072] (16516999 / 262144) (by norm_num)
      (by intro d hd; simp at hd; subst hd; norm_num)
  refine ⟨by norm_num, ⟨counts, h1, h3, ?_⟩, ?_⟩
  · rw [h4 24 (by norm_num)]
    simp only [List.countP_cons, List.countP_nil]
    norm_num
  · obtain ⟨counts32, hc⟩ := hdef (by norm_num) (by norm_num)
    obtain ⟨_, hs, hk⟩ := hcount counts32 hc
    refine ⟨counts32, hc, hs, ?_⟩
    rw [hk 25 (le_refl _)]
    simp [List.countP_cons, binOf32_edge]

/-- C15: whenever the eigen solver returns at least one eigenvalue that is a number, `localize`
uses the eigenvector of a returned pair whose eigenvalue is largest: the selected eigenvalue
is `>=` every returned eigenvalue that is a number (a NaN eigenvalue is never selected), and
it is strictly greater than every such eigenvalue at a lower index, so that on ties the
lowest-indexed pair is selected. -/
theorem C15_eigenvector_selection (env : Env) (reference source : PointCloud)
    (matched : List Int) (acc : Acc)
    (hacc : accLoop env reference source matched ⟨mzero, mzero, some 0⟩ = some acc)
    (hfin : ∃ e ∈ env.eigen (solverMatrix acc), e.1 ≠ none) :
    ∃ (i : Nat) (m : ℚ) (v : Vec4) (T : DualQuat),
      (env.eigen (solverMatrix acc))[i]? = some (some m, v) ∧
      localize env reference source matched = some T ∧ T.r = v ∧
      (∀ (j : Nat) (x : ℚ) (w : Vec4),
        (env.eigen (solverMatrix acc))[j]? = some (some x, w) → x ≤ m) ∧
      (∀ (j : Nat) (x : ℚ) (w : Vec4), j < i →
        (env.eigen (solverMatrix acc))[j]? = some (some x, w) → x < m) := by
  obtain ⟨i, m, v, hi, hsel, hmax, hlow⟩ := selectEigenvector_max env (solverMatrix acc) hfin
  exact ⟨i, m, v, _, hi, localize_of_accLoop env reference source matched acc hacc, hsel,
    hmax, hlow⟩

/-- C15 (witness): for the eigenvalues 1, 2, NaN, 2 the selected pair is the one of index 1,
the first of the two pairs with the largest eigenvalue 2. -/
theorem C15_eigenvector_selection_witness :
    accLoop tieEnv [] [] [] ⟨mzero, mzero, some 0⟩ = some ⟨mzero, mzero, some 0⟩ ∧
    ∃ T, localize tieEnv [] [] [] = some T ∧
      (tieEnv.eigen (solverMatrix ⟨mzero, mzero, some 0⟩))[1]? = some (some 2, T.r) := by
  refine ⟨rfl, ?_⟩
  obtain ⟨i, m, v, T, hi, hloc, hr, hmax, hlow⟩ := C15_eigenvector_selection tieEnv [] [] []
    ⟨mzero, mzero, some 0⟩ rfl ⟨(some 1, fun i => if i = 0 then some 1 else some 0),
      by simp [tieEnv], by simp⟩
  refine ⟨T, hloc, ?_⟩
  have h2 : (2 : ℚ) ≤ m := hmax 1 2 (fun i => if i = 1 then some 1 else some 0)
    (by simp [tieEnv])
  have hi4 : i < 4 := by
    by_contra hcon
    rw [List.getElem?_eq_none (by simp [tieEnv]; omega)] at hi
    simp at hi
  rw [hr]
  interval_cases i
  · simp [tieEnv] at hi
    linarith [hi.1]
  · exact hi.trans (by
      simp [tieEnv] at hi
      rw [← hi.1])
  · simp [tieEnv] at hi
  · have := hlow 1 2 (fun i => if i = 1 then some 1 else some 0) (by norm_num)
      (by simp [tieEnv])
    simp [tieEnv] at hi
    linarith [hi.1]

/-- C17 (the code at the failing input): pass 1 of `ICP` as the code computes it, on three
equal distances `0x1.df3b64p-4` (about 0.117) with `Dmax = 200`. The `float` sum of the three
rounds up, so `mu` is one unit in the last place above the distance, `mu*mu` exceeds
`sigma/n`, and the quantity `sigma/n - mu*mu` whose square root is taken is the negative
number `-2^-29`, whereas over exact arithmetic it is 0. With a square root that is NaN on
negative numbers, `sigma` is NaN, the new `Dmax = mu + 3*sigma` is NaN and pass 2 rejects
every index. -/
theorem C17_equal_distances_sigma_nan (env : Env)
    (hs : ∀ q : ℚ, q < 0 → env.sqrt q = none) :
    pass1Mu32 (some 200) [(0, some (7851737 / 67108864)), (1, some (7851737 / 67108864)), (2,
        some (7851737 / 67108864))] = some (15703475 / 134217728) ∧
    ((7851737 / 67108864) : ℚ) < (15703475 / 134217728) ∧
    pass1Arg32 (some 200) [(0, some (7851737 / 67108864)), (1, some (7851737 / 67108864)), (2,
        some (7851737 / 67108864))] = some (-(1 / 536870912)) ∧
    (-(1 / 536870912) : ℚ) < 0 ∧
    pass1Sigma32 env (some 200) [(0, some (7851737 / 67108864)), (1, some (7851737 / 67108864)), (2,
        some (7851737 / 67108864))] = none ∧
    filterStep32 env 0 [(0, some (7851737 / 67108864)), (1, some (7851737 / 67108864)), (2,
        some (7851737 / 67108864))] (some 200) = some ([-1, -1, -1], none, 0) ∧
    fsub (fdiv (sumSigma (some 200) [(0, some (7851737 / 67108864)), (1, some (7851737 / 67108864)),
        (2, some (7851737 / 67108864))]) (some 3))
      (fmul (pass1Mu (some 200) [(0, some (7851737 / 67108864)), (1, some (7851737 / 67108864)), (2,
          some (7851737 / 67108864))]) (pass1Mu (some 200) [(0, some (7851737 / 67108864)), (1,
          some (7851737 / 67108864)), (2, some (7851737 / 67108864))])) = some 0 := by
  obtain ⟨h1, h2⟩ := equalRun_filter env hs 0
  refine ⟨equalRun_mu, by norm_num, equalRun_arg, by norm_num, h1, h2, ?_⟩
  norm_num [pass1Mu, sumMu, sumSigma, flt, fadd, fmul, fdiv, fsub]

/-- C17 (witness): the square root of `sampleEnv` is NaN on negative numbers, and with it the
filter step on the three equal distances rejects every index. -/
theorem C17_equal_distances_sigma_nan_witness :
    (∀ q : ℚ, q < 0 → sampleEnv.sqrt q = none) ∧
    filterStep32 sampleEnv 0 [(0, some (7851737 / 67108864)), (1, some (7851737 / 67108864)), (2,
        some (7851737 / 67108864))] (some 200) = some ([-1, -1, -1], none, 0) := by
  have hs : ∀ q : ℚ, q < 0 → sampleEnv.sqrt q = none := by
    intro q hq
    simp [sampleEnv, hq]
  exact ⟨hs, (C17_equal_distances_sigma_nan sampleEnv hs).2.2.2.2.2.1⟩

/-- C18: the matrix `A = 0.5 * (0.5/W * C2^T C2 - C1 - C1^T)` that `localize` hands to the eigen
solver is symmetric for all accumulators; for accumulated matrices `C1`, `C2` of numbers and
`matchCount = n >= 1` its entry `(i, j)` is the number
`(sum over k of C2[k][i] * C2[k][j]) / n + C1[i][j] + C1[j][i]` (with `C1`, `C2` the sums
before scaling), whatever the matrix forms `Q` and `W` are. -/
theorem C18_solver_matrix_symmetric (acc : Acc) :
    transpose (solverMatrix acc) = solverMatrix acc ∧
    (∀ (env : Env) (reference source : PointCloud) (matched : List Int),
      accLoop env reference source matched ⟨mzero, mzero, some 0⟩ = some acc →
      ∃ T, localize env reference source matched = some T ∧
        T.r = selectEigenvector env (solverMatrix acc)) ∧
    (∀ (c1 c2 : Fin 4 → Fin 4 → ℚ) (n : Nat), 1 ≤ n →
      acc = ⟨fun i j => some (c1 i j), fun i j => some (c2 i j), some (n : ℚ)⟩ →
      ∀ i j, solverMatrix acc i j =
        some ((c2 0 i * c2 0 j + c2 1 i * c2 1 j + c2 2 i * c2 2 j + c2 3 i * c2 3 j) / (n : ℚ) +
          c1 i j + c1 j i)) := by
  refine ⟨solverMatrix_symm acc, ?_, ?_⟩
  · intro env reference source matched hacc
    exact ⟨_, localize_of_accLoop env reference source matched acc hacc, rfl⟩
  · intro c1 c2 n hn hacc i j
    have hn' : (n : ℚ) ≠ 0 := by
      have : n ≠ 0 := by omega
      exact_mod_cast this
    subst hacc
    simp only [solverMatrix, smul, msub, mmul, transpose, sum4, fdiv, hn', if_false, fmul, fadd,
      fsub, Option.some.injEq]
    field_simp
    ring

/-- C18 (witness): zero accumulators with `matchCount = 1` give the zero matrix. -/
theorem C18_solver_matrix_symmetric_witness :
    (1 : Nat) ≤ 1 ∧
    solverMatrix ⟨fun _ _ => some 0, fun _ _ => some 0, some ((1 : Nat) : ℚ)⟩ 0 1 =
      some (((0 : ℚ) * 0 + 0 * 0 + 0 * 0 + 0 * 0) / ((1 : Nat) : ℚ) + 0 + 0) :=
  ⟨le_refl _, (C18_solver_matrix_symmetric
    ⟨fun _ _ => some 0, fun _ _ => some 0, some ((1 : Nat) : ℚ)⟩).2.2
    (fun _ _ => 0) (fun _ _ => 0) 1 (le_refl _) rfl 0 1⟩
/-- C19 (counterexample): the first filter step of `ICP` (`Dmax = 200`) as the code computes
it, on the ten distances 6.41865015, 3.20932508, 2.13954997, 1.60466254, 1.28373003, 16.046627
and four times 152.825012, with every sample of `choose_xi` hitting index 6. `mu` is about
64.2, not below `6*D`, so `choose_xi` is called: `max` is 160.466263, the first five distances
are counted in bin 0, which is the peak, the valley is bin 1, and the returned value, the
`float` product of the `float` quotient `1/25` and `max`, is 6.41865015: it is below
`(peak + 1) / 25 * max` and equal to the first distance, which was counted in the peak bin and
which the strict test of pass 2 now rejects. -/
theorem C19_threshold_counterexample :
    pass1Mu32 (some 200)
      [(0, some (13460885 / 2097152)), (1, some (13460885 / 4194304)), (2, some (8973923 /
          4194304)), (3, some (13460885 / 8388608)), (4, some (2692177 / 2097152)), (5,
          some (4206527 / 262144)), (6, some (2503885 / 16384)), (7, some (2503885 / 16384)), (8,
          some (2503885 / 16384)), (9, some (2503885 / 16384))] =
      some (1051857 / 16384) ∧
    ¬ (((1051857 / 16384) : ℚ) < 60) ∧
    estimateMax32 (fun _ => 6)
      [some (13460885 / 2097152), some (13460885 / 4194304), some (8973923 / 4194304),
          some (13460885 / 8388608), some (2692177 / 2097152), some (4206527 / 262144),
          some (2503885 / 16384), some (2503885 / 16384), some (2503885 / 16384), some (2503885 /
          16384)] 10 =
      some (some (10516317 / 65536)) ∧
    histogram32
      [some (13460885 / 2097152), some (13460885 / 4194304), some (8973923 / 4194304),
          some (13460885 / 8388608), some (2692177 / 2097152), some (4206527 / 262144),
          some (2503885 / 16384), some (2503885 / 16384), some (2503885 / 16384), some (2503885 /
          16384)] 10
      (some (10516317 / 65536)) =
      some [5, 0, 1, 0, 0, 0, 0, 0, 0, 0, 0, 0, 0, 0, 0, 0, 0, 0, 0, 0, 0, 0, 0, 4, 0, 0] ∧
    findPeak [5, 0, 1, 0, 0, 0, 0, 0, 0, 0, 0, 0, 0, 0, 0, 0, 0, 0, 0, 0, 0, 0, 0, 4, 0, 0] = (0, 5)
        ∧
    binOf32 (some (10516317 / 65536)) (some (13460885 / 2097152)) = some 0 ∧
    choose_xi32 (fun _ => 6)
      [some (13460885 / 2097152), some (13460885 / 4194304), some (8973923 / 4194304),
          some (13460885 / 8388608), some (2692177 / 2097152), some (4206527 / 262144),
          some (2503885 / 16384), some (2503885 / 16384), some (2503885 / 16384), some (2503885 /
          16384)]
      [0, 1, 2, 3, 4, 5, 6, 7, 8, 9] =
      some (some (13460885 / 2097152)) ∧
    ¬ (((0 : ℚ) + 1) / 25 * (10516317 / 65536) ≤ (13460885 / 2097152)) ∧
    flt (some (13460885 / 2097152)) (some (13460885 / 2097152)) = false ∧
    filterStep32 sixEnv 0
      [(0, some (13460885 / 2097152)), (1, some (13460885 / 4194304)), (2, some (8973923 /
          4194304)), (3, some (13460885 / 8388608)), (4, some (2692177 / 2097152)), (5,
          some (4206527 / 262144)), (6, some (2503885 / 16384)), (7, some (2503885 / 16384)), (8,
          some (2503885 / 16384)), (9, some (2503885 / 16384))] (some 200) =
      some ([-1, 1, 2, 3, 4, -1, -1, -1, -1, -1], some (13460885 / 2097152), 100) := by
  refine ⟨peakRun_mu, by norm_num, peakRun_max _ (fun _ => rfl), peakRun_hist, by decide,
    peakRun_bin, peakRun_xi _ (fun _ => rfl) _ rfl, by norm_num, ?_,
    peakRun_filter sixEnv (fun _ => rfl) 0⟩
  simp [flt]

/-- C19 (amended): for every non-empty list of finite non-negative distances and every choice
of the 100 sampled indices. Over exact arithmetic, with `max > 0`, `choose_xi` returns a value
that is at least `(peak + 1) / 25 * max` and at most `26 / 25 * max`, where `peak <= 25` is the
selected peak bin, so that when `peak < 25` every source index whose distance was counted in
the peak bin or in a lower bin has its distance below the returned threshold and keeps its
nearest index in pass 2. As the code computes it in `float` arithmetic, with `max` between
`2^-120` and `2^120`, `choose_xi` returns a value that is at least
`(peak + 1) / 25 * max * (1 - 2^-23)` and at most `26 / 25 * max * (1 + 2^-22)`, and every
source index whose distance was counted in a bin strictly below the peak bin has its distance
below the returned threshold and keeps its nearest index in pass 2. -/
theorem C19_threshold_above_peak (rand : Nat → Nat) (nearest : List (Int × F))
    (matched : List Int) (hne : nearest ≠ []) (hlen : matched.length = nearest.length)
    (hfin : ∀ r ∈ nearest, ∃ q : ℚ, 0 ≤ q ∧ r.2 = some q) :
    (∃ max, estimateMax rand (nearest.map Prod.snd) matched.length = some (some max) ∧ 0 ≤ max ∧
      (0 < max → ∃ counts x,
        histogram (nearest.map Prod.snd) matched.length (some max) = some counts ∧
        choose_xi rand (nearest.map Prod.snd) matched = some (some x) ∧
        (findPeak counts).1 ≤ 25 ∧
        (((findPeak counts).1 : ℚ) + 1) / 25 * max ≤ x ∧ x ≤ 26 / 25 * max ∧
        ((findPeak counts).1 < 25 →
          ∀ i (hi : i < nearest.length) k, binOf (some max) nearest[i].2 = some k →
            k ≤ (findPeak counts).1 →
            flt nearest[i].2 (some x) = true ∧
            (matchPass (some x) nearest)[i]? = some nearest[i].1))) ∧
    (∃ m, estimateMax32 rand (nearest.map Prod.snd) matched.length = some m ∧
      ∀ max : ℚ, m = some max → 1 / 1329227995784915872903807060280344576 ≤ max →
        max ≤ 1329227995784915872903807060280344576 →
        ∃ counts x,
          histogram32 (nearest.map Prod.snd) matched.length (some max) = some counts ∧
          choose_xi32 rand (nearest.map Prod.snd) matched = some (some x) ∧
          (findPeak counts).1 ≤ 25 ∧
          (((findPeak counts).1 : ℚ) + 1) / 25 * max * (1 - 1 / 8388608) ≤ x ∧
          x ≤ 26 / 25 * max * (1 + 1 / 4194304) ∧
          ∀ i (hi : i < nearest.length) k, binOf32 (some max) nearest[i].2 = some k →
            k < (findPeak counts).1 →
            flt nearest[i].2 (some x) = true ∧
            (matchPass (some x) nearest)[i]? = some nearest[i].1) := by
  have hsize : matched.length ≠ 0 := by
    rw [hlen]; exact fun h => hne (List.length_eq_zero.mp h)
  have hle : matched.length ≤ (nearest.map Prod.snd).length := by simp [hlen]
  have hfin' : ∀ d ∈ nearest.map Prod.snd, ∃ q : ℚ, 0 ≤ q ∧ d = some q := by
    intro d hd
    obtain ⟨r, hr, rfl⟩ := List.mem_map.mp hd
    exact hfin r hr
  constructor
  · obtain ⟨max, hmax, h0⟩ :=
      estimateMax_defined rand (nearest.map Prod.snd) matched.length hsize hle
    refine ⟨max, hmax, h0, fun hpos => ?_⟩
    obtain ⟨counts, hc, _⟩ :=
      histogram_defined max hpos (nearest.map Prod.snd) matched.length hle hfin'
    obtain ⟨hp1, _, _⟩ := findPeak_spec counts
    obtain ⟨hv1, hv2⟩ := findValley_bounds counts (findPeak counts).1 (findPeak counts).2 hp1
    have hx : choose_xi rand (nearest.map Prod.snd) matched =
        some (some (((findValley counts (findPeak counts).1 (findPeak counts).2 : Nat) : ℚ) /
          25 * max)) := by
      simp only [choose_xi, hmax, hc, fmul]
      norm_num [num_bins]
    have hlow : (((findPeak counts).1 : ℚ) + 1) / 25 * max ≤
        ((findValley counts (findPeak counts).1 (findPeak counts).2 : Nat) : ℚ) / 25 * max := by
      apply mul_le_mul_of_nonneg_right _ (le_of_lt hpos)
      apply div_le_div_of_nonneg_right _ (by norm_num)
      exact_mod_cast hv1
    refine ⟨counts, _, hc, hx, by simpa [num_bins] using hp1, hlow, ?_, ?_⟩
    · apply mul_le_mul_of_nonneg_right _ (le_of_lt hpos)
      apply div_le_div_of_nonneg_right _ (by norm_num)
      have : findValley counts (findPeak counts).1 (findPeak counts).2 ≤ 26 := by
        simpa [num_bins] using hv2
      exact_mod_cast this
    · intro hpk i hi k hk hkp
      obtain ⟨q, hq, hd⟩ := hfin nearest[i] (List.getElem_mem _)
      rw [hd] at hk
      have hlt : flt nearest[i].2
          (some (((findValley counts (findPeak counts).1 (findPeak counts).2 : Nat) : ℚ) / 25 *
            max)) = true := by
        rw [hd]
        simp only [flt, decide_eq_true_eq]
        rcases (binOf_iff max q k hpos hq).mp hk with ⟨_, _, h3⟩ | ⟨h1, _⟩
        · have hkq : ((k : ℚ) + 1) ≤ ((findPeak counts).1 : ℚ) + 1 := by
            have : (k : ℚ) ≤ ((findPeak counts).1 : ℚ) := by exact_mod_cast hkp
            linarith
          have h4 : (num_bins : ℚ) * q < (((findPeak counts).1 : ℚ) + 1) * max :=
            lt_of_lt_of_le h3 (mul_le_mul_of_nonneg_right hkq (le_of_lt hpos))
          have h5 : q < (((findPeak counts).1 : ℚ) + 1) / 25 * max := by
            have hnb : (num_bins : ℚ) = 25 := by norm_num [num_bins]
            rw [hnb] at h4
            rw [div_mul_eq_mul_div, lt_div_iff₀ (by norm_num)]
            linarith
          exact lt_of_lt_of_le h5 hlow
        · simp only [num_bins] at h1; omega
      exact ⟨hlt, by simp [matchPass, hi, hlt]⟩
  · obtain ⟨m0, hm0, _⟩ := sample_foldlM rand (nearest.map Prod.snd) matched.length hsize hle
      (List.range 100) 0 (le_refl _)
    have hest : estimateMax32 rand (nearest.map Prod.snd) matched.length =
        some (fl32 (fmul64 (some m0) (fl64 (some (21 / 20))))) := by
      simp only [estimateMax32, hm0, Option.map_some']
    refine ⟨_, hest, fun max hmax h1 h2 => ?_⟩
    rw [hmax] at hest
    have hmpos : 0 < max := lt_of_lt_of_le (by norm_num) h1
    obtain ⟨counts, hc⟩ := histogram32_defined max (by linarith) (by linarith)
      (nearest.map Prod.snd) matched.length hle hfin'
    obtain ⟨hp1, _, _⟩ := findPeak_spec counts
    obtain ⟨hv1, hv2⟩ :=
      findValley32_bounds counts (findPeak counts).1 (findPeak counts).2 hp1
    obtain ⟨x, hx, hx1, hx2⟩ :=
      xi32_value max (findValley32 counts (findPeak counts).1 (findPeak counts).2) (by omega)
        (by simpa [num_bins] using hv2) h1 h2
    have hxi : choose_xi32 rand (nearest.map Prod.snd) matched = some (some x) := by
      simp only [choose_xi32, hest, hc, hx]
    have hvq : ((findPeak counts).1 : ℚ) + 1 ≤
        ((findValley32 counts (findPeak counts).1 (findPeak counts).2 : Nat) : ℚ) := by
      exact_mod_cast hv1
    have hvq2 : ((findValley32 counts (findPeak counts).1 (findPeak counts).2 : Nat) : ℚ) ≤
        26 := by
      have : findValley32 counts (findPeak counts).1 (findPeak counts).2 ≤ 26 := by
        simpa [num_bins] using hv2
      exact_mod_cast this
    refine ⟨counts, x, hc, hxi, by simpa [num_bins] using hp1, ?_, ?_, ?_⟩
    · refine le_trans ?_ hx1
      apply mul_le_mul_of_nonneg_right _ (by norm_num)
      apply mul_le_mul_of_nonneg_right _ (le_of_lt hmpos)
      exact div_le_div_of_nonneg_right hvq (by norm_num)
    · refine le_trans hx2 ?_
      apply mul_le_mul_of_nonneg_right _ (by norm_num)
      apply mul_le_mul_of_nonneg_right _ (le_of_lt hmpos)
      exact div_le_div_of_nonneg_right hvq2 (by norm_num)
    · intro i hi k hk hkp
      obtain ⟨q, hq, hd⟩ := hfin nearest[i] (List.getElem_mem _)
      rw [hd] at hk
      have hlt : flt nearest[i].2 (some x) = true := by
        rw [hd]
        simp only [flt, decide_eq_true_eq]
        exact xi32_above_lower_bins max q x k _ h1 h2 hq hk (by omega)
          (by simpa [num_bins] using hv2) hx1
      exact ⟨hlt, by simp [matchPass, hi, hlt]⟩

/-- C19 (witness): the distances 1, 10, 10 with every sample hitting index 1: `max` is 10.5,
the distance 1 is counted in bin 2 and the two distances 10 in bin 23, the peak. Over exact
arithmetic the distance 10, counted in the peak bin, is below the returned threshold and index
1 keeps its nearest index; as computed, the distance 1, counted below the peak bin, is below
the returned threshold and index 0 keeps its nearest index. -/
theorem C19_threshold_above_peak_witness :
    ([(0, some 1), (1, some 10), (2, some 10)] : List (Int × F)) ≠ [] ∧
    (∃ x, choose_xi (fun _ => 1) (([(0, some 1), (1, some 10), (2, some 10)] : List (Int × F)).map
        Prod.snd) [0, 0, 0] =
        some (some x) ∧
      flt (some 10) (some x) = true ∧
      (matchPass (some x) [(0, some 1), (1, some 10), (2, some 10)])[1]? = some 1) ∧
    ∃ x, choose_xi32 (fun _ => 1) (([(0, some 1), (1, some 10), (2, some 10)] : List (Int × F)).map
        Prod.snd) [0, 0, 0] =
        some (some x) ∧
      flt (some 1) (some x) = true ∧
      (matchPass (some x) [(0, some 1), (1, some 10), (2, some 10)])[0]? = some 0 := by
  have h105 : fl64 (some (21 / 20)) = (some (4728779608739021 / 4503599627370496)) :=
    fl64_eval _ _ (1 / 4503599627370496) 4728779608739021 (-52) (by norm_num) (by norm_num)
      (by norm_num) (by norm_num) (by norm_num) (by norm_num) (by norm_num) (by norm_num)
  have h64 : fmul64 (some 10) (some (4728779608739021 / 4503599627370496)) = (some (21 / 2)) :=
    fl64_eval _ _ (1 / 562949953421312) 5910974510923776 (-49) (by norm_num) (by norm_num)
      (by norm_num) (by norm_num) (by norm_num) (by norm_num) (by norm_num) (by norm_num)
  have h32 : fl32 (some (21 / 2)) = (some (21 / 2)) :=
    fl32_eval _ _ (1 / 1048576) 11010048 (-20) (by norm_num) (by norm_num) (by norm_num)
      (by norm_num) (by norm_num) (by norm_num) (by norm_num) (by norm_num)
  have p0 : fmul32 (some 25) (some 1) = (some 25) :=
    fl32_eval _ _ (1 / 524288) 13107200 (-19) (by norm_num) (by norm_num) (by norm_num)
      (by norm_num) (by norm_num) (by norm_num) (by norm_num) (by norm_num)
  have q0 : fdiv32 (some 25) (some (21 / 2)) = (some (4993219 / 2097152)) :=
    (fdiv32_some _ _ (by norm_num)).trans (fl32_eval _ _ (1 / 4194304) 9986438 (-22) (by norm_num)
      (by norm_num) (by norm_num) (by norm_num) (by norm_num) (by norm_num) (by norm_num)
      (by norm_num))
  have b0 : binOf32 (some (21 / 2)) (some 1) = some 2 :=
    binOf32_eq _ _ _ _ 2 (by norm_num) p0 q0 (by decide) (by norm_num) (by norm_num)
  have e0 : binOf (some (21 / 2)) (some 1) = some 2 :=
    binOf_eq _ _ 2 (by norm_num) (by decide) (by norm_num) (by norm_num [num_bins]) (by norm_num
      [num_bins])
  have p1 : fmul32 (some 25) (some 10) = (some 250) :=
    fl32_eval _ _ (1 / 65536) 16384000 (-16) (by norm_num) (by norm_num) (by norm_num)
      (by norm_num) (by norm_num) (by norm_num) (by norm_num) (by norm_num)
  have q1 : fdiv32 (some 250) (some (21 / 2)) = (some (1560381 / 65536)) :=
    (fdiv32_some _ _ (by norm_num)).trans (fl32_eval _ _ (1 / 524288) 12483048 (-19) (by norm_num)
      (by norm_num) (by norm_num) (by norm_num) (by norm_num) (by norm_num) (by norm_num)
      (by norm_num))
  have b1 : binOf32 (some (21 / 2)) (some 10) = some 23 :=
    binOf32_eq _ _ _ _ 23 (by norm_num) p1 q1 (by decide) (by norm_num) (by norm_num)
  have e1 : binOf (some (21 / 2)) (some 10) = some 23 :=
    binOf_eq _ _ 23 (by norm_num) (by decide) (by norm_num) (by norm_num [num_bins]) (by norm_num
      [num_bins])
  have hmax : estimateMax (fun _ => 1) [some 1, some 10, some 10] 3 = some (some (21 / 2)) := by
    rw [estimateMax_const (fun _ => 1) [some 1, some 10, some 10] 3 1 10 (by decide) (fun _ => rfl)
        rfl
      (by norm_num)]
    norm_num
  have hmax32 : estimateMax32 (fun _ => 1) [some 1, some 10, some 10] 3 = some (some (21 / 2)) := by
    rw [estimateMax32_const (fun _ => 1) [some 1, some 10, some 10] 3 1 10 (by decide) (fun _ =>
        rfl) rfl
      (by norm_num), h105, h64, h32]
  have hhist : histogram [some 1, some 10, some 10] 3 (some (21 / 2)) =
      some [0, 0, 1, 0, 0, 0, 0, 0, 0, 0, 0, 0, 0, 0, 0, 0, 0, 0, 0, 0, 0, 0, 0, 2, 0, 0] := by
    refine (histogram_eq_histLoop _ _ _ rfl).trans ?_
    simp only [histLoop, e0, e1]
    rfl
  have hhist32 : histogram32 [some 1, some 10, some 10] 3 (some (21 / 2)) =
      some [0, 0, 1, 0, 0, 0, 0, 0, 0, 0, 0, 0, 0, 0, 0, 0, 0, 0, 0, 0, 0, 0, 0, 2, 0, 0] := by
    refine (histogram32_eq_histLoop32 _ _ _ rfl).trans ?_
    rw [histLoop32_cons _ _ _ _ _ b0, histLoop32_cons _ _ _ _ _ b1,
      histLoop32_cons _ _ _ _ _ b1]
    rfl
  have hpeak : findPeak [0, 0, 1, 0, 0, 0, 0, 0, 0, 0, 0, 0, 0, 0, 0, 0, 0, 0, 0, 0, 0, 0, 0, 2, 0,
      0] = (23, 2) := by
    decide
  obtain ⟨⟨max, hm, _, hA⟩, ⟨m, hm32, hB⟩⟩ :=
    C19_threshold_above_peak (fun _ => 1) [(0, some 1), (1, some 10), (2, some 10)] [0, 0, 0]
        (by simp) rfl
      (by
        intro r hr
        simp only [List.mem_cons, List.mem_singleton, List.not_mem_nil, or_false] at hr
        rcases hr with rfl | rfl | rfl
        · exact ⟨1, by norm_num, rfl⟩
        · exact ⟨10, by norm_num, rfl⟩
        · exact ⟨10, by norm_num, rfl⟩)
  refine ⟨by simp, ?_, ?_⟩
  · change estimateMax (fun _ => 1) [some 1, some 10, some 10] 3 = some (some max) at hm
    rw [hmax] at hm
    have hmv : (21 / 2 : ℚ) = max := Option.some.inj (Option.some.inj hm)
    subst hmv
    obtain ⟨counts, x, hc, hx, _, _, _, hacc⟩ := hA (by norm_num)
    change histogram [some 1, some 10, some 10] 3 (some (21 / 2)) = some counts at hc
    rw [hhist] at hc
    have hcv := Option.some.inj hc
    subst hcv
    have h := hacc (by rw [hpeak]; norm_num) 1 (by simp) 23 e1 (by rw [hpeak])
    exact ⟨x, hx, h.1, h.2⟩
  · change estimateMax32 (fun _ => 1) [some 1, some 10, some 10] 3 = some m at hm32
    rw [hmax32] at hm32
    have hmv := (Option.some.inj hm32).symm
    obtain ⟨counts, x, hc, hx, _, _, _, hacc⟩ := hB (21 / 2) hmv (by norm_num) (by norm_num)
    change histogram32 [some 1, some 10, some 10] 3 (some (21 / 2)) = some counts at hc
    rw [hhist32] at hc
    have hcv := Option.some.inj hc
    subst hcv
    have h := hacc 0 (by simp) 2 b0 (by rw [hpeak]; norm_num)
    exact ⟨x, hx, h.1, h.2⟩

end Registration
